import Mathlib

/-!
# Grammar model of the lalr parser generator

A shallow embedding of `Grammar.cpp` and `ParserGrammar.cpp`, and of the scanner
step declared in `Lexer.hpp`.

The C++ containers `std::vector<std::unique_ptr<T>>` only ever grow at the
back, so a raw pointer `T*` into one of them is modelled by the position of the
pointee in the vector (`Nat`), and a nullable pointer by `Option Nat`.  Member
functions become state-passing functions on the `Grammar` record; a member
function that returns a pointer returns the new state together with the
position.  `SWEET_ASSERT` comes from `assert.hpp` and compiles to nothing when
assertions are disabled; the builder guards every assertion about its scope
state with an explicit `if`, and the embedding follows those guards.
-/

namespace Lalr

/-! ## Enumerations (`SymbolType.hpp`, `LexemeType.hpp`, `Associativity.hpp`,
`LexerTokenType.hpp`) -/

inductive SymbolType where
  | SYMBOL_NULL
  | SYMBOL_TERMINAL
  | SYMBOL_NON_TERMINAL
  | SYMBOL_END
  deriving DecidableEq, Repr

inductive LexemeType where
  | LEXEME_NULL
  | LEXEME_LITERAL
  | LEXEME_REGULAR_EXPRESSION
  deriving DecidableEq, Repr

inductive Associativity where
  | ASSOCIATE_NULL
  | ASSOCIATE_NONE
  | ASSOCIATE_LEFT
  | ASSOCIATE_RIGHT
  deriving DecidableEq, Repr

inductive LexerTokenType where
  | TOKEN_NULL
  | TOKEN_LITERAL
  | TOKEN_REGULAR_EXPRESSION
  deriving DecidableEq, Repr

open SymbolType LexemeType Associativity LexerTokenType

/-! ## Records -/

/-- The data members of `Symbol` (Symbol.hpp) that the grammar builder reads or
writes.  `productions` holds positions in `Grammar::productions_`. -/
structure Symbol where
  lexeme : String
  symbol_type : SymbolType
  lexeme_type : LexemeType
  associativity : Associativity
  precedence : Int
  line : Int
  productions : List Nat
  deriving DecidableEq, Repr

/-- Modelled from the spec: the constructor `Symbol::Symbol( lexeme )` (its
body is in Symbol.cpp): a fresh symbol has the given lexeme, Null symbol and
lexeme types, no associativity, precedence 0 (no precedence) and no
productions. -/
def Symbol.new (lexeme : String) : Symbol :=
  { lexeme := lexeme
    symbol_type := SYMBOL_NULL
    lexeme_type := LEXEME_NULL
    associativity := ASSOCIATE_NULL
    precedence := 0
    line := 0
    productions := [] }

/-- Modelled from the spec: the record behind `Production` (Production.hpp):
index, left-hand side, line, action, right-hand side and precedence symbol.
`symbol`, `symbols` and `precedence_symbol` are positions in
`Grammar::symbols_`, `action` a position in `Grammar::actions_`. -/
structure Production where
  index : Int
  symbol : Nat
  line : Int
  action : Option Nat
  symbols : List Nat
  precedence_symbol : Option Nat
  deriving DecidableEq, Repr

/-- Modelled from the spec: the constructor
`Production( index, symbol, line, action )`: empty right-hand side and no
precedence symbol. -/
def Production.new (index : Int) (symbol : Nat) (line : Int) (action : Option Nat) : Production :=
  { index := index
    symbol := symbol
    line := line
    action := action
    symbols := []
    precedence_symbol := none }

/-- Modelled from the spec: the record behind `Action` (Action.hpp). -/
structure Action where
  index : Int
  identifier : String
  deriving DecidableEq, Repr

/-- Modelled from the spec: the record behind `Directive` (Directive.hpp): an
associativity and the ordered list of the symbols it lists. -/
structure Directive where
  associativity : Associativity
  symbols : List Nat
  deriving DecidableEq, Repr

/-- Modelled from the spec: the record behind `LexerToken`, built by
`LexerToken( type, line, symbol, lexeme )`. -/
structure LexerToken where
  type : LexerTokenType
  line : Int
  symbol : Option Nat
  lexeme : String
  deriving DecidableEq, Repr

/-- The data members of `Grammar`. -/
structure Grammar where
  identifier_ : String
  directives_ : List Directive
  symbols_ : List Symbol
  productions_ : List Production
  actions_ : List Action
  whitespace_tokens_ : List LexerToken
  active_whitespace_directive_ : Bool
  active_precedence_directive_ : Bool
  active_directive_ : Option Nat
  active_production_ : Option Nat
  active_symbol_ : Option Nat
  start_symbol_ : Option Nat
  end_symbol_ : Option Nat
  error_symbol_ : Option Nat
  deriving DecidableEq, Repr

/-! ## Writing through a pointer -/

/-- Apply `f` to the element at position `i`: the effect of calling a setter
through a pointer to that element.  Other elements are untouched. -/
def modifyAt {α : Type} (f : α → α) : List α → Nat → List α
  | [], _ => []
  | x :: xs, 0 => f x :: xs
  | x :: xs, i + 1 => x :: modifyAt f xs i

/-- The linear search `while ( i != end && key( *i ) != x ) ++i;` that every
lookup of the two grammar classes runs: the position of the first element whose
key is `x`, or `none` when the iterator reaches `end()`. -/
def find_first {α : Type} (key : α → String) (x : String) : List α → Option Nat
  | [] => none
  | a :: rest =>
    if key a = x then some 0
    else
      match find_first key x rest with
      | some i => some (i + 1)
      | none => none

/-- The search of `Grammar::add_symbol` (Grammar.cpp 386-390), by
`Symbol::lexeme()`. -/
def find_symbol (lexeme : String) (symbols : List Symbol) : Option Nat :=
  find_first Symbol.lexeme lexeme symbols

/-- The search of `Grammar::add_action` (Grammar.cpp 428-432), by
`Action::identifier()`. -/
def find_action (identifier : String) (actions : List Action) : Option Nat :=
  find_first Action.identifier identifier actions

/-! ## Setters of `Symbol`, `Production`, `Directive` -/

def Symbol.set_line (s : Symbol) (line : Int) : Symbol := { s with line := line }
def Symbol.set_lexeme_type (s : Symbol) (t : LexemeType) : Symbol := { s with lexeme_type := t }
def Symbol.set_symbol_type (s : Symbol) (t : SymbolType) : Symbol := { s with symbol_type := t }
def Symbol.set_associativity (s : Symbol) (a : Associativity) : Symbol :=
  { s with associativity := a }
def Symbol.set_precedence (s : Symbol) (p : Int) : Symbol := { s with precedence := p }
def Symbol.append_production (s : Symbol) (p : Nat) : Symbol :=
  { s with productions := s.productions ++ [p] }

def Production.append_symbol (p : Production) (s : Nat) : Production :=
  { p with symbols := p.symbols ++ [s] }
def Production.set_action (p : Production) (a : Option Nat) : Production :=
  { p with action := a }
def Production.set_precedence_symbol (p : Production) (s : Nat) : Production :=
  { p with precedence_symbol := some s }

def Directive.append_symbol (d : Directive) (s : Nat) : Directive :=
  { d with symbols := d.symbols ++ [s] }

namespace Grammar

/-! ## Private helpers of `Grammar` -/

/-- `Grammar::add_symbol` (Grammar.cpp 382-405). -/
def add_symbol (g : Grammar) (lexeme : String) (line : Int) (lexeme_type : LexemeType)
    (symbol_type : SymbolType) : Grammar × Nat :=
  match find_symbol lexeme g.symbols_ with
  | none =>
    let symbol :=
      (((Symbol.new lexeme).set_line line).set_lexeme_type lexeme_type).set_symbol_type symbol_type
    ({ g with symbols_ := g.symbols_ ++ [symbol] }, g.symbols_.length)
  | some i => (g, i)

/-- `Grammar::literal_symbol` (Grammar.cpp 361-366). -/
def literal_symbol (g : Grammar) (lexeme : String) (line : Int) : Grammar × Nat :=
  g.add_symbol lexeme line LEXEME_LITERAL SYMBOL_NULL

/-- `Grammar::regex_symbol` (Grammar.cpp 368-373). -/
def regex_symbol (g : Grammar) (lexeme : String) (line : Int) : Grammar × Nat :=
  g.add_symbol lexeme line LEXEME_REGULAR_EXPRESSION SYMBOL_NULL

/-- `Grammar::non_terminal_symbol` (Grammar.cpp 375-380). -/
def non_terminal_symbol (g : Grammar) (lexeme : String) (line : Int) : Grammar × Nat :=
  g.add_symbol lexeme line LEXEME_NULL SYMBOL_NON_TERMINAL

/-- `Grammar::directive` (Grammar.cpp 354-359). -/
def directive (g : Grammar) (associativity : Associativity) : Grammar × Nat :=
  ({ g with directives_ := g.directives_ ++ [{ associativity := associativity, symbols := [] }] },
    g.directives_.length)

/-- The `if ( productions_.empty() )` block of `Grammar::add_production`
(Grammar.cpp 410-417): the augmented production, whose left-hand side is
`start_symbol_` and whose right-hand side is the single symbol passed in. -/
def add_start_production (g : Grammar) (symbol : Nat) : Grammar :=
  match g.productions_ with
  | [] =>
    match g.start_symbol_ with
    | some start =>
      let production :=
        (Production.new (g.productions_.length : Int) start 0 none).append_symbol symbol
      { g with
        symbols_ := modifyAt (fun s => s.append_production g.productions_.length) g.symbols_ start
        productions_ := g.productions_ ++ [production] }
    | none => g
  | _ :: _ => g

/-- `Grammar::add_production` (Grammar.cpp 407-423). -/
def add_production (g : Grammar) (symbol : Nat) : Grammar × Nat :=
  let g1 := g.add_start_production symbol
  let production := Production.new (g1.productions_.length : Int) symbol (-1) none
  ({ g1 with
     symbols_ := modifyAt (fun s => s.append_production g1.productions_.length) g1.symbols_ symbol
     productions_ := g1.productions_ ++ [production] },
   g1.productions_.length)

/-- `Grammar::add_action` (Grammar.cpp 425-441). -/
def add_action (g : Grammar) (identifier : String) : Grammar × Nat :=
  match find_action identifier g.actions_ with
  | none =>
    let action : Action := { index := (g.actions_.length : Int), identifier := identifier }
    ({ g with actions_ := g.actions_ ++ [action] }, g.actions_.length)
  | some i => (g, i)

/-! ## Constructor -/

/-- The member initialiser list of `Grammar::Grammar` (Grammar.cpp 29-42). -/
def empty : Grammar :=
  { identifier_ := ""
    directives_ := []
    symbols_ := []
    productions_ := []
    actions_ := []
    whitespace_tokens_ := []
    active_whitespace_directive_ := false
    active_precedence_directive_ := false
    active_directive_ := none
    active_production_ := none
    active_symbol_ := none
    start_symbol_ := none
    end_symbol_ := none
    error_symbol_ := none }

/-- `Grammar::Grammar` (Grammar.cpp 28-47). -/
def new : Grammar :=
  let r0 := empty.add_symbol ".start" 0 LEXEME_NULL SYMBOL_NON_TERMINAL
  let g0 := { r0.1 with start_symbol_ := some r0.2 }
  let r1 := g0.add_symbol ".end" 0 LEXEME_NULL SYMBOL_END
  let g1 := { r1.1 with end_symbol_ := some r1.2 }
  let r2 := g1.add_symbol ".error" 0 LEXEME_NULL SYMBOL_NULL
  { r2.1 with error_symbol_ := some r2.2 }

/-! ## Builder operations -/

/-- `Grammar::left` (Grammar.cpp 98-107). -/
def left (g : Grammar) (_line : Int) : Grammar :=
  let r := g.directive ASSOCIATE_LEFT
  { r.1 with
    active_whitespace_directive_ := false
    active_precedence_directive_ := false
    active_directive_ := some r.2
    active_production_ := none
    active_symbol_ := none }

/-- `Grammar::right` (Grammar.cpp 109-118). -/
def right (g : Grammar) (_line : Int) : Grammar :=
  let r := g.directive ASSOCIATE_RIGHT
  { r.1 with
    active_whitespace_directive_ := false
    active_precedence_directive_ := false
    active_directive_ := some r.2
    active_production_ := none
    active_symbol_ := none }

/-- `Grammar::none` (Grammar.cpp 120-129). -/
def none (g : Grammar) (_line : Int) : Grammar :=
  let r := g.directive ASSOCIATE_NONE
  { r.1 with
    active_whitespace_directive_ := false
    active_precedence_directive_ := false
    active_directive_ := some r.2
    active_production_ := Option.none
    active_symbol_ := Option.none }

/-- `Grammar::whitespace` (Grammar.cpp 131-139). -/
def whitespace (g : Grammar) : Grammar :=
  { g with
    active_whitespace_directive_ := true
    active_precedence_directive_ := false
    active_directive_ := Option.none
    active_production_ := Option.none
    active_symbol_ := Option.none }

/-- `Grammar::precedence` (Grammar.cpp 141-149). -/
def precedence (g : Grammar) : Grammar :=
  match g.active_symbol_ with
  | some _ => { g with active_precedence_directive_ := true }
  | Option.none => g

/-- `Grammar::production` (Grammar.cpp 151-160). -/
def production (g : Grammar) (identifier : String) (line : Int) : Grammar :=
  let r := g.non_terminal_symbol identifier line
  { r.1 with
    active_whitespace_directive_ := false
    active_precedence_directive_ := false
    active_directive_ := Option.none
    active_production_ := Option.none
    active_symbol_ := some r.2 }

/-- `Grammar::end_production` (Grammar.cpp 162-171). -/
def end_production (g : Grammar) : Grammar :=
  { g with
    active_whitespace_directive_ := false
    active_precedence_directive_ := false
    active_directive_ := Option.none
    active_production_ := Option.none
    active_symbol_ := Option.none }

/-- The step `if ( !active_production_ ) active_production_ = add_production(
active_symbol_ );` shared by `end_expression`, `error`, `literal`, `regex` and
`identifier`. -/
def open_production (g : Grammar) (active_symbol : Nat) : Grammar × Nat :=
  match g.active_production_ with
  | some p => (g, p)
  | Option.none =>
    let r := g.add_production active_symbol
    ({ r.1 with active_production_ := some r.2 }, r.2)

/-- `Grammar::end_expression` (Grammar.cpp 173-187). -/
def end_expression (g : Grammar) : Grammar :=
  let g1 :=
    match g.active_symbol_ with
    | some s => (g.open_production s).1
    | Option.none => g
  { g1 with active_production_ := Option.none }

/-- `Grammar::error` (Grammar.cpp 189-204). -/
def error (g : Grammar) : Grammar :=
  match g.active_directive_ with
  | some d =>
    match g.error_symbol_ with
    | some e => { g with directives_ := modifyAt (fun x => x.append_symbol e) g.directives_ d }
    | Option.none => g
  | Option.none =>
    match g.active_symbol_ with
    | some s =>
      let r := g.open_production s
      match r.1.error_symbol_ with
      | some e =>
        { r.1 with productions_ := modifyAt (fun x => x.append_symbol e) r.1.productions_ r.2 }
      | Option.none => r.1
    | Option.none => g

/-- `Grammar::action` (Grammar.cpp 206-215). -/
def action (g : Grammar) (identifier : String) : Grammar :=
  match g.active_production_ with
  | some p =>
    let r := g.add_action identifier
    { r.1 with
      productions_ := modifyAt (fun x => x.set_action (some r.2)) r.1.productions_ p
      active_production_ := Option.none }
  | Option.none => g

/-- The production-scope branch shared by `literal`, `regex` and `identifier`
(Grammar.cpp 230-245, 262-277, 290-305): open a production if none is active,
then intern the symbol with `intern` and either make it the precedence symbol
(clearing the mark) or append it to the right-hand side. -/
def production_symbol (g : Grammar) (active_symbol : Nat)
    (intern : Grammar → Grammar × Nat) : Grammar :=
  let r := g.open_production active_symbol
  let g1 := r.1
  let p := r.2
  if g1.active_precedence_directive_ then
    let q := intern g1
    { q.1 with
      productions_ := modifyAt (fun x => x.set_precedence_symbol q.2) q.1.productions_ p
      active_precedence_directive_ := false }
  else
    let q := intern g1
    { q.1 with productions_ := modifyAt (fun x => x.append_symbol q.2) q.1.productions_ p }

/-- The directive-scope branch shared by `literal`, `regex` and `identifier`:
`active_directive_->append_symbol( ..._symbol(lexeme, line) )`. -/
def directive_symbol (g : Grammar) (active_directive : Nat)
    (intern : Grammar → Grammar × Nat) : Grammar :=
  let q := intern g
  { q.1 with directives_ := modifyAt (fun x => x.append_symbol q.2) q.1.directives_ active_directive }

/-- `Grammar::literal` (Grammar.cpp 217-247). -/
def literal (g : Grammar) (literal : String) (line : Int) : Grammar :=
  if g.active_whitespace_directive_ then
    let token : LexerToken :=
      { type := TOKEN_LITERAL, line := 0, symbol := Option.none, lexeme := literal }
    { g with whitespace_tokens_ := g.whitespace_tokens_ ++ [token] }
  else
    match g.active_directive_ with
    | some d => g.directive_symbol d (fun h => h.literal_symbol literal line)
    | Option.none =>
      match g.active_symbol_ with
      | some s => g.production_symbol s (fun h => h.literal_symbol literal line)
      | Option.none => g

/-- `Grammar::regex` (Grammar.cpp 249-279). -/
def regex (g : Grammar) (regex : String) (line : Int) : Grammar :=
  if g.active_whitespace_directive_ then
    let token : LexerToken :=
      { type := TOKEN_REGULAR_EXPRESSION, line := 0, symbol := Option.none, lexeme := regex }
    { g with whitespace_tokens_ := g.whitespace_tokens_ ++ [token] }
  else
    match g.active_directive_ with
    | some d => g.directive_symbol d (fun h => h.regex_symbol regex line)
    | Option.none =>
      match g.active_symbol_ with
      | some s => g.production_symbol s (fun h => h.regex_symbol regex line)
      | Option.none => g

/-- `Grammar::identifier` (Grammar.cpp 281-307). -/
def identifier (g : Grammar) (identifier : String) (line : Int) : Grammar :=
  match g.active_directive_ with
  | some d => g.directive_symbol d (fun h => h.non_terminal_symbol identifier line)
  | Option.none =>
    match g.active_symbol_ with
    | some s => g.production_symbol s (fun h => h.non_terminal_symbol identifier line)
    | Option.none => g

/-! ## The classification passes of `Grammar::generate` -/

/-- The body of the inner loop of the first pass (Grammar.cpp 330-334) for the
symbol at position `symbol` of a directive with the given associativity. -/
def classify_symbol (associativity : Associativity) (precedence : Int)
    (symbols : List Symbol) (symbol : Nat) : List Symbol :=
  modifyAt
    (fun s => ((s.set_symbol_type SYMBOL_TERMINAL).set_associativity associativity).set_precedence
      precedence)
    symbols symbol

/-- The first loop of `Grammar::generate` (Grammar.cpp 322-337), started with
the counter `precedence` on the directives not yet visited. -/
def classify_directives : List Directive → Int → List Symbol → List Symbol
  | [], _, symbols => symbols
  | d :: rest, precedence, symbols =>
    classify_directives rest (precedence + 1)
      (d.symbols.foldl (classify_symbol d.associativity precedence) symbols)

/-- The body of the second loop of `Grammar::generate` (Grammar.cpp 341-347). -/
def classify_non_terminal (s : Symbol) : Symbol :=
  if s.productions ≠ [] then (s.set_lexeme_type LEXEME_NULL).set_symbol_type SYMBOL_NON_TERMINAL
  else s

/-- The part of `Grammar::generate` that runs before the `Generator` is invoked
(Grammar.cpp 322-348). -/
def generate_classify (g : Grammar) : Grammar :=
  { g with symbols_ := (classify_directives g.directives_ 1 g.symbols_).map classify_non_terminal }

end Grammar

/-! ## Sequences of builder calls -/

/-- One call of the fluent builder interface of `Grammar`. -/
inductive Op where
  | left (line : Int)
  | right (line : Int)
  | none (line : Int)
  | whitespace
  | precedence
  | production (identifier : String) (line : Int)
  | end_production
  | end_expression
  | error
  | action (identifier : String)
  | literal (literal : String) (line : Int)
  | regex (regex : String) (line : Int)
  | identifier (identifier : String) (line : Int)
  deriving DecidableEq, Repr

/-- Perform one builder call. -/
def Grammar.apply (g : Grammar) : Op → Grammar
  | Op.left line => g.left line
  | Op.right line => g.right line
  | Op.none line => g.none line
  | Op.whitespace => g.whitespace
  | Op.precedence => g.precedence
  | Op.production identifier line => g.production identifier line
  | Op.end_production => g.end_production
  | Op.end_expression => g.end_expression
  | Op.error => g.error
  | Op.action identifier => g.action identifier
  | Op.literal literal line => g.literal literal line
  | Op.regex regex line => g.regex regex line
  | Op.identifier identifier line => g.identifier identifier line

/-- Perform a sequence of builder calls, first call first. -/
def Grammar.run (g : Grammar) (ops : List Op) : Grammar :=
  ops.foldl Grammar.apply g

/-- The grammar states that a program can observe: the freshly constructed
grammar, closed under builder calls and under the classification passes of
`Grammar::generate`. -/
inductive Reachable : Grammar → Prop where
  | new : Reachable Grammar.new
  | apply (g : Grammar) (op : Op) : Reachable g → Reachable (g.apply op)
  | generate (g : Grammar) : Reachable g → Reachable g.generate_classify

/-! ## `ParserGrammar` (ParserGrammar.cpp) -/

/-- Modelled from the spec: the record behind `ParserSymbol`
(ParserSymbol.hpp).  `productions` holds positions in
`ParserGrammar::productions_`. -/
structure ParserSymbol where
  type : SymbolType
  lexeme : String
  line : Int
  associativity : Associativity
  precedence : Int
  productions : List Nat
  deriving DecidableEq, Repr

/-- Modelled from the spec: the constructor
`ParserSymbol( type, identifier, line )`. -/
def ParserSymbol.new (type : SymbolType) (identifier : String) (line : Int) : ParserSymbol :=
  { type := type
    lexeme := identifier
    line := line
    associativity := ASSOCIATE_NULL
    precedence := 0
    productions := [] }

def ParserSymbol.set_associativity (s : ParserSymbol) (a : Associativity) : ParserSymbol :=
  { s with associativity := a }
def ParserSymbol.set_precedence (s : ParserSymbol) (p : Int) : ParserSymbol :=
  { s with precedence := p }
def ParserSymbol.append_production (s : ParserSymbol) (p : Nat) : ParserSymbol :=
  { s with productions := s.productions ++ [p] }

/-- Modelled from the spec: the record behind `ParserProduction`
(ParserProduction.hpp), built by `ParserProduction( index, symbol, line,
action )` with an empty right-hand side. -/
structure ParserProduction where
  index : Int
  symbol : Nat
  line : Int
  action : Option Nat
  symbols : List Nat
  precedence_symbol : Option Nat
  deriving DecidableEq, Repr

def ParserProduction.new (index : Int) (symbol : Nat) (line : Int) (action : Option Nat) :
    ParserProduction :=
  { index := index
    symbol := symbol
    line := line
    action := action
    symbols := []
    precedence_symbol := none }

def ParserProduction.append_symbol (p : ParserProduction) (s : Nat) : ParserProduction :=
  { p with symbols := p.symbols ++ [s] }
def ParserProduction.set_action (p : ParserProduction) (a : Option Nat) : ParserProduction :=
  { p with action := a }
def ParserProduction.set_precedence_symbol (p : ParserProduction) (s : Option Nat) :
    ParserProduction :=
  { p with precedence_symbol := s }

/-- Modelled from the spec: the record behind `ParserAction`
(ParserAction.hpp), built by `ParserAction( index, identifier )`. -/
structure ParserAction where
  index : Int
  identifier : String
  deriving DecidableEq, Repr

/-- Modelled from the spec: the attributes of a `GrammarSymbol`
(GrammarSymbol.hpp) that `ParserGrammar::symbol( const GrammarSymbol* )`
reads. -/
structure GrammarSymbol where
  lexeme : String
  lexeme_type : LexemeType
  associativity : Associativity
  precedence : Int
  deriving DecidableEq, Repr

/-- The data members of `ParserGrammar`. -/
structure ParserGrammar where
  identifier_ : String
  actions_ : List ParserAction
  productions_ : List ParserProduction
  symbols_ : List ParserSymbol
  start_symbol_ : Option Nat
  end_symbol_ : Option Nat
  error_symbol_ : Option Nat
  deriving DecidableEq, Repr

/-- The search of `ParserGrammar::symbol( type, identifier, line )`
(ParserGrammar.cpp 151-155), by `ParserSymbol::get_lexeme()`. -/
def find_parser_symbol (identifier : String) (symbols : List ParserSymbol) : Option Nat :=
  find_first ParserSymbol.lexeme identifier symbols

/-- A `std::string` read back through `c_str()` as a NUL-terminated C string:
the characters before the first NUL.  `ParserGrammar::add_action`
(ParserGrammar.cpp 271) passes `identifier.c_str()` to the constructor of
`ParserAction`. -/
def c_str (s : String) : String :=
  String.mk (s.toList.takeWhile (fun c => c != Char.ofNat 0))

/-- The search of `ParserGrammar::action` and `ParserGrammar::add_action`
(ParserGrammar.cpp 176-180, 260-264), by `ParserAction::identifier`, against
the whole `std::string` passed in. -/
def find_parser_action (identifier : String) (actions : List ParserAction) : Option Nat :=
  find_first ParserAction.identifier identifier actions

namespace ParserGrammar

/-- `ParserGrammar::add_symbol` (ParserGrammar.cpp 204-209). -/
def add_symbol (pg : ParserGrammar) (type : SymbolType) (identifier : String) (line : Int) :
    ParserGrammar × Nat :=
  ({ pg with symbols_ := pg.symbols_ ++ [ParserSymbol.new type identifier line] },
    pg.symbols_.length)

/-- `ParserGrammar::add_terminal` (ParserGrammar.cpp 223-226). -/
def add_terminal (pg : ParserGrammar) (identifier : String) (line : Int) : ParserGrammar × Nat :=
  pg.add_symbol SYMBOL_TERMINAL identifier line

/-- `ParserGrammar::add_non_terminal` (ParserGrammar.cpp 240-243). -/
def add_non_terminal (pg : ParserGrammar) (identifier : String) (line : Int) :
    ParserGrammar × Nat :=
  pg.add_symbol SYMBOL_NON_TERMINAL identifier line

/-- `ParserGrammar::ParserGrammar` (ParserGrammar.cpp 35-50); `reserve` has no
observable effect. -/
def new : ParserGrammar :=
  let pg : ParserGrammar :=
    { identifier_ := ""
      actions_ := []
      productions_ := []
      symbols_ := []
      start_symbol_ := none
      end_symbol_ := none
      error_symbol_ := none }
  let r0 := pg.add_non_terminal ".start" 0
  let pg0 := { r0.1 with start_symbol_ := some r0.2 }
  let r1 := pg0.add_symbol SYMBOL_END ".end" 0
  let pg1 := { r1.1 with end_symbol_ := some r1.2 }
  let r2 := pg1.add_terminal ".error" 0
  { r2.1 with error_symbol_ := some r2.2 }

/-- `ParserGrammar::symbol( SymbolType, const std::string&, int )`
(ParserGrammar.cpp 149-162). -/
def symbol_of (pg : ParserGrammar) (type : SymbolType) (identifier : String) (line : Int) :
    ParserGrammar × Nat :=
  match find_parser_symbol identifier pg.symbols_ with
  | none => pg.add_symbol type identifier line
  | some i => (pg, i)

/-- `ParserGrammar::symbol( const GrammarSymbol* )` (ParserGrammar.cpp
139-147). -/
def grammar_symbol (pg : ParserGrammar) (grammar_symbol : GrammarSymbol) : ParserGrammar × Nat :=
  let type :=
    if grammar_symbol.lexeme_type = LEXEME_NULL then SYMBOL_NON_TERMINAL else SYMBOL_TERMINAL
  let r := pg.symbol_of type grammar_symbol.lexeme 0
  ({ r.1 with
     symbols_ :=
       modifyAt
         (fun s =>
           (s.set_associativity grammar_symbol.associativity).set_precedence
             grammar_symbol.precedence)
         r.1.symbols_ r.2 },
   r.2)

/-- `ParserGrammar::terminal` (ParserGrammar.cpp 164-167). -/
def terminal (pg : ParserGrammar) (identifier : String) (line : Int) : ParserGrammar × Nat :=
  pg.symbol_of SYMBOL_TERMINAL identifier line

/-- `ParserGrammar::non_terminal` (ParserGrammar.cpp 169-172). -/
def non_terminal (pg : ParserGrammar) (identifier : String) (line : Int) : ParserGrammar × Nat :=
  pg.symbol_of SYMBOL_NON_TERMINAL identifier line

/-- `ParserGrammar::add_action` (ParserGrammar.cpp 254-277); the result is
`none` for the null pointer returned on an empty identifier.  The search
(260-264) compares the stored identifiers with the whole `identifier`, and the
new action (271) is built from `identifier.c_str()`. -/
def add_action (pg : ParserGrammar) (identifier : String) : ParserGrammar × Option Nat :=
  if identifier ≠ "" then
    match find_parser_action identifier pg.actions_ with
    | some i => (pg, some i)
    | none =>
      let new_action : ParserAction :=
        { index := (pg.actions_.length : Int), identifier := c_str identifier }
      ({ pg with actions_ := pg.actions_ ++ [new_action] }, some pg.actions_.length)
  else (pg, none)

/-- `ParserGrammar::action( const std::string& )` (ParserGrammar.cpp
174-187). -/
def action_of (pg : ParserGrammar) (identifier : String) : ParserGrammar × Option Nat :=
  match find_parser_action identifier pg.actions_ with
  | none => pg.add_action identifier
  | some i => (pg, some i)

/-- `ParserGrammar::identifier( const std::string& )` (ParserGrammar.cpp
285-288). -/
def identifier (pg : ParserGrammar) (identifier : String) : ParserGrammar :=
  { pg with identifier_ := identifier }

/-- Write through `productions_.back()`. -/
def modify_back (pg : ParserGrammar) (f : ParserProduction → ParserProduction) : ParserGrammar :=
  { pg with productions_ := modifyAt f pg.productions_ (pg.productions_.length - 1) }

/-- `ParserGrammar::symbol( ParserSymbol* )` (ParserGrammar.cpp 337-343);
`none` when `productions_` is empty, where `back()` is undefined. -/
def symbol (pg : ParserGrammar) (symbol : Nat) : Option ParserGrammar :=
  if pg.productions_ = [] then none
  else some (pg.modify_back (fun p => p.append_symbol symbol))

/-- `ParserGrammar::action( ParserAction* )` (ParserGrammar.cpp 351-355);
`none` when `productions_` is empty. -/
def action (pg : ParserGrammar) (action : Option Nat) : Option ParserGrammar :=
  if pg.productions_ = [] then none
  else some (pg.modify_back (fun p => p.set_action action))

/-- `ParserGrammar::precedence_symbol` (ParserGrammar.cpp 365-369); `none`
when `productions_` is empty. -/
def precedence_symbol (pg : ParserGrammar) (symbol : Option Nat) : Option ParserGrammar :=
  if pg.productions_ = [] then none
  else some (pg.modify_back (fun p => p.set_precedence_symbol symbol))

/-- The `if ( productions_.empty() )` block of
`ParserGrammar::begin_production` (ParserGrammar.cpp 301-310); `none` when
`start_symbol_` is null. -/
def begin_start_production (pg : ParserGrammar) (symbol : Nat) : Option ParserGrammar :=
  if pg.productions_ = [] then
    match pg.start_symbol_ with
    | some start =>
      let production := ParserProduction.new (pg.productions_.length : Int) start 0 none
      let pg1 : ParserGrammar :=
        { pg with
          symbols_ :=
            modifyAt (fun s => s.append_production pg.productions_.length) pg.symbols_ start
          productions_ := pg.productions_ ++ [production] }
      pg1.symbol symbol
    | none => none
  else some pg

/-- `ParserGrammar::begin_production` (ParserGrammar.cpp 299-316). -/
def begin_production (pg : ParserGrammar) (symbol : Nat) (line : Int) : Option ParserGrammar :=
  match pg.begin_start_production symbol with
  | some pg1 =>
    let production := ParserProduction.new (pg1.productions_.length : Int) symbol line none
    some
      { pg1 with
        symbols_ :=
          modifyAt (fun s => s.append_production pg1.productions_.length) pg1.symbols_ symbol
        productions_ := pg1.productions_ ++ [production] }
  | none => none

/-- `ParserGrammar::end_production` (ParserGrammar.cpp 327-329). -/
def end_production (pg : ParserGrammar) : ParserGrammar := pg

end ParserGrammar

/-- One call of the public interface of `ParserGrammar`.  Pointer arguments
are positions in `symbols_` or `actions_`; `none` is the null pointer. -/
inductive ParserOp where
  | grammar_symbol (grammar_symbol : GrammarSymbol)
  | symbol_of (type : SymbolType) (identifier : String) (line : Int)
  | terminal (identifier : String) (line : Int)
  | non_terminal (identifier : String) (line : Int)
  | action_of (identifier : String)
  | add_symbol (type : SymbolType) (identifier : String) (line : Int)
  | add_terminal (identifier : String) (line : Int)
  | add_non_terminal (identifier : String) (line : Int)
  | add_action (identifier : String)
  | identifier (identifier : String)
  | begin_production (symbol : Nat) (line : Int)
  | end_production
  | symbol (symbol : Nat)
  | action (action : Option Nat)
  | precedence_symbol (symbol : Option Nat)
  deriving DecidableEq, Repr

/-- Perform one call on a `ParserGrammar`.  The result is `none` when the call
is outside the function's domain: a pointer argument that the comments assume
not null does not point into this grammar, or `productions_.back()` is taken
of an empty vector. -/
def ParserGrammar.apply (pg : ParserGrammar) : ParserOp → Option ParserGrammar
  | ParserOp.grammar_symbol gs => some (pg.grammar_symbol gs).1
  | ParserOp.symbol_of type identifier line => some (pg.symbol_of type identifier line).1
  | ParserOp.terminal identifier line => some (pg.terminal identifier line).1
  | ParserOp.non_terminal identifier line => some (pg.non_terminal identifier line).1
  | ParserOp.action_of identifier => some (pg.action_of identifier).1
  | ParserOp.add_symbol type identifier line => some (pg.add_symbol type identifier line).1
  | ParserOp.add_terminal identifier line => some (pg.add_terminal identifier line).1
  | ParserOp.add_non_terminal identifier line => some (pg.add_non_terminal identifier line).1
  | ParserOp.add_action identifier => some (pg.add_action identifier).1
  | ParserOp.identifier identifier => some (pg.identifier identifier)
  | ParserOp.begin_production symbol line =>
    if symbol < pg.symbols_.length then pg.begin_production symbol line else none
  | ParserOp.end_production => some pg.end_production
  | ParserOp.symbol symbol =>
    if symbol < pg.symbols_.length then pg.symbol symbol else none
  | ParserOp.action action => pg.action action
  | ParserOp.precedence_symbol symbol => pg.precedence_symbol symbol

/-- Perform a sequence of calls on a `ParserGrammar`, first call first; `none`
as soon as one call is outside its domain. -/
def ParserGrammar.run (pg : ParserGrammar) : List ParserOp → Option ParserGrammar
  | [] => some pg
  | op :: ops =>
    match pg.apply op with
    | some pg1 => pg1.run ops
    | none => none

/-- The `ParserGrammar` states that a program can observe. -/
inductive ParserReachable : ParserGrammar → Prop where
  | new : ParserReachable ParserGrammar.new
  | apply (pg pg1 : ParserGrammar) (op : ParserOp) :
    ParserReachable pg → pg.apply op = some pg1 → ParserReachable pg1

/-- The names of the symbols of a grammar, in table order. -/
def Grammar.lexemes (g : Grammar) : List String :=
  g.symbols_.map Symbol.lexeme

/-- The production that `Grammar::add_production` pushes first on an empty
production list when asked for a production of `symbol`: index 0, left-hand
side `start`, line 0, no action, right-hand side the single symbol. -/
def start_production (start symbol : Nat) : Production :=
  { index := 0
    symbol := start
    line := 0
    action := none
    symbols := [symbol]
    precedence_symbol := none }

/-- What holds of the pointers of every grammar state a program can observe. -/
structure GrammarInv (g : Grammar) : Prop where
  start_symbol : g.start_symbol_ = some 0
  end_symbol : g.end_symbol_ = some 1
  error_symbol : g.error_symbol_ = some 2
  names : g.lexemes.take 3 = [".start", ".end", ".error"]
  nodup : g.lexemes.Nodup
  active_symbol : ∀ s, g.active_symbol_ = some s →
    s < g.symbols_.length ∧ g.active_whitespace_directive_ = false ∧ g.active_directive_ = none
  active_production : ∀ p, g.active_production_ = some p →
    p + 1 = g.productions_.length ∧
      ∃ q, g.productions_[p]? = some q ∧ g.active_symbol_ = some q.symbol
  active_directive : ∀ d, g.active_directive_ = some d → d < g.directives_.length
  directive_symbols : ∀ d, d ∈ g.directives_ → ∀ s, s ∈ d.symbols → s < g.symbols_.length
  production_symbols : ∀ p, p ∈ g.productions_ →
    p.symbol < g.symbols_.length ∧ ∀ s, s ∈ p.symbols → s < g.symbols_.length
  augmented : g.productions_ = [] ∨
    ∃ p1 rest, g.productions_ = start_production 0 p1.symbol :: p1 :: rest

/-- The names of the symbols of a `ParserGrammar`, in table order. -/
def ParserGrammar.lexemes (pg : ParserGrammar) : List String :=
  pg.symbols_.map ParserSymbol.lexeme

/-- The production that `ParserGrammar::begin_production` pushes first on an
empty production list when asked for a production of `symbol`, after its call
of `symbol( symbol )`. -/
def parser_start_production (start symbol : Nat) : ParserProduction :=
  { index := 0
    symbol := start
    line := 0
    action := none
    symbols := [symbol]
    precedence_symbol := none }

/-- What holds of every `ParserGrammar` state a program can observe. -/
structure ParserGrammarInv (pg : ParserGrammar) : Prop where
  start_symbol : pg.start_symbol_ = some 0
  end_symbol : pg.end_symbol_ = some 1
  error_symbol : pg.error_symbol_ = some 2
  names : pg.lexemes.take 3 = [".start", ".end", ".error"]
  augmented : pg.productions_ = [] ∨
    ∃ p1 rest, pg.productions_ = parser_start_production 0 p1.symbol :: p1 :: rest

/-- The number of leading productions that no later builder call can write to:
the productions before the active one, or all of them when none is active. -/
def Grammar.frozen (g : Grammar) : Nat :=
  match g.active_production_ with
  | some p => p
  | Option.none => g.productions_.length

/-- How a later grammar state relates to an earlier one: symbol names are only
added at the back, and the frozen productions stay as they are. -/
structure Stable (g g1 : Grammar) : Prop where
  lexemes : ∃ ext, g1.lexemes = g.lexemes ++ ext
  frozen : g.frozen ≤ g1.frozen
  productions : ∀ i, i < g.frozen → g1.productions_[i]? = g.productions_[i]?

/-- The builder calls that add a production when a nonterminal is open and no
production is active: the calls that run `add_production( active_symbol_ )`. -/
def Op.adds_production : Op → Bool
  | Op.end_expression => true
  | Op.error => true
  | Op.literal _ _ => true
  | Op.regex _ _ => true
  | Op.identifier _ _ => true
  | _ => false

/-- The name of the nonterminal that is open after a builder call, given the
name `cur` of the one open before it: `production(id)` opens `id`, the other
calls that enter or leave a scope leave none open. -/
def Op.next_open (cur : Option String) : Op → Option String
  | Op.production name _ => some name
  | Op.left _ => Option.none
  | Op.right _ => Option.none
  | Op.none _ => Option.none
  | Op.whitespace => Option.none
  | Op.end_production => Option.none
  | _ => cur

/-- The spec's start symbol of a sequence of builder calls: the nonterminal
named by the first `production(id)` call. -/
def first_declared : List Op → Option String
  | [] => none
  | Op.production identifier _ :: _ => some identifier
  | _ :: rest => first_declared rest

/-- The amended start symbol of a sequence of builder calls, read off the
sequence alone: the nonterminal that is open (named by the latest
`production(id)` call, with no scope entered or left since) at the first call
that adds a production; `cur` is the nonterminal open before the sequence. -/
def first_production_owner (cur : Option String) : List Op → Option String
  | [] => none
  | op :: rest =>
    match cur, op.adds_production with
    | some identifier, true => some identifier
    | _, _ => first_production_owner (op.next_open cur) rest

/-- The nonterminal `a` is declared first, without a rule; `b` has the rule
`b: 'x';`. -/
def empty_head_ops : List Op :=
  [Op.production "a" 1, Op.end_production, Op.production "b" 2, Op.literal "x" 2,
    Op.end_expression, Op.end_production]

/-- The open nonterminal of `g` is the one named `cur`. -/
def Tracks (cur : Option String) (g : Grammar) : Prop :=
  match cur with
  | none => g.active_symbol_ = none
  | some identifier => ∃ s, g.active_symbol_ = some s ∧ g.lexemes[s]? = some identifier

/-- The builder calls that name a right-hand side symbol: `literal`, `regex`,
`identifier` and `error`. -/
def Op.is_symbol_call : Op → Bool
  | Op.error => true
  | Op.literal _ _ => true
  | Op.regex _ _ => true
  | Op.identifier _ _ => true
  | _ => false

/-- The lexeme of the symbol that a symbol call names; `error()` names the
`.error` symbol. -/
def Op.symbol_name : Op → String
  | Op.error => ".error"
  | Op.literal name _ => name
  | Op.regex name _ => name
  | Op.identifier name _ => name
  | _ => ""

/-- The state of the builder inside an alternative of the nonterminal `k`:
the productions are `base` followed by the active production, whose left-hand
side is `k` and whose right-hand side is named `names`; no precedence mark is
pending. -/
def Building (base : List Production) (k : Nat) (names : List String) (g : Grammar) : Prop :=
  GrammarInv g ∧ g.active_symbol_ = some k ∧ g.active_precedence_directive_ = false ∧
    g.active_production_ = some base.length ∧
    ∃ p, g.productions_ = base ++ [p] ∧ p.symbol = k ∧
      p.symbols.map (fun s => g.lexemes[s]?) = names.map some

/-- What the first pass of `Grammar::generate` writes to a symbol listed in a
directive with associativity `a` and number `precedence` (Grammar.cpp
332-334). -/
def Symbol.classify_listed (a : Associativity) (precedence : Int) (s : Symbol) : Symbol :=
  ((s.set_symbol_type SYMBOL_TERMINAL).set_associativity a).set_precedence precedence

/-- The literal `+` is listed in a `%left` directive and again in a `%right`
directive. -/
def twice_listed_ops : List Op :=
  [Op.left 1, Op.literal "+" 1, Op.right 2, Op.literal "+" 2]

/-- The symbol `e` is listed in a `%left` directive and has the rule
`e: 'x';`. -/
def listed_with_rule_ops : List Op :=
  [Op.left 1, Op.identifier "e" 1, Op.production "e" 2, Op.literal "x" 2, Op.end_expression,
    Op.end_production]

/-- A grammar with one rule `s: 'x';`. -/
def one_rule_ops : List Op :=
  [Op.production "s" 1, Op.literal "x" 1, Op.end_expression, Op.end_production]

/-- A parser grammar with one rule `s: x;`: symbols `s` and `x` are created
at positions 3 and 4. -/
def one_rule_parser_ops : List ParserOp :=
  [ParserOp.non_terminal "s" 1, ParserOp.terminal "x" 1, ParserOp.begin_production 3 1,
    ParserOp.symbol 4, ParserOp.end_production]

/-- The builder calls that enter or leave a scope: `left`, `right`, `none`,
`whitespace`, `production` and `end_production`. -/
def Op.sets_scope : Op → Bool
  | Op.left _ => true
  | Op.right _ => true
  | Op.none _ => true
  | Op.whitespace => true
  | Op.production _ _ => true
  | Op.end_production => true
  | _ => false

/-- The number of scopes that are active: directive scope (an open directive),
whitespace scope (the whitespace flag) and production scope (an open
nonterminal). -/
def Grammar.scopes_active (g : Grammar) : Nat :=
  (if g.active_directive_.isSome then 1 else 0) +
    (if g.active_whitespace_directive_ then 1 else 0) +
    (if g.active_symbol_.isSome then 1 else 0)

/-- The scope assertion of `Grammar::literal` and `Grammar::regex`
(Grammar.cpp 221, 253):
`SWEET_ASSERT( active_whitespace_directive_ || active_directive_ || active_symbol_ )`. -/
def Grammar.scope_assertion (g : Grammar) : Bool :=
  g.active_whitespace_directive_ || g.active_directive_.isSome || g.active_symbol_.isSome

/-- The scope assertion of `Grammar::identifier` (Grammar.cpp 285):
`SWEET_ASSERT( active_directive_ || active_symbol_ )`. -/
def Grammar.identifier_scope_assertion (g : Grammar) : Bool :=
  g.active_directive_.isSome || g.active_symbol_.isSome

/-- The invariant of a table of named, numbered entries: names are pairwise
distinct and the entry at position `i` has index `i`. -/
structure TableInv {α : Type} (key : α → String) (index : α → Int) (l : List α) : Prop where
  nodup : (l.map key).Nodup
  index : ∀ (i : Nat) (a : α), l[i]? = some a → index a = (i : Int)

/-- The invariant of the action list of a `ParserGrammar`: the action at
position `i` has index `i`. -/
def ParserActionsInv (actions : List ParserAction) : Prop :=
  ∀ (i : Nat) (a : ParserAction), actions[i]? = some a → a.index = (i : Int)

/-- A `std::string` of three characters with a NUL in the middle: `a`, NUL,
`b`. -/
def nul_identifier : String := "a\x00b"

/-- The left-hand sides of the productions, in list order. -/
def Grammar.heads (g : Grammar) : List Nat :=
  g.productions_.map Production.symbol

/-- The indices of the productions, in list order. -/
def Grammar.indices (g : Grammar) : List Int :=
  g.productions_.map Production.index

/-- The production lists of the symbols, in table order. -/
def Grammar.refs (g : Grammar) : List (List Nat) :=
  g.symbols_.map Symbol.productions

/-- What a declaration fixes of a symbol: its lexeme, symbol type, lexeme type
and line. -/
def Symbol.declared (s : Symbol) : String × SymbolType × LexemeType × Int :=
  (s.lexeme, s.symbol_type, s.lexeme_type, s.line)

/-- The declarations of the symbols, in table order. -/
def Grammar.declarations (g : Grammar) : List (String × SymbolType × LexemeType × Int) :=
  g.symbols_.map Symbol.declared

/-- The positions, in increasing order, of the productions whose left-hand
side is the symbol at position `s`, given the left-hand sides `heads` of all
productions. -/
def owners (heads : List Nat) (s : Nat) : List Nat :=
  (List.range heads.length).filter (fun i => heads[i]? = some s)

/-- Every production list holds the positions of the productions of its
symbol. -/
def RefsOk (heads : List Nat) (refs : List (List Nat)) : Prop :=
  ∀ (s : Nat) (r : List Nat), refs[s]? = some r → r = owners heads s

/-- Every index is the position it stands at. -/
def IndexOk (indices : List Int) : Prop :=
  ∀ (i : Nat) (x : Int), indices[i]? = some x → x = (i : Int)

/-- How one builder call changes the production list and the symbol table, up
to the fields that `add_production` and `add_symbol` do not write: at most one
`add_production` for the open nonterminal, run while no production is active,
and then new symbols, without productions, at the back of the table. -/
def SkeletonStep (g g1 : Grammar) : Prop :=
  ∃ (g0 : Grammar) (ext : List Symbol),
    (g0 = g ∨ ∃ k, g.active_production_ = none ∧ g.active_symbol_ = some k ∧
      g0 = (g.add_production k).1) ∧
    g1.heads = g0.heads ∧ g1.indices = g0.indices ∧
    g1.symbols_.length = g0.symbols_.length + ext.length ∧
    (∀ x, x ∈ ext → x.productions = []) ∧
    g1.refs = g0.refs ++ ext.map Symbol.productions ∧
    g1.declarations = g.declarations ++ ext.map Symbol.declared

/-- The cross-reference invariant of a grammar: production `i` has index `i`,
and the production list of every symbol holds the positions of the productions
whose left-hand side it is. -/
structure XrefInv (g : Grammar) : Prop where
  indices : IndexOk g.indices
  refs : RefsOk g.heads g.refs

/-- The symbol calls that a pending precedence mark applies to: `literal`,
`regex` and `identifier`. -/
def Op.takes_precedence : Op → Bool
  | Op.literal _ _ => true
  | Op.regex _ _ => true
  | Op.identifier _ _ => true
  | _ => false

/-- The rule that the spec mandates for declaring again a symbol `s` with the
requested lexeme type and symbol type: a Null classification of `s` takes the
requested one, and a requested non-Null classification that differs from a
non-Null one of `s` is a `SyntaxError`, here `none`. -/
def mandated_redeclaration (s : Symbol) (lexeme_type : LexemeType) (symbol_type : SymbolType) :
    Option Symbol :=
  if (s.lexeme_type ≠ LEXEME_NULL ∧ lexeme_type ≠ LEXEME_NULL ∧ s.lexeme_type ≠ lexeme_type) ∨
      (s.symbol_type ≠ SYMBOL_NULL ∧ symbol_type ≠ SYMBOL_NULL ∧ s.symbol_type ≠ symbol_type) then
    none
  else
    some { s with
      lexeme_type := if s.lexeme_type = LEXEME_NULL then lexeme_type else s.lexeme_type
      symbol_type := if s.symbol_type = SYMBOL_NULL then symbol_type else s.symbol_type }

/-- The literal `x` is listed in a `%left` directive. -/
def listed_literal_ops : List Op :=
  [Op.left 1, Op.literal "x" 1]

/-- The builder calls that open the `.start` symbol itself as a nonterminal. -/
def Op.names_start : Op → Bool
  | Op.production name _ => name == ".start"
  | _ => false

/-- No production other than the first has the start symbol as its left-hand
side, and the start symbol is not the open nonterminal. -/
def NoStartHead (g : Grammar) : Prop :=
  g.active_symbol_ ≠ some 0 ∧ ∀ x, x ∈ g.heads.tail → x ≠ 0

/-- A rule is given for the start symbol itself: `.start: 'x';`. -/
def start_head_ops : List Op :=
  [Op.production ".start" 1, Op.literal "x" 1, Op.end_expression, Op.end_production]

/-- The `ParserGrammar` calls that write through `productions_.back()`:
`symbol`, `action` and `precedence_symbol`. -/
def ParserOp.writes_back : ParserOp → Bool
  | ParserOp.symbol _ => true
  | ParserOp.action _ => true
  | ParserOp.precedence_symbol _ => true
  | _ => false

/-- A `ParserGrammar` with the symbols `.start`, `.end`, `.error`, `s`, `x`, `y`
and the productions `.start -> s` and `s -> x`. -/
def two_rules_parser_grammar : ParserGrammar :=
  (ParserGrammar.new.run
    [ParserOp.non_terminal "s" 1, ParserOp.terminal "x" 1, ParserOp.terminal "y" 1,
      ParserOp.begin_production 3 1, ParserOp.symbol 4, ParserOp.end_production]).getD
    ParserGrammar.new

/-! ## The scanner (Lexer.hpp)

`Lexer.hpp` declares the data members and the member functions of `Lexer`; the
bodies (`Lexer.ipp`) and the state machine records (`LexerStateMachine.hpp`,
`LexerState.hpp`, `LexerTransition.hpp`) are not among the sources, so they are
modelled from the scanner runtime section of the specification.  Characters are
their code points, a state pointer is a position in the state list of its
machine, and a symbol pointer is a number. -/

/-- Modelled from the spec: a transition of a scanner state
(`LexerTransition.hpp` is not among the sources), keyed by the half-open
character range `[begin_, end_)` and pointing to the state at position `state`. -/
structure LexerTransition where
  begin_ : Nat
  end_ : Nat
  state : Nat
  deriving DecidableEq, Repr

/-- Modelled from the spec: a DFA state (`LexerState.hpp` is not among the
sources): its outgoing transitions and its optional accepting symbol. -/
structure LexerState where
  transitions : List LexerTransition
  symbol : Option Nat
  deriving DecidableEq, Repr

/-- Modelled from the spec: a scanner state machine (`LexerStateMachine.hpp` is
not among the sources): the states and the start state. -/
structure LexerStateMachine where
  states : List LexerState
  start_state : Nat
  deriving DecidableEq, Repr

/-- The data members of `Lexer` (Lexer.hpp 31-40) that the scanner step reads
and writes.  The input sequence between the iterators given to `reset` is
`input_`, the iterator `position_` is its offset in `input_`, and `end_` is the
length of `input_`.  `error_policy_` and `action_handlers_` are left out: no
handler is registered, and a missing handler is pass-through. -/
structure Lexer where
  state_machine_ : LexerStateMachine
  whitespace_state_machine_ : Option LexerStateMachine
  end_symbol_ : Option Nat
  input_ : List Nat
  position_ : Nat
  lexeme_ : List Nat
  symbol_ : Option Nat
  full_ : Bool
  deriving DecidableEq, Repr

/-- Modelled from the spec: `Lexer::find_transition_by_character` (declared in
Lexer.hpp 57, body in the missing Lexer.ipp): the transition of `state` whose
half-open range holds `character`, if there is one. -/
def find_transition_by_character (state : LexerState) (character : Nat) :
    Option LexerTransition :=
  state.transitions.find? (fun t => decide (t.begin_ ≤ character) && decide (character < t.end_))

/-- Modelled from the spec: the accepting symbol of the state at position `s`,
if that state is accepting. -/
def LexerStateMachine.symbol_at (m : LexerStateMachine) (s : Nat) : Option Nat :=
  (m.states[s]?).bind (fun state => state.symbol)

/-- Modelled from the spec: the state that the transition on `character` leads
to from the state at position `s`; `none` when the DFA halts there. -/
def LexerStateMachine.step (m : LexerStateMachine) (s : Nat) (character : Nat) : Option Nat :=
  (m.states[s]?).bind (fun state =>
    (find_transition_by_character state character).map (fun t => t.state))

/-- Modelled from the spec: "tracking the last accepting position and its
symbol": the pair to remember on entering the state at position `s` at input
position `position`. -/
def LexerStateMachine.mark (m : LexerStateMachine) (s : Nat) (position : Nat)
    (last : Option (Nat × Nat)) : Option (Nat × Nat) :=
  match m.symbol_at s with
  | some symbol => some (position, symbol)
  | none => last

/-- Modelled from the spec: step 3 of `advance()`, the loop of `Lexer::run`
(body in the missing Lexer.ipp): run the DFA from the state at position `s`
over `input`, which starts at `position`, tracking the last accepting position
and its symbol, until the DFA halts on a character without transition or the
input ends. -/
def LexerStateMachine.scan (m : LexerStateMachine) (s : Nat) (input : List Nat)
    (position : Nat) (last : Option (Nat × Nat)) : Option (Nat × Nat) :=
  match input with
  | [] => m.mark s position last
  | character :: rest =>
    match m.step s character with
    | some t => m.scan t rest (position + 1) (m.mark s position last)
    | none => m.mark s position last

/-- The input from the current position to the end. -/
def Lexer.remaining (l : Lexer) : List Nat :=
  l.input_.drop l.position_

/-- Modelled from the spec: `Lexer::run` (step 3 of `advance()`; body in the
missing Lexer.ipp): run the token DFA from `position_`; then rewind
`position_` to the last accepting point, store the lexeme between the start and
that point and return the symbol.  The result is `none` when no accepting state
was entered. -/
def Lexer.run (l : Lexer) : Lexer × Option Nat :=
  match l.state_machine_.scan l.state_machine_.start_state l.remaining l.position_ none with
  | some (accept, symbol) =>
    ({ l with position_ := accept, lexeme_ := l.remaining.take (accept - l.position_) },
      some symbol)
  | none => (l, none)

/-- Modelled from the spec: the loop of `Lexer::skip` (step 1 of `advance()`;
body in the missing Lexer.ipp): run the whitespace DFA from `position`, move to
the end of each match, and stop when no match is produced.  A match that does
not advance the position counts as no match.  Every turn of the loop but the
last advances the position, so `input.length - position` turns are enough. -/
def skip_loop (m : LexerStateMachine) (input : List Nat) : Nat → Nat → Nat
  | 0, position => position
  | turns + 1, position =>
    match m.scan m.start_state (input.drop position) position none with
    | some (accept, _) =>
      if position < accept then skip_loop m input turns accept else position
    | none => position

/-- Modelled from the spec: `Lexer::skip` (step 1 of `advance()`). -/
def Lexer.skip (l : Lexer) : Lexer :=
  match l.whitespace_state_machine_ with
  | some m => { l with position_ := skip_loop m l.input_ (l.input_.length - l.position_) l.position_ }
  | none => l

/-- Modelled from the spec: steps 1, 2, 3 and 5 of `advance()`, with the retry
of step 5 as the recursive call: skip whitespace; at the end of the input set
the symbol to `.end` and `full_`; otherwise run the token DFA and emit the
symbol and the lexeme, or, when no accepting state was entered, advance one
character and retry.  The report of `LexerFailure` goes to the error policy,
which is not part of this state. -/
def advance_loop : Nat → Lexer → Lexer
  | 0, l => l
  | turns + 1, l =>
    let l1 := l.skip
    if l1.input_.length ≤ l1.position_ then
      { l1 with symbol_ := l1.end_symbol_, full_ := true }
    else
      match l1.run with
      | (l2, some symbol) => { l2 with symbol_ := some symbol }
      | (_, none) => advance_loop turns { l1 with position_ := l1.position_ + 1 }

/-- Modelled from the spec: `Lexer::advance` (body in the missing Lexer.ipp).
Every retry advances the position, so `input_.length - position_ + 1` turns are
enough. -/
def Lexer.advance (l : Lexer) : Lexer :=
  advance_loop (l.input_.length - l.position_ + 1) l

/-- The word that the DFA accepts: the state reached from the state at position
`s` over `word`, `none` when the DFA halts before the end of the word. -/
def LexerStateMachine.reach (m : LexerStateMachine) (s : Nat) : List Nat → Option Nat
  | [] => some s
  | character :: rest =>
    match m.step s character with
    | some t => m.reach t rest
    | none => none

/-- The symbol with which the DFA, started in the state at position `s`, accepts
`word`; `none` when it does not accept it. -/
def LexerStateMachine.accepts_from (m : LexerStateMachine) (s : Nat) (word : List Nat) :
    Option Nat :=
  (m.reach s word).bind m.symbol_at

/-- The symbol with which the DFA accepts `word`. -/
def LexerStateMachine.accepts (m : LexerStateMachine) (word : List Nat) : Option Nat :=
  m.accepts_from m.start_state word

/-- The token `word` with symbol `symbol` is the longest match at the front of
`input`: the longest prefix of `input` that the DFA accepts, with the symbol of
the accepting state it ends in. -/
def LongestMatch (m : LexerStateMachine) (input word : List Nat) (symbol : Nat) : Prop :=
  word <+: input ∧ m.accepts word = some symbol ∧
    ∀ v : List Nat, v <+: input → (m.accepts v).isSome = true → v.length ≤ word.length

/-- Modelled from the spec: the DFA that the direct construction gives for the
union of the tokens `if` (symbol 0) and `[a-z]+` (symbol 1): state 0 is the
start, state 1 is entered on `i`, state 2 on `if`, where the token declared
first wins, and state 3 on any other run of letters. -/
def if_or_letters : LexerStateMachine :=
  { states :=
      [ { transitions := [⟨105, 106, 1⟩, ⟨97, 105, 3⟩, ⟨106, 123, 3⟩], symbol := none },
        { transitions := [⟨102, 103, 2⟩, ⟨97, 102, 3⟩, ⟨103, 123, 3⟩], symbol := some 1 },
        { transitions := [⟨97, 123, 3⟩], symbol := some 0 },
        { transitions := [⟨97, 123, 3⟩], symbol := some 1 } ]
    start_state := 0 }

/-- A whitespace DFA for runs of blanks. -/
def blanks : LexerStateMachine :=
  { states :=
      [ { transitions := [⟨32, 33, 1⟩], symbol := none },
        { transitions := [⟨32, 33, 1⟩], symbol := some 0 } ]
    start_state := 0 }

/-- A scanner for the tokens `if` and `[a-z]+`, with `.end` as symbol 2, reset
to `input`. -/
def if_or_letters_lexer (input : String) : Lexer :=
  { state_machine_ := if_or_letters
    whitespace_state_machine_ := some blanks
    end_symbol_ := some 2
    input_ := input.toList.map Char.toNat
    position_ := 0
    lexeme_ := []
    symbol_ := none
    full_ := false }

/-! ## Lists written through pointers -/

section Lists

variable {α β : Type}

theorem length_modifyAt (f : α → α) (l : List α) (i : Nat) :
    (modifyAt f l i).length = l.length := by
  induction l generalizing i with
  | nil => rfl
  | cons x xs ih =>
    cases i with
    | zero => rfl
    | succ i => simp [modifyAt, ih]

theorem getElem?_modifyAt (f : α → α) (l : List α) (i j : Nat) :
    (modifyAt f l i)[j]? = if j = i then l[j]?.map f else l[j]? := by
  induction l generalizing i j with
  | nil => simp [modifyAt]
  | cons x xs ih =>
    cases i with
    | zero =>
      cases j with
      | zero => simp [modifyAt]
      | succ j => simp [modifyAt]
    | succ i =>
      cases j with
      | zero => simp [modifyAt]
      | succ j => simp [modifyAt, ih]

theorem getElem?_modifyAt_ne (f : α → α) (l : List α) {i j : Nat} (h : j ≠ i) :
    (modifyAt f l i)[j]? = l[j]? := by
  rw [getElem?_modifyAt, if_neg h]

theorem getElem?_modifyAt_self (f : α → α) (l : List α) (i : Nat) :
    (modifyAt f l i)[i]? = l[i]?.map f := by
  rw [getElem?_modifyAt, if_pos rfl]

theorem map_modifyAt (k : α → β) (f : α → α) (h : ∀ x, k (f x) = k x) (l : List α) (i : Nat) :
    (modifyAt f l i).map k = l.map k := by
  induction l generalizing i with
  | nil => rfl
  | cons x xs ih =>
    cases i with
    | zero => simp [modifyAt, h]
    | succ i => simp [modifyAt, ih]

theorem modifyAt_append_left (f : α → α) (l r : List α) {i : Nat} (h : i < l.length) :
    modifyAt f (l ++ r) i = modifyAt f l i ++ r := by
  induction l generalizing i with
  | nil => simp at h
  | cons x xs ih =>
    cases i with
    | zero => rfl
    | succ i =>
      simp only [List.cons_append, modifyAt, List.cons.injEq, true_and]
      exact ih (by simpa using h)

theorem modifyAt_length_append (f : α → α) (l : List α) (x : α) (r : List α) :
    modifyAt f (l ++ x :: r) l.length = l ++ f x :: r := by
  induction l with
  | nil => rfl
  | cons y ys ih => simp [modifyAt, ih]

theorem mem_modifyAt (f : α → α) (l : List α) (i : Nat) (y : α) (h : y ∈ modifyAt f l i) :
    y ∈ l ∨ ∃ x, l[i]? = some x ∧ y = f x := by
  induction l generalizing i with
  | nil => simp [modifyAt] at h
  | cons x xs ih =>
    cases i with
    | zero =>
      simp only [modifyAt, List.mem_cons] at h
      rcases h with h | h
      · exact Or.inr ⟨x, by simp, h⟩
      · exact Or.inl (List.mem_cons_of_mem _ h)
    | succ i =>
      simp only [modifyAt, List.mem_cons] at h
      rcases h with h | h
      · exact Or.inl (by simp [h])
      · rcases ih i h with h1 | ⟨z, hz, hy⟩
        · exact Or.inl (List.mem_cons_of_mem _ h1)
        · exact Or.inr ⟨z, by simpa using hz, hy⟩

/-! ## The linear search -/

theorem find_first_none (key : α → String) (x : String) (l : List α)
    (h : find_first key x l = none) : x ∉ l.map key := by
  induction l with
  | nil => simp
  | cons a rest ih =>
    unfold find_first at h
    split at h
    · simp at h
    · rename_i hne
      split at h
      · simp at h
      · rename_i hr
        simp only [List.map_cons, List.mem_cons, not_or]
        exact ⟨fun e => hne e.symm, ih hr⟩

theorem find_first_some (key : α → String) (x : String) (l : List α) (i : Nat)
    (h : find_first key x l = some i) :
    (∃ a, l[i]? = some a ∧ key a = x) ∧ ∀ j, j < i → ∀ b, l[j]? = some b → key b ≠ x := by
  induction l generalizing i with
  | nil => simp [find_first] at h
  | cons a rest ih =>
    unfold find_first at h
    split at h
    · rename_i heq
      simp only [Option.some.injEq] at h
      subst h
      exact ⟨⟨a, by simp, heq⟩, fun j hj => absurd hj (Nat.not_lt_zero j)⟩
    · rename_i hne
      split at h
      · rename_i k hk
        simp only [Option.some.injEq] at h
        subst h
        obtain ⟨⟨c, hc, hkc⟩, hlt⟩ := ih k hk
        refine ⟨⟨c, by simpa using hc, hkc⟩, ?_⟩
        intro j hj b hb
        cases j with
        | zero =>
          simp only [List.getElem?_cons_zero, Option.some.injEq] at hb
          subst hb
          exact hne
        | succ j =>
          simp only [List.getElem?_cons_succ] at hb
          exact hlt j (by omega) b hb
      · simp at h

theorem find_first_lt (key : α → String) (x : String) (l : List α) (i : Nat)
    (h : find_first key x l = some i) : i < l.length := by
  obtain ⟨⟨a, ha, _⟩, _⟩ := find_first_some key x l i h
  exact (List.getElem?_eq_some.1 ha).1

theorem find_first_of_first (key : α → String) (x : String) (l : List α) (i : Nat) (a : α)
    (ha : l[i]? = some a) (hk : key a = x)
    (hfirst : ∀ j, j < i → ∀ b, l[j]? = some b → key b ≠ x) : find_first key x l = some i := by
  induction l generalizing i with
  | nil => simp at ha
  | cons c rest ih =>
    cases i with
    | zero =>
      simp only [List.getElem?_cons_zero, Option.some.injEq] at ha
      subst ha
      simp [find_first, hk]
    | succ i =>
      have hc : key c ≠ x := hfirst 0 (Nat.succ_pos i) c (by simp)
      have hrec : find_first key x rest = some i :=
        ih i (by simpa using ha) (fun j hj b hb => hfirst (j + 1) (by omega) b (by simpa using hb))
      simp [find_first, hc, hrec]

theorem find_first_of_nodup (key : α → String) (l : List α) (h : (l.map key).Nodup) (i : Nat)
    (a : α) (ha : l[i]? = some a) : find_first key (key a) l = some i := by
  refine find_first_of_first key (key a) l i a ha rfl ?_
  intro j hj b hb hkb
  have hi : i < l.length := (List.getElem?_eq_some.1 ha).1
  have hjl : j < l.length := (List.getElem?_eq_some.1 hb).1
  have e1 : (l.map key)[i]? = some (key a) := by simp [ha]
  have e2 : (l.map key)[j]? = some (key a) := by simp [hb, hkb]
  exact (List.nodup_iff_getElem?_ne_getElem?.1 h) j i hj (by simpa using hi) (e2.trans e1.symm)

end Lists

/-! ## Interning symbols and actions -/

theorem add_symbol_found (g : Grammar) (lexeme : String) (line : Int) (lexeme_type : LexemeType)
    (symbol_type : SymbolType) (i : Nat) (h : find_symbol lexeme g.symbols_ = some i) :
    g.add_symbol lexeme line lexeme_type symbol_type = (g, i) := by
  simp [Grammar.add_symbol, h]

theorem add_symbol_fresh (g : Grammar) (lexeme : String) (line : Int) (lexeme_type : LexemeType)
    (symbol_type : SymbolType) (h : find_symbol lexeme g.symbols_ = none) :
    g.add_symbol lexeme line lexeme_type symbol_type =
      ({ g with symbols_ := g.symbols_ ++
          [{ lexeme := lexeme, symbol_type := symbol_type, lexeme_type := lexeme_type,
             associativity := ASSOCIATE_NULL, precedence := 0, line := line, productions := [] }] },
        g.symbols_.length) := by
  simp [Grammar.add_symbol, h, Symbol.new, Symbol.set_line, Symbol.set_lexeme_type,
    Symbol.set_symbol_type]

/-- What `add_symbol` does to the grammar: nothing but, possibly, one more
symbol at the end of the table, named `lexeme` when that name was not there. -/
theorem add_symbol_frame (g : Grammar) (lexeme : String) (line : Int) (lexeme_type : LexemeType)
    (symbol_type : SymbolType) :
    ∃ ext, (g.add_symbol lexeme line lexeme_type symbol_type).1 =
        { g with symbols_ := g.symbols_ ++ ext } ∧
      (ext = [] ∨ (∃ s, ext = [s] ∧ s.lexeme = lexeme ∧ s.productions = [] ∧
        lexeme ∉ g.lexemes)) ∧
      ∃ s, (g.symbols_ ++ ext)[(g.add_symbol lexeme line lexeme_type symbol_type).2]? = some s ∧
        s.lexeme = lexeme := by
  cases h : find_symbol lexeme g.symbols_ with
  | none =>
    rw [add_symbol_fresh g lexeme line lexeme_type symbol_type h]
    refine ⟨_, rfl, Or.inr ⟨_, rfl, rfl, rfl, find_first_none _ _ _ h⟩, ?_⟩
    simp
  | some i =>
    rw [add_symbol_found g lexeme line lexeme_type symbol_type i h]
    obtain ⟨⟨a, ha, hk⟩, _⟩ := find_first_some _ _ _ _ h
    exact ⟨[], by simp, Or.inl rfl, a, by simpa using ha, hk⟩

/-! ## The invariant of the builder -/

theorem lexemes_length (g : Grammar) : g.lexemes.length = g.symbols_.length := by
  simp [Grammar.lexemes]

theorem inv_three_symbols {g : Grammar} (h : GrammarInv g) : 3 ≤ g.symbols_.length := by
  have h1 := congrArg List.length h.names
  simp only [List.length_take, lexemes_length, List.length_cons, List.length_nil] at h1
  omega

/-- The invariant only reads the symbol names, the production and directive
lists and the pointers. -/
theorem inv_congr {g g1 : Grammar} (h : GrammarInv g)
    (h1 : g1.start_symbol_ = g.start_symbol_) (h2 : g1.end_symbol_ = g.end_symbol_)
    (h3 : g1.error_symbol_ = g.error_symbol_) (h4 : g1.lexemes = g.lexemes)
    (h5 : g1.active_symbol_ = g.active_symbol_)
    (h6 : g1.active_whitespace_directive_ = g.active_whitespace_directive_)
    (h7 : g1.active_directive_ = g.active_directive_)
    (h8 : g1.active_production_ = g.active_production_)
    (h9 : g1.productions_ = g.productions_) (h10 : g1.directives_ = g.directives_) :
    GrammarInv g1 := by
  have hl : g1.symbols_.length = g.symbols_.length := by
    rw [← lexemes_length, ← lexemes_length, h4]
  exact
    { start_symbol := h1.trans h.start_symbol
      end_symbol := h2.trans h.end_symbol
      error_symbol := h3.trans h.error_symbol
      names := by rw [h4]; exact h.names
      nodup := by rw [h4]; exact h.nodup
      active_symbol := by rw [h5, h6, h7, hl]; exact h.active_symbol
      active_production := by rw [h8, h9, h5]; exact h.active_production
      active_directive := by rw [h7, h10]; exact h.active_directive
      directive_symbols := by rw [h10, hl]; exact h.directive_symbols
      production_symbols := by rw [h9, hl]; exact h.production_symbols
      augmented := by rw [h9]; exact h.augmented }

theorem inv_new : GrammarInv Grammar.new := by
  have e : Grammar.new =
      { identifier_ := "", directives_ := [],
        symbols_ :=
          [{ lexeme := ".start", symbol_type := SYMBOL_NON_TERMINAL, lexeme_type := LEXEME_NULL,
             associativity := ASSOCIATE_NULL, precedence := 0, line := 0, productions := [] },
           { lexeme := ".end", symbol_type := SYMBOL_END, lexeme_type := LEXEME_NULL,
             associativity := ASSOCIATE_NULL, precedence := 0, line := 0, productions := [] },
           { lexeme := ".error", symbol_type := SYMBOL_NULL, lexeme_type := LEXEME_NULL,
             associativity := ASSOCIATE_NULL, precedence := 0, line := 0, productions := [] }],
        productions_ := [], actions_ := [], whitespace_tokens_ := [],
        active_whitespace_directive_ := false, active_precedence_directive_ := false,
        active_directive_ := none, active_production_ := none, active_symbol_ := none,
        start_symbol_ := some 0, end_symbol_ := some 1, error_symbol_ := some 2 } := by
    decide
  rw [e]
  exact
    { start_symbol := rfl
      end_symbol := rfl
      error_symbol := rfl
      names := rfl
      nodup := by decide
      active_symbol := by intro s hs; simp at hs
      active_production := by intro s hs; simp at hs
      active_directive := by intro s hs; simp at hs
      directive_symbols := by intro d hd; simp at hd
      production_symbols := by intro d hd; simp at hd
      augmented := Or.inl rfl }

/-- Pushing symbols with new names at the back of the table. -/
theorem inv_extend {g : Grammar} (h : GrammarInv g) (ext : List Symbol)
    (hext : (g.lexemes ++ ext.map Symbol.lexeme).Nodup) :
    GrammarInv { g with symbols_ := g.symbols_ ++ ext } := by
  have h3 := inv_three_symbols h
  have hlen : ∀ s, s < g.symbols_.length → s < (g.symbols_ ++ ext).length := by
    intro s hs
    rw [List.length_append]
    omega
  exact
    { start_symbol := h.start_symbol
      end_symbol := h.end_symbol
      error_symbol := h.error_symbol
      names := by
        show ((g.symbols_ ++ ext).map Symbol.lexeme).take 3 = _
        rw [List.map_append, List.take_append_of_le_length (by simpa using h3)]
        exact h.names
      nodup := by
        show ((g.symbols_ ++ ext).map Symbol.lexeme).Nodup
        rw [List.map_append]
        exact hext
      active_symbol := fun s hs => ⟨hlen s (h.active_symbol s hs).1, (h.active_symbol s hs).2⟩
      active_production := h.active_production
      active_directive := h.active_directive
      directive_symbols := fun d hd s hs => hlen s (h.directive_symbols d hd s hs)
      production_symbols := fun p hp =>
        ⟨hlen _ (h.production_symbols p hp).1, fun s hs => hlen s ((h.production_symbols p hp).2 s hs)⟩
      augmented := h.augmented }

theorem inv_add_symbol {g : Grammar} (h : GrammarInv g) (lexeme : String) (line : Int)
    (lexeme_type : LexemeType) (symbol_type : SymbolType) :
    GrammarInv (g.add_symbol lexeme line lexeme_type symbol_type).1 ∧
      (g.add_symbol lexeme line lexeme_type symbol_type).2 <
        (g.add_symbol lexeme line lexeme_type symbol_type).1.symbols_.length := by
  obtain ⟨ext, he, hcases, s, hs, _⟩ := add_symbol_frame g lexeme line lexeme_type symbol_type
  rw [he]
  refine ⟨inv_extend h ext ?_, (List.getElem?_eq_some.1 hs).1⟩
  rcases hcases with rfl | ⟨t, rfl, ht, _, hnot⟩
  · simpa using h.nodup
  · simp only [List.map_cons, List.map_nil, ht]
    exact List.Nodup.append h.nodup (List.nodup_singleton _) (by simpa using hnot)

/-- Leaving every scope, or entering the directive or the production scope. -/
theorem inv_scope {g : Grammar} (h : GrammarInv g) (ws pd : Bool) (dir sym : Option Nat)
    (hdir : ∀ d, dir = some d → d < g.directives_.length)
    (hsym : ∀ s, sym = some s → s < g.symbols_.length ∧ ws = false ∧ dir = none) :
    GrammarInv { g with
      active_whitespace_directive_ := ws
      active_precedence_directive_ := pd
      active_directive_ := dir
      active_production_ := none
      active_symbol_ := sym } :=
  { start_symbol := h.start_symbol
    end_symbol := h.end_symbol
    error_symbol := h.error_symbol
    names := h.names
    nodup := h.nodup
    active_symbol := hsym
    active_production := by intro p hp; simp at hp
    active_directive := hdir
    directive_symbols := h.directive_symbols
    production_symbols := h.production_symbols
    augmented := h.augmented }

theorem inv_push_directive {g : Grammar} (h : GrammarInv g) (a : Associativity) :
    GrammarInv (g.directive a).1 ∧ (g.directive a).2 < (g.directive a).1.directives_.length := by
  refine ⟨?_, by simp [Grammar.directive]⟩
  exact
    { start_symbol := h.start_symbol
      end_symbol := h.end_symbol
      error_symbol := h.error_symbol
      names := h.names
      nodup := h.nodup
      active_symbol := h.active_symbol
      active_production := h.active_production
      active_directive := by
        intro d hd
        have := h.active_directive d hd
        simp only [Grammar.directive, List.length_append, List.length_cons, List.length_nil]
        omega
      directive_symbols := by
        intro d hd s hs
        simp only [Grammar.directive, List.mem_append, List.mem_singleton] at hd
        rcases hd with hd | rfl
        · exact h.directive_symbols d hd s hs
        · simp at hs
      production_symbols := h.production_symbols
      augmented := h.augmented }

theorem inv_close {g : Grammar} (h : GrammarInv g) :
    GrammarInv { g with active_production_ := none } :=
  { start_symbol := h.start_symbol
    end_symbol := h.end_symbol
    error_symbol := h.error_symbol
    names := h.names
    nodup := h.nodup
    active_symbol := h.active_symbol
    active_production := by intro p hp; simp at hp
    active_directive := h.active_directive
    directive_symbols := h.directive_symbols
    production_symbols := h.production_symbols
    augmented := h.augmented }

theorem add_action_frame (g : Grammar) (identifier : String) :
    ∃ ext, (g.add_action identifier).1 = { g with actions_ := g.actions_ ++ ext } ∧
      ∃ a, (g.actions_ ++ ext)[(g.add_action identifier).2]? = some a ∧
        a.identifier = identifier := by
  cases h : find_action identifier g.actions_ with
  | none =>
    refine ⟨[{ index := (g.actions_.length : Int), identifier := identifier }], ?_, ?_⟩
    · simp [Grammar.add_action, h]
    · simp [Grammar.add_action, h]
  | some i =>
    obtain ⟨⟨a, ha, hk⟩, _⟩ := find_first_some _ _ _ _ h
    refine ⟨[], ?_, a, ?_, hk⟩
    · simp [Grammar.add_action, h]
    · simpa [Grammar.add_action, h] using ha

theorem inv_add_action {g : Grammar} (h : GrammarInv g) (identifier : String) :
    GrammarInv (g.add_action identifier).1 := by
  obtain ⟨ext, he, _⟩ := add_action_frame g identifier
  rw [he]
  exact inv_congr h rfl rfl rfl rfl rfl rfl rfl rfl rfl rfl

/-- Writing through a directive pointer a symbol of this grammar. -/
theorem inv_modify_directive {g : Grammar} (h : GrammarInv g) (d s : Nat)
    (hs : s < g.symbols_.length) :
    GrammarInv { g with directives_ := modifyAt (fun x => x.append_symbol s) g.directives_ d } :=
  { start_symbol := h.start_symbol
    end_symbol := h.end_symbol
    error_symbol := h.error_symbol
    names := h.names
    nodup := h.nodup
    active_symbol := h.active_symbol
    active_production := h.active_production
    active_directive := by
      intro k hk
      show k < (modifyAt _ g.directives_ d).length
      rw [length_modifyAt]
      exact h.active_directive k hk
    directive_symbols := by
      intro x hx t ht
      rcases mem_modifyAt _ _ _ _ hx with hx | ⟨y, hy, rfl⟩
      · exact h.directive_symbols x hx t ht
      · simp only [Directive.append_symbol, List.mem_append, List.mem_singleton] at ht
        rcases ht with ht | rfl
        · exact h.directive_symbols y (List.getElem?_mem hy) t ht
        · exact hs
    production_symbols := h.production_symbols
    augmented := h.augmented }

/-- Writing through the pointer to the active production, keeping its
left-hand side and adding to its right-hand side only symbols of this
grammar. -/
theorem inv_modify_production {g : Grammar} (h : GrammarInv g) (p : Nat)
    (hp : g.active_production_ = some p) (f : Production → Production)
    (hf : ∀ x, (f x).symbol = x.symbol)
    (hrhs : ∀ x s, s ∈ (f x).symbols → s ∈ x.symbols ∨ s < g.symbols_.length) :
    GrammarInv { g with productions_ := modifyAt f g.productions_ p } := by
  obtain ⟨hlen, q, hq, hqs⟩ := h.active_production p hp
  exact
    { start_symbol := h.start_symbol
      end_symbol := h.end_symbol
      error_symbol := h.error_symbol
      names := h.names
      nodup := h.nodup
      active_symbol := h.active_symbol
      active_production := by
        intro k hk
        have hk1 : g.active_production_ = some k := hk
        rw [hp] at hk1
        simp only [Option.some.injEq] at hk1
        subst hk1
        refine ⟨by show p + 1 = (modifyAt f g.productions_ p).length; rw [length_modifyAt, hlen],
          f q, ?_, ?_⟩
        · show (modifyAt f g.productions_ p)[p]? = some (f q)
          rw [getElem?_modifyAt_self, hq]
          rfl
        · rw [hf]
          exact hqs
      active_directive := h.active_directive
      directive_symbols := h.directive_symbols
      production_symbols := by
        intro x hx
        rcases mem_modifyAt _ _ _ _ hx with hx | ⟨y, hy, rfl⟩
        · exact h.production_symbols x hx
        · have hy1 := h.production_symbols y (List.getElem?_mem hy)
          refine ⟨by rw [hf]; exact hy1.1, fun s hs => ?_⟩
          rcases hrhs y s hs with h1 | h1
          · exact hy1.2 s h1
          · exact h1
      augmented := by
        rcases h.augmented with h0 | ⟨p1, rest, h0⟩
        · left
          show modifyAt f g.productions_ p = []
          rw [h0]
          rfl
        · right
          show ∃ p1 rest, modifyAt f g.productions_ p = _
          rw [h0] at hlen ⊢
          cases p with
          | zero => simp at hlen
          | succ k =>
            cases k with
            | zero => exact ⟨f p1, rest, by simp [modifyAt, hf]⟩
            | succ k => exact ⟨p1, modifyAt f rest k, by simp [modifyAt]⟩ }

/-! ## Adding productions -/

theorem add_production_empty (g : Grammar) (s start : Nat) (h0 : g.productions_ = [])
    (hstart : g.start_symbol_ = some start) :
    g.add_production s =
      ({ g with
         symbols_ :=
           modifyAt (fun x => x.append_production 1)
             (modifyAt (fun x => x.append_production 0) g.symbols_ start) s
         productions_ := [start_production start s, Production.new 1 s (-1) none] }, 1) := by
  simp [Grammar.add_production, Grammar.add_start_production, h0, hstart, start_production,
    Production.new, Production.append_symbol]

theorem add_production_nonempty (g : Grammar) (s : Nat) (h0 : g.productions_ ≠ []) :
    g.add_production s =
      ({ g with
         symbols_ := modifyAt (fun x => x.append_production g.productions_.length) g.symbols_ s
         productions_ :=
           g.productions_ ++ [Production.new (g.productions_.length : Int) s (-1) none] },
        g.productions_.length) := by
  cases hp : g.productions_ with
  | nil => exact absurd hp h0
  | cons p ps => simp [Grammar.add_production, Grammar.add_start_production, hp]

theorem map_lexeme_append_production (symbols : List Symbol) (p s : Nat) :
    (modifyAt (fun x => x.append_production p) symbols s).map Symbol.lexeme =
      symbols.map Symbol.lexeme :=
  map_modifyAt Symbol.lexeme (fun x => x.append_production p) (fun _ => rfl) symbols s

/-- Opening a production of the open nonterminal. -/
theorem inv_push_production {g : Grammar} (h : GrammarInv g) (s : Nat)
    (hs : g.active_symbol_ = some s) (X : List Symbol) (Y : List Production) (q : Production)
    (hX : X.map Symbol.lexeme = g.lexemes)
    (hY : (g.productions_ ≠ [] ∧ Y = g.productions_ ++ [q]) ∨
      (g.productions_ = [] ∧ Y = [start_production 0 s, q]))
    (hq : q.symbol = s) (hq2 : q.symbols = []) :
    GrammarInv { g with
      symbols_ := X
      productions_ := Y
      active_production_ := some (Y.length - 1) } := by
  have hl : X.length = g.symbols_.length := by
    rw [← lexemes_length g, ← hX, List.length_map]
  have hsl := (h.active_symbol s hs).1
  have h3 := inv_three_symbols h
  have hlast : Y[Y.length - 1]? = some q := by
    rcases hY with ⟨_, rfl⟩ | ⟨_, rfl⟩
    · simp
    · rfl
  have hYpos : 0 < Y.length := by
    rcases hY with ⟨_, rfl⟩ | ⟨_, rfl⟩ <;> simp
  exact
    { start_symbol := h.start_symbol
      end_symbol := h.end_symbol
      error_symbol := h.error_symbol
      names := by show (X.map Symbol.lexeme).take 3 = _; rw [hX]; exact h.names
      nodup := by show (X.map Symbol.lexeme).Nodup; rw [hX]; exact h.nodup
      active_symbol := by
        intro k hk
        show k < X.length ∧ _
        rw [hl]
        exact h.active_symbol k hk
      active_production := by
        intro k hk
        simp only [Option.some.injEq] at hk
        subst hk
        exact ⟨by show Y.length - 1 + 1 = Y.length; omega, q, hlast, by rw [hq]; exact hs⟩
      active_directive := h.active_directive
      directive_symbols := by
        intro d hd k hk
        show k < X.length
        rw [hl]
        exact h.directive_symbols d hd k hk
      production_symbols := by
        intro x hx
        show x.symbol < X.length ∧ ∀ k, k ∈ x.symbols → k < X.length
        rw [hl]
        have hx1 : x ∈ Y := hx
        rcases hY with ⟨_, rfl⟩ | ⟨_, rfl⟩
        · simp only [List.mem_append, List.mem_singleton] at hx1
          rcases hx1 with hx1 | rfl
          · exact h.production_symbols x hx1
          · exact ⟨by rw [hq]; exact hsl, by simp [hq2]⟩
        · simp only [List.mem_cons, List.mem_singleton, List.mem_nil_iff, or_false] at hx1
          rcases hx1 with rfl | rfl
          · exact ⟨by show 0 < _; omega, by simp [start_production, hsl]⟩
          · exact ⟨by rw [hq]; exact hsl, by simp [hq2]⟩
      augmented := by
        right
        show ∃ p1 rest, Y = _
        rcases hY with ⟨hne, rfl⟩ | ⟨_, rfl⟩
        · rcases h.augmented with h0 | ⟨p1, rest, h0⟩
          · exact absurd h0 hne
          · exact ⟨p1, rest ++ [q], by rw [h0]; rfl⟩
        · exact ⟨q, [], by rw [hq]⟩ }

theorem inv_open_production {g : Grammar} (h : GrammarInv g) (s : Nat)
    (hs : g.active_symbol_ = some s) :
    GrammarInv (g.open_production s).1 ∧
      (g.open_production s).1.active_production_ = some (g.open_production s).2 := by
  cases hp : g.active_production_ with
  | some p => simp [Grammar.open_production, hp, h]
  | none =>
    by_cases h0 : g.productions_ = []
    · have e := add_production_empty g s 0 h0 h.start_symbol
      simp only [Grammar.open_production, hp, e, and_true]
      exact inv_push_production h s hs _ _ (Production.new 1 s (-1) none)
        (by rw [map_lexeme_append_production, map_lexeme_append_production]; rfl)
        (Or.inr ⟨h0, rfl⟩) rfl rfl
    · have e := add_production_nonempty g s h0
      simp only [Grammar.open_production, hp, e, and_true]
      have := inv_push_production h s hs
        (modifyAt (fun x => x.append_production g.productions_.length) g.symbols_ s)
        (g.productions_ ++ [Production.new (g.productions_.length : Int) s (-1) none])
        (Production.new (g.productions_.length : Int) s (-1) none)
        (by rw [map_lexeme_append_production]; rfl) (Or.inl ⟨h0, rfl⟩) rfl rfl
      simpa using this

/-! ## What interning leaves alone -/

@[simp] theorem add_symbol_identifier_ (g : Grammar) (lexeme : String) (line : Int)
    (lexeme_type : LexemeType) (symbol_type : SymbolType) :
    (g.add_symbol lexeme line lexeme_type symbol_type).1.identifier_ = g.identifier_ := by
  unfold Grammar.add_symbol
  split <;> rfl

@[simp] theorem add_symbol_directives_ (g : Grammar) (lexeme : String) (line : Int)
    (lexeme_type : LexemeType) (symbol_type : SymbolType) :
    (g.add_symbol lexeme line lexeme_type symbol_type).1.directives_ = g.directives_ := by
  unfold Grammar.add_symbol
  split <;> rfl

@[simp] theorem add_symbol_productions_ (g : Grammar) (lexeme : String) (line : Int)
    (lexeme_type : LexemeType) (symbol_type : SymbolType) :
    (g.add_symbol lexeme line lexeme_type symbol_type).1.productions_ = g.productions_ := by
  unfold Grammar.add_symbol
  split <;> rfl

@[simp] theorem add_symbol_actions_ (g : Grammar) (lexeme : String) (line : Int)
    (lexeme_type : LexemeType) (symbol_type : SymbolType) :
    (g.add_symbol lexeme line lexeme_type symbol_type).1.actions_ = g.actions_ := by
  unfold Grammar.add_symbol
  split <;> rfl

@[simp] theorem add_symbol_whitespace_tokens_ (g : Grammar) (lexeme : String) (line : Int)
    (lexeme_type : LexemeType) (symbol_type : SymbolType) :
    (g.add_symbol lexeme line lexeme_type symbol_type).1.whitespace_tokens_ = g.whitespace_tokens_ := by
  unfold Grammar.add_symbol
  split <;> rfl

@[simp] theorem add_symbol_active_whitespace_directive_ (g : Grammar) (lexeme : String) (line : Int)
    (lexeme_type : LexemeType) (symbol_type : SymbolType) :
    (g.add_symbol lexeme line lexeme_type symbol_type).1.active_whitespace_directive_ = g.active_whitespace_directive_ := by
  unfold Grammar.add_symbol
  split <;> rfl

@[simp] theorem add_symbol_active_precedence_directive_ (g : Grammar) (lexeme : String) (line : Int)
    (lexeme_type : LexemeType) (symbol_type : SymbolType) :
    (g.add_symbol lexeme line lexeme_type symbol_type).1.active_precedence_directive_ = g.active_precedence_directive_ := by
  unfold Grammar.add_symbol
  split <;> rfl

@[simp] theorem add_symbol_active_directive_ (g : Grammar) (lexeme : String) (line : Int)
    (lexeme_type : LexemeType) (symbol_type : SymbolType) :
    (g.add_symbol lexeme line lexeme_type symbol_type).1.active_directive_ = g.active_directive_ := by
  unfold Grammar.add_symbol
  split <;> rfl

@[simp] theorem add_symbol_active_production_ (g : Grammar) (lexeme : String) (line : Int)
    (lexeme_type : LexemeType) (symbol_type : SymbolType) :
    (g.add_symbol lexeme line lexeme_type symbol_type).1.active_production_ = g.active_production_ := by
  unfold Grammar.add_symbol
  split <;> rfl

@[simp] theorem add_symbol_active_symbol_ (g : Grammar) (lexeme : String) (line : Int)
    (lexeme_type : LexemeType) (symbol_type : SymbolType) :
    (g.add_symbol lexeme line lexeme_type symbol_type).1.active_symbol_ = g.active_symbol_ := by
  unfold Grammar.add_symbol
  split <;> rfl

@[simp] theorem add_symbol_start_symbol_ (g : Grammar) (lexeme : String) (line : Int)
    (lexeme_type : LexemeType) (symbol_type : SymbolType) :
    (g.add_symbol lexeme line lexeme_type symbol_type).1.start_symbol_ = g.start_symbol_ := by
  unfold Grammar.add_symbol
  split <;> rfl

@[simp] theorem add_symbol_end_symbol_ (g : Grammar) (lexeme : String) (line : Int)
    (lexeme_type : LexemeType) (symbol_type : SymbolType) :
    (g.add_symbol lexeme line lexeme_type symbol_type).1.end_symbol_ = g.end_symbol_ := by
  unfold Grammar.add_symbol
  split <;> rfl

@[simp] theorem add_symbol_error_symbol_ (g : Grammar) (lexeme : String) (line : Int)
    (lexeme_type : LexemeType) (symbol_type : SymbolType) :
    (g.add_symbol lexeme line lexeme_type symbol_type).1.error_symbol_ = g.error_symbol_ := by
  unfold Grammar.add_symbol
  split <;> rfl

@[simp] theorem add_action_identifier_ (g : Grammar) (identifier : String) :
    (g.add_action identifier).1.identifier_ = g.identifier_ := by
  unfold Grammar.add_action
  split <;> rfl

@[simp] theorem add_action_directives_ (g : Grammar) (identifier : String) :
    (g.add_action identifier).1.directives_ = g.directives_ := by
  unfold Grammar.add_action
  split <;> rfl

@[simp] theorem add_action_productions_ (g : Grammar) (identifier : String) :
    (g.add_action identifier).1.productions_ = g.productions_ := by
  unfold Grammar.add_action
  split <;> rfl

@[simp] theorem add_action_symbols_ (g : Grammar) (identifier : String) :
    (g.add_action identifier).1.symbols_ = g.symbols_ := by
  unfold Grammar.add_action
  split <;> rfl

@[simp] theorem add_action_whitespace_tokens_ (g : Grammar) (identifier : String) :
    (g.add_action identifier).1.whitespace_tokens_ = g.whitespace_tokens_ := by
  unfold Grammar.add_action
  split <;> rfl

@[simp] theorem add_action_active_whitespace_directive_ (g : Grammar) (identifier : String) :
    (g.add_action identifier).1.active_whitespace_directive_ = g.active_whitespace_directive_ := by
  unfold Grammar.add_action
  split <;> rfl

@[simp] theorem add_action_active_precedence_directive_ (g : Grammar) (identifier : String) :
    (g.add_action identifier).1.active_precedence_directive_ = g.active_precedence_directive_ := by
  unfold Grammar.add_action
  split <;> rfl

@[simp] theorem add_action_active_directive_ (g : Grammar) (identifier : String) :
    (g.add_action identifier).1.active_directive_ = g.active_directive_ := by
  unfold Grammar.add_action
  split <;> rfl

@[simp] theorem add_action_active_production_ (g : Grammar) (identifier : String) :
    (g.add_action identifier).1.active_production_ = g.active_production_ := by
  unfold Grammar.add_action
  split <;> rfl

@[simp] theorem add_action_active_symbol_ (g : Grammar) (identifier : String) :
    (g.add_action identifier).1.active_symbol_ = g.active_symbol_ := by
  unfold Grammar.add_action
  split <;> rfl

@[simp] theorem add_action_start_symbol_ (g : Grammar) (identifier : String) :
    (g.add_action identifier).1.start_symbol_ = g.start_symbol_ := by
  unfold Grammar.add_action
  split <;> rfl

@[simp] theorem add_action_end_symbol_ (g : Grammar) (identifier : String) :
    (g.add_action identifier).1.end_symbol_ = g.end_symbol_ := by
  unfold Grammar.add_action
  split <;> rfl

@[simp] theorem add_action_error_symbol_ (g : Grammar) (identifier : String) :
    (g.add_action identifier).1.error_symbol_ = g.error_symbol_ := by
  unfold Grammar.add_action
  split <;> rfl

/-! ## Every builder call keeps the invariant -/

theorem inv_directive_scope {g : Grammar} (h : GrammarInv g) (a : Associativity) :
    GrammarInv { (g.directive a).1 with
      active_whitespace_directive_ := false
      active_precedence_directive_ := false
      active_directive_ := some (g.directive a).2
      active_production_ := none
      active_symbol_ := none } := by
  obtain ⟨h1, h2⟩ := inv_push_directive h a
  refine inv_scope h1 false false _ none ?_ ?_
  · intro d hd
    simp only [Option.some.injEq] at hd
    subst hd
    exact h2
  · intro s hs
    simp at hs

theorem inv_left {g : Grammar} (h : GrammarInv g) (line : Int) : GrammarInv (g.left line) :=
  inv_directive_scope h ASSOCIATE_LEFT

theorem inv_right {g : Grammar} (h : GrammarInv g) (line : Int) : GrammarInv (g.right line) :=
  inv_directive_scope h ASSOCIATE_RIGHT

theorem inv_none {g : Grammar} (h : GrammarInv g) (line : Int) : GrammarInv (g.none line) :=
  inv_directive_scope h ASSOCIATE_NONE

theorem inv_whitespace {g : Grammar} (h : GrammarInv g) : GrammarInv g.whitespace :=
  inv_scope h true false none none (by intro d hd; simp at hd) (by intro d hd; simp at hd)

theorem inv_end_production {g : Grammar} (h : GrammarInv g) : GrammarInv g.end_production :=
  inv_scope h false false none none (by intro d hd; simp at hd) (by intro d hd; simp at hd)

theorem inv_precedence {g : Grammar} (h : GrammarInv g) : GrammarInv g.precedence := by
  unfold Grammar.precedence
  split
  · exact inv_congr h rfl rfl rfl rfl rfl rfl rfl rfl rfl rfl
  · exact h

theorem inv_production {g : Grammar} (h : GrammarInv g) (identifier : String) (line : Int) :
    GrammarInv (g.production identifier line) := by
  obtain ⟨h1, h2⟩ := inv_add_symbol h identifier line LEXEME_NULL SYMBOL_NON_TERMINAL
  refine inv_scope h1 false false none _ (by intro d hd; simp at hd) ?_
  intro s hs
  simp only [Option.some.injEq] at hs
  subst hs
  exact ⟨h2, rfl, rfl⟩

theorem inv_end_expression {g : Grammar} (h : GrammarInv g) : GrammarInv g.end_expression := by
  unfold Grammar.end_expression
  cases hs : g.active_symbol_ with
  | none => exact inv_close h
  | some s => exact inv_close (inv_open_production h s hs).1

theorem inv_error {g : Grammar} (h : GrammarInv g) : GrammarInv g.error := by
  unfold Grammar.error
  have h3 := inv_three_symbols h
  cases hd : g.active_directive_ with
  | some d =>
    simp only [h.error_symbol]
    exact inv_congr (inv_modify_directive h d 2 (by omega)) rfl rfl h.error_symbol.symm rfl rfl rfl
      hd.symm rfl rfl rfl
  | none =>
    cases hs : g.active_symbol_ with
    | none => exact h
    | some s =>
      obtain ⟨h1, h2⟩ := inv_open_production h s hs
      simp only [h1.error_symbol]
      refine inv_congr
        (inv_modify_production h1 _ h2 (fun x => x.append_symbol 2) (fun _ => rfl) ?_)
        rfl rfl h1.error_symbol.symm rfl rfl rfl rfl rfl rfl rfl
      intro x k hk
      simp only [Production.append_symbol, List.mem_append, List.mem_singleton] at hk
      rcases hk with hk | rfl
      · exact Or.inl hk
      · exact Or.inr (by have := inv_three_symbols h1; omega)

theorem inv_action {g : Grammar} (h : GrammarInv g) (identifier : String) :
    GrammarInv (g.action identifier) := by
  unfold Grammar.action
  cases hp : g.active_production_ with
  | none => exact h
  | some p =>
    have h1 := inv_add_action h identifier
    have h2 : (g.add_action identifier).1.active_production_ = some p := by simp [hp]
    exact inv_close
      (inv_modify_production h1 p h2 (fun x => x.set_action (some (g.add_action identifier).2))
        (fun _ => rfl) (fun _ _ hk => Or.inl hk))

theorem inv_directive_symbol {g : Grammar} (h : GrammarInv g) (d : Nat) (lexeme : String)
    (line : Int) (lexeme_type : LexemeType) (symbol_type : SymbolType) :
    GrammarInv
      (g.directive_symbol d (fun k => k.add_symbol lexeme line lexeme_type symbol_type)) := by
  obtain ⟨h1, h2⟩ := inv_add_symbol h lexeme line lexeme_type symbol_type
  exact inv_modify_directive h1 d _ h2

theorem inv_production_symbol {g : Grammar} (h : GrammarInv g) (s : Nat)
    (hs : g.active_symbol_ = some s) (lexeme : String) (line : Int) (lexeme_type : LexemeType)
    (symbol_type : SymbolType) :
    GrammarInv
      (g.production_symbol s (fun k => k.add_symbol lexeme line lexeme_type symbol_type)) := by
  obtain ⟨h1, h2⟩ := inv_open_production h s hs
  obtain ⟨h3, h4⟩ := inv_add_symbol h1 lexeme line lexeme_type symbol_type
  have h5 : ((g.open_production s).1.add_symbol lexeme line lexeme_type
      symbol_type).1.active_production_ = some (g.open_production s).2 := by
    simp [h2]
  unfold Grammar.production_symbol
  simp only []
  split
  · refine inv_congr
      (inv_modify_production h3 _ h5
        (fun x => x.set_precedence_symbol ((g.open_production s).1.add_symbol lexeme line
          lexeme_type symbol_type).2) (fun _ => rfl) (fun _ _ hk => Or.inl hk))
      rfl rfl rfl rfl rfl rfl rfl rfl rfl rfl
  · refine inv_modify_production h3 _ h5 _ (fun _ => rfl) ?_
    intro x k hk
    simp only [Production.append_symbol, List.mem_append, List.mem_singleton] at hk
    rcases hk with hk | rfl
    · exact Or.inl hk
    · exact Or.inr h4

theorem inv_literal {g : Grammar} (h : GrammarInv g) (literal : String) (line : Int) :
    GrammarInv (g.literal literal line) := by
  unfold Grammar.literal
  split
  · exact inv_congr h rfl rfl rfl rfl rfl rfl rfl rfl rfl rfl
  · cases hd : g.active_directive_ with
    | some d => exact inv_directive_symbol h d literal line LEXEME_LITERAL SYMBOL_NULL
    | none =>
      cases hs : g.active_symbol_ with
      | none => exact h
      | some s => exact inv_production_symbol h s hs literal line LEXEME_LITERAL SYMBOL_NULL

theorem inv_regex {g : Grammar} (h : GrammarInv g) (regex : String) (line : Int) :
    GrammarInv (g.regex regex line) := by
  unfold Grammar.regex
  split
  · exact inv_congr h rfl rfl rfl rfl rfl rfl rfl rfl rfl rfl
  · cases hd : g.active_directive_ with
    | some d => exact inv_directive_symbol h d regex line LEXEME_REGULAR_EXPRESSION SYMBOL_NULL
    | none =>
      cases hs : g.active_symbol_ with
      | none => exact h
      | some s =>
        exact inv_production_symbol h s hs regex line LEXEME_REGULAR_EXPRESSION SYMBOL_NULL

theorem inv_identifier {g : Grammar} (h : GrammarInv g) (identifier : String) (line : Int) :
    GrammarInv (g.identifier identifier line) := by
  unfold Grammar.identifier
  cases hd : g.active_directive_ with
  | some d => exact inv_directive_symbol h d identifier line LEXEME_NULL SYMBOL_NON_TERMINAL
  | none =>
    cases hs : g.active_symbol_ with
    | none => exact h
    | some s => exact inv_production_symbol h s hs identifier line LEXEME_NULL SYMBOL_NON_TERMINAL

theorem inv_apply {g : Grammar} (h : GrammarInv g) (op : Op) : GrammarInv (g.apply op) := by
  cases op with
  | left line => exact inv_left h line
  | right line => exact inv_right h line
  | none line => exact inv_none h line
  | whitespace => exact inv_whitespace h
  | precedence => exact inv_precedence h
  | production identifier line => exact inv_production h identifier line
  | end_production => exact inv_end_production h
  | end_expression => exact inv_end_expression h
  | error => exact inv_error h
  | action identifier => exact inv_action h identifier
  | literal literal line => exact inv_literal h literal line
  | regex regex line => exact inv_regex h regex line
  | identifier identifier line => exact inv_identifier h identifier line

/-! ## The classification passes keep the names -/

theorem map_lexeme_classify_symbol (a : Associativity) (precedence : Int) (symbols : List Symbol)
    (s : Nat) :
    (Grammar.classify_symbol a precedence symbols s).map Symbol.lexeme =
      symbols.map Symbol.lexeme :=
  map_modifyAt Symbol.lexeme
    (fun x => ((x.set_symbol_type SYMBOL_TERMINAL).set_associativity a).set_precedence precedence)
    (fun _ => rfl) symbols s

theorem map_lexeme_foldl_classify_symbol (a : Associativity) (precedence : Int) (l : List Nat)
    (symbols : List Symbol) :
    (l.foldl (Grammar.classify_symbol a precedence) symbols).map Symbol.lexeme =
      symbols.map Symbol.lexeme := by
  induction l generalizing symbols with
  | nil => rfl
  | cons s rest ih => rw [List.foldl_cons, ih, map_lexeme_classify_symbol]

theorem map_lexeme_classify_directives (directives : List Directive) (precedence : Int)
    (symbols : List Symbol) :
    (Grammar.classify_directives directives precedence symbols).map Symbol.lexeme =
      symbols.map Symbol.lexeme := by
  induction directives generalizing precedence symbols with
  | nil => rfl
  | cons d rest ih =>
    rw [Grammar.classify_directives, ih, map_lexeme_foldl_classify_symbol]

theorem lexeme_classify_non_terminal (s : Symbol) :
    (Grammar.classify_non_terminal s).lexeme = s.lexeme := by
  unfold Grammar.classify_non_terminal
  split <;> rfl

theorem lexemes_generate_classify (g : Grammar) : g.generate_classify.lexemes = g.lexemes := by
  show ((Grammar.classify_directives g.directives_ 1 g.symbols_).map
    Grammar.classify_non_terminal).map Symbol.lexeme = _
  rw [List.map_map]
  have : Symbol.lexeme ∘ Grammar.classify_non_terminal = Symbol.lexeme :=
    funext lexeme_classify_non_terminal
  rw [this, map_lexeme_classify_directives]
  rfl

theorem inv_generate_classify {g : Grammar} (h : GrammarInv g) :
    GrammarInv g.generate_classify :=
  inv_congr h rfl rfl rfl (lexemes_generate_classify g) rfl rfl rfl rfl rfl rfl

/-- Every observable grammar state satisfies the invariant. -/
theorem reachable_inv {g : Grammar} (h : Reachable g) : GrammarInv g := by
  induction h with
  | new => exact inv_new
  | apply g op _ ih => exact inv_apply ih op
  | generate g _ ih => exact inv_generate_classify ih

theorem reachable_run {g : Grammar} (h : Reachable g) (ops : List Op) :
    Reachable (g.run ops) := by
  induction ops generalizing g with
  | nil => exact h
  | cons op rest ih => exact ih (Reachable.apply g op h)

/-! ## Symbol interning -/

/-- C1. In a reachable grammar whose symbol table holds `s` at position `i`,
`add_symbol` asked for the lexeme of `s` returns position `i` and the grammar
itself, whatever line, lexeme type and symbol type are requested: no entry is
added and no attribute of `s` changes; the same holds of `literal_symbol`,
`regex_symbol` and `non_terminal_symbol`.  In any `ParserGrammar` whose first
symbol with the lexeme of `t` is at position `j`,
`symbol( type, identifier, line )` returns position `j` and the grammar
itself, whatever the requested type. -/
theorem add_symbol_returns_existing (g : Grammar) (hg : Reachable g) (i : Nat) (s : Symbol)
    (hs : g.symbols_[i]? = some s) (pg : ParserGrammar) (j : Nat) (t : ParserSymbol)
    (ht : pg.symbols_[j]? = some t)
    (hfirst : ∀ k u, k < j → pg.symbols_[k]? = some u → u.lexeme ≠ t.lexeme)
    (line : Int) (lexeme_type : LexemeType) (symbol_type type : SymbolType) :
    g.add_symbol s.lexeme line lexeme_type symbol_type = (g, i) ∧
      g.literal_symbol s.lexeme line = (g, i) ∧
      g.regex_symbol s.lexeme line = (g, i) ∧
      g.non_terminal_symbol s.lexeme line = (g, i) ∧
      pg.symbol_of type t.lexeme line = (pg, j) := by
  have hfind : find_symbol s.lexeme g.symbols_ = some i :=
    find_first_of_nodup Symbol.lexeme g.symbols_ (reachable_inv hg).nodup i s hs
  have hpfind : find_parser_symbol t.lexeme pg.symbols_ = some j :=
    find_first_of_first ParserSymbol.lexeme t.lexeme pg.symbols_ j t ht rfl
      (fun k hk u hu => hfirst k u hk hu)
  refine ⟨add_symbol_found g _ _ _ _ i hfind, add_symbol_found g _ _ _ _ i hfind,
    add_symbol_found g _ _ _ _ i hfind, add_symbol_found g _ _ _ _ i hfind, ?_⟩
  simp [ParserGrammar.symbol_of, hpfind]

/-- Witness of C1: the `.end` symbol of a fresh `Grammar` and the `.start`
symbol of a fresh `ParserGrammar`, asked for again with other attributes. -/
theorem add_symbol_returns_existing_witness :
    Grammar.new.add_symbol ".end" 7 LEXEME_LITERAL SYMBOL_TERMINAL = (Grammar.new, 1) ∧
      Grammar.new.literal_symbol ".end" 7 = (Grammar.new, 1) ∧
      Grammar.new.regex_symbol ".end" 7 = (Grammar.new, 1) ∧
      Grammar.new.non_terminal_symbol ".end" 7 = (Grammar.new, 1) ∧
      ParserGrammar.new.symbol_of SYMBOL_TERMINAL ".start" 7 = (ParserGrammar.new, 0) :=
  add_symbol_returns_existing Grammar.new Reachable.new 1
    { lexeme := ".end", symbol_type := SYMBOL_END, lexeme_type := LEXEME_NULL,
      associativity := ASSOCIATE_NULL, precedence := 0, line := 0, productions := [] }
    (by decide) ParserGrammar.new 0
    { type := SYMBOL_NON_TERMINAL, lexeme := ".start", line := 0, associativity := ASSOCIATE_NULL,
      precedence := 0, productions := [] }
    (by decide) (fun k _ hk => absurd hk (Nat.not_lt_zero k)) 7 LEXEME_LITERAL SYMBOL_TERMINAL
    SYMBOL_TERMINAL

/-- C2. In every grammar state reachable from the constructor by builder calls
and by the classification passes of `generate`, two entries of the symbol
table with the same lexeme are the same entry. -/
theorem lexeme_unique (g : Grammar) (hg : Reachable g) (i j : Nat) (si sj : Symbol)
    (hi : g.symbols_[i]? = some si) (hj : g.symbols_[j]? = some sj)
    (hlex : si.lexeme = sj.lexeme) : i = j := by
  have h1 := find_first_of_nodup Symbol.lexeme g.symbols_ (reachable_inv hg).nodup i si hi
  have h2 := find_first_of_nodup Symbol.lexeme g.symbols_ (reachable_inv hg).nodup j sj hj
  rw [hlex, h2] at h1
  exact (Option.some.inj h1).symm

/-- Witness of C2: the symbol `x` of a grammar in which it is named twice. -/
theorem lexeme_unique_witness :
    ((Grammar.new.run [Op.production "x" 1, Op.identifier "x" 1, Op.literal "x" 1]).symbols_[3]?
        = some { lexeme := "x", symbol_type := SYMBOL_NON_TERMINAL, lexeme_type := LEXEME_NULL,
                 associativity := ASSOCIATE_NULL, precedence := 0, line := 1,
                 productions := [1] }) ∧
      (3 : Nat) = 3 :=
  ⟨by decide,
    lexeme_unique (Grammar.new.run [Op.production "x" 1, Op.identifier "x" 1, Op.literal "x" 1])
      (reachable_run Reachable.new _) 3 3
      { lexeme := "x", symbol_type := SYMBOL_NON_TERMINAL, lexeme_type := LEXEME_NULL,
        associativity := ASSOCIATE_NULL, precedence := 0, line := 1, productions := [1] }
      { lexeme := "x", symbol_type := SYMBOL_NON_TERMINAL, lexeme_type := LEXEME_NULL,
        associativity := ASSOCIATE_NULL, precedence := 0, line := 1, productions := [1] }
      (by decide) (by decide) rfl⟩

/-! ## The invariant of `ParserGrammar` -/

theorem parser_inv_three_symbols {pg : ParserGrammar} (h : ParserGrammarInv pg) :
    3 ≤ pg.symbols_.length := by
  have h1 := congrArg List.length h.names
  simp only [List.length_take, ParserGrammar.lexemes, List.length_map, List.length_cons,
    List.length_nil] at h1
  omega

theorem parser_inv_congr {pg pg1 : ParserGrammar} (h : ParserGrammarInv pg)
    (h1 : pg1.start_symbol_ = pg.start_symbol_) (h2 : pg1.end_symbol_ = pg.end_symbol_)
    (h3 : pg1.error_symbol_ = pg.error_symbol_) (h4 : pg1.lexemes.take 3 = pg.lexemes.take 3)
    (h5 : pg1.productions_ = pg.productions_) : ParserGrammarInv pg1 :=
  { start_symbol := h1.trans h.start_symbol
    end_symbol := h2.trans h.end_symbol
    error_symbol := h3.trans h.error_symbol
    names := h4.trans h.names
    augmented := by rw [h5]; exact h.augmented }

theorem parser_inv_new : ParserGrammarInv ParserGrammar.new :=
  { start_symbol := rfl
    end_symbol := rfl
    error_symbol := rfl
    names := by decide
    augmented := Or.inl rfl }

theorem parser_inv_add_symbol {pg : ParserGrammar} (h : ParserGrammarInv pg) (type : SymbolType)
    (identifier : String) (line : Int) : ParserGrammarInv (pg.add_symbol type identifier line).1 := by
  refine parser_inv_congr h rfl rfl rfl ?_ rfl
  have h3 := parser_inv_three_symbols h
  show ((pg.symbols_ ++ _).map ParserSymbol.lexeme).take 3 = _
  rw [List.map_append, List.take_append_of_le_length (by simpa using h3)]
  rfl

theorem parser_inv_symbol_of {pg : ParserGrammar} (h : ParserGrammarInv pg) (type : SymbolType)
    (identifier : String) (line : Int) : ParserGrammarInv (pg.symbol_of type identifier line).1 := by
  unfold ParserGrammar.symbol_of
  split
  · exact parser_inv_add_symbol h type identifier line
  · exact h

theorem parser_inv_grammar_symbol {pg : ParserGrammar} (h : ParserGrammarInv pg)
    (gs : GrammarSymbol) : ParserGrammarInv (pg.grammar_symbol gs).1 := by
  refine parser_inv_congr (parser_inv_symbol_of h
    (if gs.lexeme_type = LEXEME_NULL then SYMBOL_NON_TERMINAL else SYMBOL_TERMINAL) gs.lexeme 0)
    rfl rfl rfl ?_ rfl
  show ((modifyAt _ _ _).map ParserSymbol.lexeme).take 3 = _
  rw [map_modifyAt ParserSymbol.lexeme
    (fun s => (s.set_associativity gs.associativity).set_precedence gs.precedence)
    (fun _ => rfl)]
  rfl

theorem parser_inv_add_action {pg : ParserGrammar} (h : ParserGrammarInv pg)
    (identifier : String) : ParserGrammarInv (pg.add_action identifier).1 := by
  unfold ParserGrammar.add_action
  split
  · split
    · exact h
    · exact parser_inv_congr h rfl rfl rfl rfl rfl
  · exact h

theorem parser_inv_action_of {pg : ParserGrammar} (h : ParserGrammarInv pg)
    (identifier : String) : ParserGrammarInv (pg.action_of identifier).1 := by
  unfold ParserGrammar.action_of
  split
  · exact parser_inv_add_action h identifier
  · exact h

/-- Writing through `productions_.back()` without changing a left-hand
side. -/
theorem parser_inv_modify_back {pg : ParserGrammar} (h : ParserGrammarInv pg)
    (f : ParserProduction → ParserProduction) (hf : ∀ x, (f x).symbol = x.symbol) :
    ParserGrammarInv (pg.modify_back f) :=
  { start_symbol := h.start_symbol
    end_symbol := h.end_symbol
    error_symbol := h.error_symbol
    names := h.names
    augmented := by
      show modifyAt f pg.productions_ (pg.productions_.length - 1) = [] ∨
        ∃ p1 rest, modifyAt f pg.productions_ (pg.productions_.length - 1) = _
      rcases h.augmented with h0 | ⟨p1, rest, h0⟩
      · left
        rw [h0]
        rfl
      · right
        rw [h0]
        cases rest with
        | nil => exact ⟨f p1, [], by simp [modifyAt, hf]⟩
        | cons r rs =>
          exact ⟨p1, modifyAt f (r :: rs) rs.length, by simp [modifyAt]⟩ }

theorem parser_inv_begin_production {pg pg1 : ParserGrammar} (h : ParserGrammarInv pg)
    (symbol : Nat) (line : Int) (h1 : pg.begin_production symbol line = some pg1) :
    ParserGrammarInv pg1 := by
  have hmap : ∀ (l : List ParserSymbol) (p k : Nat),
      (modifyAt (fun x => x.append_production p) l k).map ParserSymbol.lexeme =
        l.map ParserSymbol.lexeme :=
    fun l p k => map_modifyAt ParserSymbol.lexeme (fun x => x.append_production p)
      (fun _ => rfl) l k
  by_cases h0 : pg.productions_ = []
  · simp only [ParserGrammar.begin_production, ParserGrammar.begin_start_production, h0,
      h.start_symbol, ParserGrammar.symbol, ParserGrammar.modify_back, if_true, List.nil_append,
      List.length_nil, List.length_cons, List.cons_ne_nil, if_false, Nat.sub_self, modifyAt,
      Option.some.injEq] at h1
    subst h1
    exact
      { start_symbol := rfl
        end_symbol := h.end_symbol
        error_symbol := h.error_symbol
        names := by
          show ((modifyAt _ (modifyAt _ pg.symbols_ 0) symbol).map ParserSymbol.lexeme).take 3 = _
          rw [hmap, hmap]
          exact h.names
        augmented := Or.inr ⟨ParserProduction.new 1 symbol line none, [], rfl⟩ }
  · simp only [ParserGrammar.begin_production, ParserGrammar.begin_start_production, h0,
      if_false, Option.some.injEq] at h1
    subst h1
    exact
      { start_symbol := h.start_symbol
        end_symbol := h.end_symbol
        error_symbol := h.error_symbol
        names := by
          show ((modifyAt _ pg.symbols_ symbol).map ParserSymbol.lexeme).take 3 = _
          rw [hmap]
          exact h.names
        augmented := by
          rcases h.augmented with h2 | ⟨p1, rest, h2⟩
          · exact absurd h2 h0
          · right
            show ∃ p1 rest, pg.productions_ ++ _ = _
            rw [h2]
            exact ⟨p1, rest ++ _, rfl⟩ }

theorem parser_inv_apply {pg pg1 : ParserGrammar} (h : ParserGrammarInv pg) (op : ParserOp)
    (h1 : pg.apply op = some pg1) : ParserGrammarInv pg1 := by
  cases op with
  | grammar_symbol gs =>
    simp only [ParserGrammar.apply, Option.some.injEq] at h1
    subst h1
    exact parser_inv_grammar_symbol h gs
  | symbol_of type identifier line =>
    simp only [ParserGrammar.apply, Option.some.injEq] at h1
    subst h1
    exact parser_inv_symbol_of h type identifier line
  | terminal identifier line =>
    simp only [ParserGrammar.apply, Option.some.injEq] at h1
    subst h1
    exact parser_inv_symbol_of h SYMBOL_TERMINAL identifier line
  | non_terminal identifier line =>
    simp only [ParserGrammar.apply, Option.some.injEq] at h1
    subst h1
    exact parser_inv_symbol_of h SYMBOL_NON_TERMINAL identifier line
  | action_of identifier =>
    simp only [ParserGrammar.apply, Option.some.injEq] at h1
    subst h1
    exact parser_inv_action_of h identifier
  | add_symbol type identifier line =>
    simp only [ParserGrammar.apply, Option.some.injEq] at h1
    subst h1
    exact parser_inv_add_symbol h type identifier line
  | add_terminal identifier line =>
    simp only [ParserGrammar.apply, Option.some.injEq] at h1
    subst h1
    exact parser_inv_add_symbol h SYMBOL_TERMINAL identifier line
  | add_non_terminal identifier line =>
    simp only [ParserGrammar.apply, Option.some.injEq] at h1
    subst h1
    exact parser_inv_add_symbol h SYMBOL_NON_TERMINAL identifier line
  | add_action identifier =>
    simp only [ParserGrammar.apply, Option.some.injEq] at h1
    subst h1
    exact parser_inv_add_action h identifier
  | identifier identifier =>
    simp only [ParserGrammar.apply, Option.some.injEq] at h1
    subst h1
    exact parser_inv_congr h rfl rfl rfl rfl rfl
  | begin_production symbol line =>
    simp only [ParserGrammar.apply] at h1
    split at h1
    · exact parser_inv_begin_production h symbol line h1
    · simp at h1
  | end_production =>
    simp only [ParserGrammar.apply, Option.some.injEq] at h1
    subst h1
    exact h
  | symbol symbol =>
    simp only [ParserGrammar.apply, ParserGrammar.symbol] at h1
    split at h1
    · split at h1
      · simp at h1
      · simp only [Option.some.injEq] at h1
        subst h1
        exact parser_inv_modify_back h _ (fun _ => rfl)
    · simp at h1
  | action action =>
    simp only [ParserGrammar.apply, ParserGrammar.action] at h1
    split at h1
    · simp at h1
    · simp only [Option.some.injEq] at h1
      subst h1
      exact parser_inv_modify_back h _ (fun _ => rfl)
  | precedence_symbol symbol =>
    simp only [ParserGrammar.apply, ParserGrammar.precedence_symbol] at h1
    split at h1
    · simp at h1
    · simp only [Option.some.injEq] at h1
      subst h1
      exact parser_inv_modify_back h _ (fun _ => rfl)

theorem parser_reachable_inv {pg : ParserGrammar} (h : ParserReachable pg) :
    ParserGrammarInv pg := by
  induction h with
  | new => exact parser_inv_new
  | apply pg pg1 op _ h1 ih => exact parser_inv_apply ih op h1

theorem parser_reachable_run {pg pg1 : ParserGrammar} (h : ParserReachable pg)
    (ops : List ParserOp) (h1 : pg.run ops = some pg1) : ParserReachable pg1 := by
  induction ops generalizing pg with
  | nil =>
    simp only [ParserGrammar.run, Option.some.injEq] at h1
    subst h1
    exact h
  | cons op rest ih =>
    simp only [ParserGrammar.run] at h1
    cases h2 : pg.apply op with
    | none => simp [h2] at h1
    | some pg2 =>
      rw [h2] at h1
      exact ih (ParserReachable.apply pg pg2 op h h2) h1

/-! ## Later states extend earlier ones -/

theorem frozen_le_length {g : Grammar} (h : GrammarInv g) : g.frozen ≤ g.productions_.length := by
  unfold Grammar.frozen
  cases hp : g.active_production_ with
  | none => exact Nat.le_refl _
  | some p =>
    have := (h.active_production p hp).1
    show p ≤ _
    omega

theorem stable_refl (g : Grammar) : Stable g g :=
  { lexemes := ⟨[], by simp⟩
    frozen := Nat.le_refl _
    productions := fun _ _ => rfl }

theorem stable_trans {a b c : Grammar} (h1 : Stable a b) (h2 : Stable b c) : Stable a c :=
  { lexemes := by
      obtain ⟨e1, he1⟩ := h1.lexemes
      obtain ⟨e2, he2⟩ := h2.lexemes
      exact ⟨e1 ++ e2, by rw [he2, he1, List.append_assoc]⟩
    frozen := Nat.le_trans h1.frozen h2.frozen
    productions := fun i hi =>
      (h2.productions i (Nat.lt_of_lt_of_le hi h1.frozen)).trans (h1.productions i hi) }

theorem stable_congr {g g1 : Grammar} (h4 : g1.lexemes = g.lexemes)
    (h8 : g1.active_production_ = g.active_production_) (h9 : g1.productions_ = g.productions_) :
    Stable g g1 :=
  { lexemes := ⟨[], by simp [h4]⟩
    frozen := by unfold Grammar.frozen; rw [h8, h9]
    productions := fun _ _ => by rw [h9] }

theorem stable_close {g g1 : Grammar} (h : GrammarInv g) (h4 : g1.lexemes = g.lexemes)
    (h8 : g1.active_production_ = none) (h9 : g1.productions_ = g.productions_) :
    Stable g g1 :=
  { lexemes := ⟨[], by simp [h4]⟩
    frozen := by
      have := frozen_le_length h
      simp only [Grammar.frozen, h8, h9] at this ⊢
      exact this
    productions := fun _ _ => by rw [h9] }

theorem stable_add_symbol (g : Grammar) (lexeme : String) (line : Int) (lexeme_type : LexemeType)
    (symbol_type : SymbolType) : Stable g (g.add_symbol lexeme line lexeme_type symbol_type).1 := by
  obtain ⟨ext, he, _⟩ := add_symbol_frame g lexeme line lexeme_type symbol_type
  rw [he]
  exact
    { lexemes := ⟨ext.map Symbol.lexeme, by simp [Grammar.lexemes]⟩
      frozen := Nat.le_refl _
      productions := fun _ _ => rfl }

theorem stable_add_action (g : Grammar) (identifier : String) :
    Stable g (g.add_action identifier).1 :=
  stable_congr (by simp [Grammar.lexemes]) (by simp) (by simp)

/-- Writing through the pointer to the active production. -/
theorem stable_modify {g g1 : Grammar} (h : GrammarInv g) (p : Nat)
    (hp : g.active_production_ = some p) (h4 : g1.lexemes = g.lexemes)
    (h8 : g1.active_production_ = some p ∨ g1.active_production_ = none)
    (f : Production → Production) (h9 : g1.productions_ = modifyAt f g.productions_ p) :
    Stable g g1 :=
  { lexemes := ⟨[], by simp [h4]⟩
    frozen := by
      have hlen := (h.active_production p hp).1
      rcases h8 with h8 | h8
      · simp [Grammar.frozen, h8, hp]
      · simp only [Grammar.frozen, h8, hp, h9, length_modifyAt]
        omega
    productions := by
      intro i hi
      simp only [Grammar.frozen, hp] at hi
      rw [h9, getElem?_modifyAt_ne f _ (Nat.ne_of_lt hi)] }

theorem stable_open_production {g : Grammar} (h : GrammarInv g) (s : Nat) :
    Stable g (g.open_production s).1 := by
  cases hp : g.active_production_ with
  | some p =>
    simp only [Grammar.open_production, hp]
    exact stable_refl g
  | none =>
    have hf : g.frozen = g.productions_.length := by simp [Grammar.frozen, hp]
    by_cases h0 : g.productions_ = []
    · have e := add_production_empty g s 0 h0 h.start_symbol
      simp only [Grammar.open_production, hp, e]
      exact
        { lexemes := ⟨[], by
            simp only [Grammar.lexemes, List.append_nil]
            rw [map_lexeme_append_production, map_lexeme_append_production]⟩
          frozen := by rw [hf, h0]; exact Nat.zero_le _
          productions := by
            intro i hi
            rw [hf, h0] at hi
            exact absurd hi (Nat.not_lt_zero i) }
    · have e := add_production_nonempty g s h0
      simp only [Grammar.open_production, hp, e]
      exact
        { lexemes := ⟨[], by
            simp only [Grammar.lexemes, List.append_nil]
            rw [map_lexeme_append_production]⟩
          frozen := by rw [hf]; simp [Grammar.frozen]
          productions := by
            intro i hi
            rw [hf] at hi
            show (g.productions_ ++ _)[i]? = _
            rw [List.getElem?_append_left hi] }

/-- What the production-scope branch of a symbol call does after it has made
sure that a production is active. -/
theorem stable_production_symbol_tail {g : Grammar} (h : GrammarInv g) (s : Nat)
    (hs : g.active_symbol_ = some s) (lexeme : String) (line : Int) (lexeme_type : LexemeType)
    (symbol_type : SymbolType) :
    Stable (g.open_production s).1
      (g.production_symbol s (fun k => k.add_symbol lexeme line lexeme_type symbol_type)) := by
  obtain ⟨h1, h2⟩ := inv_open_production h s hs
  obtain ⟨h3, _⟩ := inv_add_symbol h1 lexeme line lexeme_type symbol_type
  have h5 : ((g.open_production s).1.add_symbol lexeme line lexeme_type
      symbol_type).1.active_production_ = some (g.open_production s).2 := by
    simp [h2]
  refine stable_trans (stable_add_symbol _ lexeme line lexeme_type symbol_type) ?_
  unfold Grammar.production_symbol
  simp only []
  split
  · exact stable_modify h3 _ h5 rfl (Or.inl h5) _ rfl
  · exact stable_modify h3 _ h5 rfl (Or.inl h5) _ rfl

theorem stable_production_symbol {g : Grammar} (h : GrammarInv g) (s : Nat)
    (hs : g.active_symbol_ = some s) (lexeme : String) (line : Int) (lexeme_type : LexemeType)
    (symbol_type : SymbolType) :
    Stable g
      (g.production_symbol s (fun k => k.add_symbol lexeme line lexeme_type symbol_type)) :=
  stable_trans (stable_open_production h s)
    (stable_production_symbol_tail h s hs lexeme line lexeme_type symbol_type)

theorem stable_directive_symbol (g : Grammar) (d : Nat) (lexeme : String)
    (line : Int) (lexeme_type : LexemeType) (symbol_type : SymbolType) :
    Stable g
      (g.directive_symbol d (fun k => k.add_symbol lexeme line lexeme_type symbol_type)) :=
  stable_trans (stable_add_symbol g lexeme line lexeme_type symbol_type)
    (stable_congr rfl rfl rfl)

theorem stable_directive_scope {g : Grammar} (h : GrammarInv g) (a : Associativity) :
    Stable g { (g.directive a).1 with
      active_whitespace_directive_ := false
      active_precedence_directive_ := false
      active_directive_ := some (g.directive a).2
      active_production_ := none
      active_symbol_ := none } :=
  stable_close h rfl rfl rfl

theorem stable_apply {g : Grammar} (h : GrammarInv g) (op : Op) : Stable g (g.apply op) := by
  cases op with
  | left line => exact stable_directive_scope h ASSOCIATE_LEFT
  | right line => exact stable_directive_scope h ASSOCIATE_RIGHT
  | none line => exact stable_directive_scope h ASSOCIATE_NONE
  | whitespace => exact stable_close h rfl rfl rfl
  | precedence =>
    show Stable g g.precedence
    unfold Grammar.precedence
    split
    · exact stable_congr rfl rfl rfl
    · exact stable_refl g
  | production identifier line =>
    exact stable_trans (stable_add_symbol g identifier line LEXEME_NULL SYMBOL_NON_TERMINAL)
      (stable_close (inv_add_symbol h identifier line LEXEME_NULL SYMBOL_NON_TERMINAL).1
        rfl rfl rfl)
  | end_production => exact stable_close h rfl rfl rfl
  | end_expression =>
    show Stable g g.end_expression
    unfold Grammar.end_expression
    cases hs : g.active_symbol_ with
    | none => exact stable_close h rfl rfl rfl
    | some s =>
      exact stable_trans (stable_open_production h s)
        (stable_close (inv_open_production h s hs).1 rfl rfl rfl)
  | error =>
    show Stable g g.error
    unfold Grammar.error
    cases hd : g.active_directive_ with
    | some d =>
      simp only [h.error_symbol]
      exact stable_congr rfl rfl rfl
    | none =>
      cases hs : g.active_symbol_ with
      | none => exact stable_refl g
      | some s =>
        obtain ⟨h1, h2⟩ := inv_open_production h s hs
        simp only [h1.error_symbol]
        exact stable_trans (stable_open_production h s)
          (stable_modify h1 _ h2 rfl (Or.inl h2) _ rfl)
  | action identifier =>
    show Stable g (g.action identifier)
    unfold Grammar.action
    cases hp : g.active_production_ with
    | none => exact stable_refl g
    | some p =>
      have h1 := inv_add_action h identifier
      have h2 : (g.add_action identifier).1.active_production_ = some p := by simp [hp]
      exact stable_trans (stable_add_action g identifier)
        (stable_modify h1 p h2 rfl (Or.inr rfl) _ rfl)
  | literal literal line =>
    show Stable g (g.literal literal line)
    unfold Grammar.literal
    split
    · exact stable_congr rfl rfl rfl
    · cases hd : g.active_directive_ with
      | some d => exact stable_directive_symbol g d literal line LEXEME_LITERAL SYMBOL_NULL
      | none =>
        cases hs : g.active_symbol_ with
        | none => exact stable_refl g
        | some s => exact stable_production_symbol h s hs literal line LEXEME_LITERAL SYMBOL_NULL
  | regex regex line =>
    show Stable g (g.regex regex line)
    unfold Grammar.regex
    split
    · exact stable_congr rfl rfl rfl
    · cases hd : g.active_directive_ with
      | some d =>
        exact stable_directive_symbol g d regex line LEXEME_REGULAR_EXPRESSION SYMBOL_NULL
      | none =>
        cases hs : g.active_symbol_ with
        | none => exact stable_refl g
        | some s =>
          exact stable_production_symbol h s hs regex line LEXEME_REGULAR_EXPRESSION SYMBOL_NULL
  | identifier identifier line =>
    show Stable g (g.identifier identifier line)
    unfold Grammar.identifier
    cases hd : g.active_directive_ with
    | some d => exact stable_directive_symbol g d identifier line LEXEME_NULL SYMBOL_NON_TERMINAL
    | none =>
      cases hs : g.active_symbol_ with
      | none => exact stable_refl g
      | some s =>
        exact stable_production_symbol h s hs identifier line LEXEME_NULL SYMBOL_NON_TERMINAL

theorem inv_run {g : Grammar} (h : GrammarInv g) (ops : List Op) : GrammarInv (g.run ops) := by
  induction ops generalizing g with
  | nil => exact h
  | cons op rest ih => exact ih (inv_apply h op)

theorem stable_run {g : Grammar} (h : GrammarInv g) (ops : List Op) : Stable g (g.run ops) := by
  induction ops generalizing g with
  | nil => exact stable_refl g
  | cons op rest ih => exact stable_trans (stable_apply h op) (ih (inv_apply h op))

/-! ## The calls that add a production -/

/-- In production scope, a call that can add a production first makes sure
that one is active and then writes only to it. -/
theorem stable_adds_production {g : Grammar} (h : GrammarInv g) (s : Nat)
    (hs : g.active_symbol_ = some s) (op : Op) (hop : op.adds_production = true) :
    Stable (g.open_production s).1 (g.apply op) := by
  obtain ⟨_, hw, hd⟩ := h.active_symbol s hs
  obtain ⟨h1, h2⟩ := inv_open_production h s hs
  cases op with
  | end_expression =>
    show Stable _ g.end_expression
    simp only [Grammar.end_expression, hs]
    exact stable_close h1 rfl rfl rfl
  | error =>
    show Stable _ g.error
    simp only [Grammar.error, hs, hd, h1.error_symbol]
    exact stable_modify h1 _ h2 rfl (Or.inl h2) _ rfl
  | literal literal line =>
    show Stable _ (g.literal literal line)
    simp only [Grammar.literal, hs, hd, hw, Bool.false_eq_true, if_false]
    exact stable_production_symbol_tail h s hs literal line LEXEME_LITERAL SYMBOL_NULL
  | regex regex line =>
    show Stable _ (g.regex regex line)
    simp only [Grammar.regex, hs, hd, hw, Bool.false_eq_true, if_false]
    exact stable_production_symbol_tail h s hs regex line LEXEME_REGULAR_EXPRESSION SYMBOL_NULL
  | identifier identifier line =>
    show Stable _ (g.identifier identifier line)
    simp only [Grammar.identifier, hs, hd]
    exact stable_production_symbol_tail h s hs identifier line LEXEME_NULL SYMBOL_NON_TERMINAL
  | left _ => simp [Op.adds_production] at hop
  | right _ => simp [Op.adds_production] at hop
  | none _ => simp [Op.adds_production] at hop
  | whitespace => simp [Op.adds_production] at hop
  | precedence => simp [Op.adds_production] at hop
  | production _ _ => simp [Op.adds_production] at hop
  | end_production => simp [Op.adds_production] at hop
  | action _ => simp [Op.adds_production] at hop

/-- Before the first production exists, a call made while no nonterminal is
open, or a call that cannot add a production, adds none, and the open
nonterminal afterwards is the one `Op.next_open` names. -/
theorem apply_before_first {g : Grammar} (h : GrammarInv g) (h0 : g.productions_ = [])
    (cur : Option String) (ht : Tracks cur g) (op : Op)
    (hop : cur = none ∨ op.adds_production = false) :
    (g.apply op).productions_ = [] ∧ Tracks (op.next_open cur) (g.apply op) := by
  have hp : g.active_production_ = none := by
    cases hp : g.active_production_ with
    | none => rfl
    | some p =>
      have := (h.active_production p hp).1
      rw [h0] at this
      simp at this
  have hnone : ∀ k : Grammar, k.active_symbol_ = none → Tracks none k := fun _ hk => hk
  cases op with
  | left line => exact ⟨h0, hnone _ rfl⟩
  | right line => exact ⟨h0, hnone _ rfl⟩
  | none line => exact ⟨h0, hnone _ rfl⟩
  | whitespace => exact ⟨h0, hnone _ rfl⟩
  | end_production => exact ⟨h0, hnone _ rfl⟩
  | precedence =>
    show g.precedence.productions_ = [] ∧ Tracks cur g.precedence
    unfold Grammar.precedence
    split
    · exact ⟨h0, ht⟩
    · exact ⟨h0, ht⟩
  | action identifier =>
    show (g.action identifier).productions_ = [] ∧ Tracks cur (g.action identifier)
    simp only [Grammar.action, hp]
    exact ⟨h0, ht⟩
  | production identifier line =>
    refine ⟨by show (g.add_symbol identifier line _ _).1.productions_ = []; simp [h0], ?_⟩
    obtain ⟨ext, he, _, s, hs, hl⟩ :=
      add_symbol_frame g identifier line LEXEME_NULL SYMBOL_NON_TERMINAL
    refine ⟨_, rfl, ?_⟩
    show ((g.add_symbol identifier line LEXEME_NULL SYMBOL_NON_TERMINAL).1.symbols_.map
      Symbol.lexeme)[(g.add_symbol identifier line LEXEME_NULL SYMBOL_NON_TERMINAL).2]? = _
    rw [he]
    show ((g.symbols_ ++ ext).map Symbol.lexeme)[_]? = _
    rw [List.getElem?_map, hs]
    simp [hl]
  | end_expression =>
    rcases hop with rfl | hop
    · have hs : g.active_symbol_ = none := ht
      show g.end_expression.productions_ = [] ∧ Tracks none g.end_expression
      simp only [Grammar.end_expression, hs]
      exact ⟨h0, hnone _ rfl⟩
    · simp [Op.adds_production] at hop
  | error =>
    rcases hop with rfl | hop
    · have hs : g.active_symbol_ = none := ht
      show g.error.productions_ = [] ∧ Tracks none g.error
      unfold Grammar.error
      cases hd : g.active_directive_ with
      | some d =>
        simp only [h.error_symbol]
        exact ⟨h0, hs⟩
      | none =>
        simp only [hs]
        exact ⟨h0, hs⟩
    · simp [Op.adds_production] at hop
  | literal literal line =>
    rcases hop with rfl | hop
    · have hs : g.active_symbol_ = none := ht
      show (g.literal literal line).productions_ = [] ∧ Tracks none (g.literal literal line)
      unfold Grammar.literal
      split
      · exact ⟨h0, hs⟩
      · cases hd : g.active_directive_ with
        | some d =>
          exact ⟨by simp [Grammar.directive_symbol, Grammar.literal_symbol, h0],
            by simp [Tracks, Grammar.directive_symbol, Grammar.literal_symbol, hs]⟩
        | none =>
          simp only [hs]
          exact ⟨h0, hs⟩
    · simp [Op.adds_production] at hop
  | regex regex line =>
    rcases hop with rfl | hop
    · have hs : g.active_symbol_ = none := ht
      show (g.regex regex line).productions_ = [] ∧ Tracks none (g.regex regex line)
      unfold Grammar.regex
      split
      · exact ⟨h0, hs⟩
      · cases hd : g.active_directive_ with
        | some d =>
          exact ⟨by simp [Grammar.directive_symbol, Grammar.regex_symbol, h0],
            by simp [Tracks, Grammar.directive_symbol, Grammar.regex_symbol, hs]⟩
        | none =>
          simp only [hs]
          exact ⟨h0, hs⟩
    · simp [Op.adds_production] at hop
  | identifier identifier line =>
    rcases hop with rfl | hop
    · have hs : g.active_symbol_ = none := ht
      show (g.identifier identifier line).productions_ = [] ∧
        Tracks none (g.identifier identifier line)
      unfold Grammar.identifier
      cases hd : g.active_directive_ with
      | some d =>
        exact ⟨by simp [Grammar.directive_symbol, Grammar.non_terminal_symbol, h0],
          by simp [Tracks, Grammar.directive_symbol, Grammar.non_terminal_symbol, hs]⟩
      | none =>
        simp only [hs]
        exact ⟨h0, hs⟩
    · simp [Op.adds_production] at hop

/-- The first production of an empty grammar: the augmented production for
the open nonterminal, frozen from then on. -/
theorem open_production_first {g : Grammar} (h : GrammarInv g) (h0 : g.productions_ = [])
    (s : Nat) :
    (g.open_production s).1.productions_[0]? = some (start_production 0 s) ∧
      0 < (g.open_production s).1.frozen ∧ (g.open_production s).1.lexemes = g.lexemes := by
  have hp : g.active_production_ = none := by
    cases hp : g.active_production_ with
    | none => rfl
    | some p =>
      have := (h.active_production p hp).1
      rw [h0] at this
      simp at this
  have e := add_production_empty g s 0 h0 h.start_symbol
  simp only [Grammar.open_production, hp, e]
  refine ⟨rfl, by simp [Grammar.frozen], ?_⟩
  simp only [Grammar.lexemes]
  rw [map_lexeme_append_production, map_lexeme_append_production]

theorem getElem?_lexemes_stable {g g1 : Grammar} (h : Stable g g1) (i : Nat) (x : String)
    (hx : g.lexemes[i]? = some x) : g1.lexemes[i]? = some x := by
  obtain ⟨ext, he⟩ := h.lexemes
  rw [he, List.getElem?_append_left (List.getElem?_eq_some.1 hx).1]
  exact hx

/-- Refinement of the builder by `first_production_owner`: the right-hand side
of production 0 is the nonterminal that the call sequence has open at its
first call that adds a production. -/
theorem run_first_production_owner (ops : List Op) (g : Grammar) (cur : Option String)
    (h : GrammarInv g) (h0 : g.productions_ = []) (ht : Tracks cur g)
    (hne : (g.run ops).productions_ ≠ []) :
    ∃ identifier S, first_production_owner cur ops = some identifier ∧
      (g.run ops).productions_[0]? = some (start_production 0 S) ∧
      (g.run ops).lexemes[S]? = some identifier := by
  induction ops generalizing g cur with
  | nil => exact absurd h0 hne
  | cons op rest ih =>
    have hrun : g.run (op :: rest) = (g.apply op).run rest := rfl
    rw [hrun] at hne ⊢
    cases hcur : cur with
    | none =>
      subst hcur
      obtain ⟨h1, h2⟩ := apply_before_first h h0 none ht op (Or.inl rfl)
      obtain ⟨identifier, S, e1, e2, e3⟩ := ih (g.apply op) _ (inv_apply h op) h1 h2 hne
      exact ⟨identifier, S, by simpa [first_production_owner] using e1, e2, e3⟩
    | some name =>
      subst hcur
      cases hop : op.adds_production with
      | false =>
        obtain ⟨h1, h2⟩ := apply_before_first h h0 (some name) ht op (Or.inr hop)
        obtain ⟨identifier, S, e1, e2, e3⟩ := ih (g.apply op) _ (inv_apply h op) h1 h2 hne
        exact ⟨identifier, S, by simpa [first_production_owner, hop] using e1, e2, e3⟩
      | true =>
        obtain ⟨s, hs, hl⟩ := ht
        obtain ⟨f1, f2, f3⟩ := open_production_first h h0 s
        have st1 := stable_adds_production h s hs op hop
        have st2 := stable_run (inv_apply h op) rest
        have st := stable_trans st1 st2
        refine ⟨name, s, by simp [first_production_owner, hop], ?_, ?_⟩
        · rw [st.productions 0 f2]
          exact f1
        · exact getElem?_lexemes_stable st s name (by rw [f3]; exact hl)

/-! ## What opening a production leaves alone -/

@[simp] theorem add_production_identifier_ (g : Grammar) (s : Nat) :
    (g.add_production s).1.identifier_ = g.identifier_ := by
  simp only [Grammar.add_production, Grammar.add_start_production]
  split
  · split <;> rfl
  · rfl

@[simp] theorem open_production_identifier_ (g : Grammar) (s : Nat) :
    (g.open_production s).1.identifier_ = g.identifier_ := by
  unfold Grammar.open_production
  split
  · rfl
  · exact add_production_identifier_ g s

@[simp] theorem add_production_directives_ (g : Grammar) (s : Nat) :
    (g.add_production s).1.directives_ = g.directives_ := by
  simp only [Grammar.add_production, Grammar.add_start_production]
  split
  · split <;> rfl
  · rfl

@[simp] theorem open_production_directives_ (g : Grammar) (s : Nat) :
    (g.open_production s).1.directives_ = g.directives_ := by
  unfold Grammar.open_production
  split
  · rfl
  · exact add_production_directives_ g s

@[simp] theorem add_production_actions_ (g : Grammar) (s : Nat) :
    (g.add_production s).1.actions_ = g.actions_ := by
  simp only [Grammar.add_production, Grammar.add_start_production]
  split
  · split <;> rfl
  · rfl

@[simp] theorem open_production_actions_ (g : Grammar) (s : Nat) :
    (g.open_production s).1.actions_ = g.actions_ := by
  unfold Grammar.open_production
  split
  · rfl
  · exact add_production_actions_ g s

@[simp] theorem add_production_whitespace_tokens_ (g : Grammar) (s : Nat) :
    (g.add_production s).1.whitespace_tokens_ = g.whitespace_tokens_ := by
  simp only [Grammar.add_production, Grammar.add_start_production]
  split
  · split <;> rfl
  · rfl

@[simp] theorem open_production_whitespace_tokens_ (g : Grammar) (s : Nat) :
    (g.open_production s).1.whitespace_tokens_ = g.whitespace_tokens_ := by
  unfold Grammar.open_production
  split
  · rfl
  · exact add_production_whitespace_tokens_ g s

@[simp] theorem add_production_active_whitespace_directive_ (g : Grammar) (s : Nat) :
    (g.add_production s).1.active_whitespace_directive_ = g.active_whitespace_directive_ := by
  simp only [Grammar.add_production, Grammar.add_start_production]
  split
  · split <;> rfl
  · rfl

@[simp] theorem open_production_active_whitespace_directive_ (g : Grammar) (s : Nat) :
    (g.open_production s).1.active_whitespace_directive_ = g.active_whitespace_directive_ := by
  unfold Grammar.open_production
  split
  · rfl
  · exact add_production_active_whitespace_directive_ g s

@[simp] theorem add_production_active_precedence_directive_ (g : Grammar) (s : Nat) :
    (g.add_production s).1.active_precedence_directive_ = g.active_precedence_directive_ := by
  simp only [Grammar.add_production, Grammar.add_start_production]
  split
  · split <;> rfl
  · rfl

@[simp] theorem open_production_active_precedence_directive_ (g : Grammar) (s : Nat) :
    (g.open_production s).1.active_precedence_directive_ = g.active_precedence_directive_ := by
  unfold Grammar.open_production
  split
  · rfl
  · exact add_production_active_precedence_directive_ g s

@[simp] theorem add_production_active_directive_ (g : Grammar) (s : Nat) :
    (g.add_production s).1.active_directive_ = g.active_directive_ := by
  simp only [Grammar.add_production, Grammar.add_start_production]
  split
  · split <;> rfl
  · rfl

@[simp] theorem open_production_active_directive_ (g : Grammar) (s : Nat) :
    (g.open_production s).1.active_directive_ = g.active_directive_ := by
  unfold Grammar.open_production
  split
  · rfl
  · exact add_production_active_directive_ g s

@[simp] theorem add_production_active_symbol_ (g : Grammar) (s : Nat) :
    (g.add_production s).1.active_symbol_ = g.active_symbol_ := by
  simp only [Grammar.add_production, Grammar.add_start_production]
  split
  · split <;> rfl
  · rfl

@[simp] theorem open_production_active_symbol_ (g : Grammar) (s : Nat) :
    (g.open_production s).1.active_symbol_ = g.active_symbol_ := by
  unfold Grammar.open_production
  split
  · rfl
  · exact add_production_active_symbol_ g s

@[simp] theorem add_production_start_symbol_ (g : Grammar) (s : Nat) :
    (g.add_production s).1.start_symbol_ = g.start_symbol_ := by
  simp only [Grammar.add_production, Grammar.add_start_production]
  split
  · split <;> rfl
  · rfl

@[simp] theorem open_production_start_symbol_ (g : Grammar) (s : Nat) :
    (g.open_production s).1.start_symbol_ = g.start_symbol_ := by
  unfold Grammar.open_production
  split
  · rfl
  · exact add_production_start_symbol_ g s

@[simp] theorem add_production_end_symbol_ (g : Grammar) (s : Nat) :
    (g.add_production s).1.end_symbol_ = g.end_symbol_ := by
  simp only [Grammar.add_production, Grammar.add_start_production]
  split
  · split <;> rfl
  · rfl

@[simp] theorem open_production_end_symbol_ (g : Grammar) (s : Nat) :
    (g.open_production s).1.end_symbol_ = g.end_symbol_ := by
  unfold Grammar.open_production
  split
  · rfl
  · exact add_production_end_symbol_ g s

@[simp] theorem add_production_error_symbol_ (g : Grammar) (s : Nat) :
    (g.add_production s).1.error_symbol_ = g.error_symbol_ := by
  simp only [Grammar.add_production, Grammar.add_start_production]
  split
  · split <;> rfl
  · rfl

@[simp] theorem open_production_error_symbol_ (g : Grammar) (s : Nat) :
    (g.open_production s).1.error_symbol_ = g.error_symbol_ := by
  unfold Grammar.open_production
  split
  · rfl
  · exact add_production_error_symbol_ g s

theorem open_production_lexemes (g : Grammar) (s : Nat) :
    (g.open_production s).1.lexemes = g.lexemes := by
  unfold Grammar.open_production
  split
  · rfl
  · simp only [Grammar.lexemes, Grammar.add_production, Grammar.add_start_production]
    split
    · split
      · rw [map_lexeme_append_production, map_lexeme_append_production]
      · rw [map_lexeme_append_production]
    · rw [map_lexeme_append_production]

theorem open_production_active (g : Grammar) (s p : Nat) (hp : g.active_production_ = some p) :
    g.open_production s = (g, p) := by
  simp [Grammar.open_production, hp]

/-- A symbol call made in production scope with no precedence mark pending
appends the symbol it names to the active production, opened if need be. -/
theorem symbol_call_appends {g : Grammar} (h : GrammarInv g) (s : Nat)
    (hs : g.active_symbol_ = some s) (hflag : g.active_precedence_directive_ = false) (op : Op)
    (hop : op.is_symbol_call = true) :
    ∃ q, (g.apply op).productions_ =
        modifyAt (fun x => x.append_symbol q) (g.open_production s).1.productions_
          (g.open_production s).2 ∧
      (g.apply op).lexemes[q]? = some op.symbol_name ∧
      (g.apply op).active_symbol_ = some s ∧
      (g.apply op).active_precedence_directive_ = false ∧
      (g.apply op).active_production_ = some (g.open_production s).2 := by
  obtain ⟨_, hw, hd⟩ := h.active_symbol s hs
  obtain ⟨h1, h2⟩ := inv_open_production h s hs
  have key : ∀ (lexeme : String) (line : Int) (lexeme_type : LexemeType)
      (symbol_type : SymbolType),
      ∃ q, (g.production_symbol s
          (fun k => k.add_symbol lexeme line lexeme_type symbol_type)).productions_ =
          modifyAt (fun x => x.append_symbol q) (g.open_production s).1.productions_
            (g.open_production s).2 ∧
        (g.production_symbol s
          (fun k => k.add_symbol lexeme line lexeme_type symbol_type)).lexemes[q]? =
          some lexeme ∧
        (g.production_symbol s
          (fun k => k.add_symbol lexeme line lexeme_type symbol_type)).active_symbol_ =
          some s ∧
        (g.production_symbol s
          (fun k => k.add_symbol lexeme line lexeme_type symbol_type)).active_precedence_directive_
          = false ∧
        (g.production_symbol s
          (fun k => k.add_symbol lexeme line lexeme_type symbol_type)).active_production_ =
          some (g.open_production s).2 := by
    intro lexeme line lexeme_type symbol_type
    obtain ⟨ext, he, _, t, ht, hl⟩ :=
      add_symbol_frame (g.open_production s).1 lexeme line lexeme_type symbol_type
    have hf : (g.open_production s).1.active_precedence_directive_ = false := by simp [hflag]
    refine ⟨((g.open_production s).1.add_symbol lexeme line lexeme_type symbol_type).2, ?_⟩
    simp only [Grammar.production_symbol, hf, Bool.false_eq_true, if_false]
    refine ⟨by simp, ?_, by simp [hs], by simp [hflag], by simp [h2]⟩
    show (((g.open_production s).1.add_symbol lexeme line lexeme_type symbol_type).1.symbols_.map
      Symbol.lexeme)[_]? = _
    rw [he]
    show (((g.open_production s).1.symbols_ ++ ext).map Symbol.lexeme)[_]? = _
    rw [List.getElem?_map, ht]
    simp [hl]
  cases op with
  | error =>
    refine ⟨2, ?_⟩
    show g.error.productions_ = _ ∧ g.error.lexemes[2]? = _ ∧ g.error.active_symbol_ = _ ∧
      g.error.active_precedence_directive_ = _ ∧ g.error.active_production_ = _
    simp only [Grammar.error, hs, hd, h1.error_symbol]
    refine ⟨trivial, ?_, by simp [hs], by simp [hflag], h2⟩
    have hn := congrArg (fun l => l[2]?) h1.names
    simpa [List.getElem?_take, Op.symbol_name] using hn
  | literal literal line =>
    show ∃ q, (g.literal literal line).productions_ = _ ∧ (g.literal literal line).lexemes[q]? = _ ∧
      (g.literal literal line).active_symbol_ = _ ∧
      (g.literal literal line).active_precedence_directive_ = _ ∧
      (g.literal literal line).active_production_ = _
    simp only [Grammar.literal, hs, hd, hw, Bool.false_eq_true, if_false]
    exact key literal line LEXEME_LITERAL SYMBOL_NULL
  | regex regex line =>
    show ∃ q, (g.regex regex line).productions_ = _ ∧ (g.regex regex line).lexemes[q]? = _ ∧
      (g.regex regex line).active_symbol_ = _ ∧
      (g.regex regex line).active_precedence_directive_ = _ ∧
      (g.regex regex line).active_production_ = _
    simp only [Grammar.regex, hs, hd, hw, Bool.false_eq_true, if_false]
    exact key regex line LEXEME_REGULAR_EXPRESSION SYMBOL_NULL
  | identifier identifier line =>
    show ∃ q, (g.identifier identifier line).productions_ = _ ∧
      (g.identifier identifier line).lexemes[q]? = _ ∧
      (g.identifier identifier line).active_symbol_ = _ ∧
      (g.identifier identifier line).active_precedence_directive_ = _ ∧
      (g.identifier identifier line).active_production_ = _
    simp only [Grammar.identifier, hs, hd]
    exact key identifier line LEXEME_NULL SYMBOL_NON_TERMINAL
  | left _ => simp [Op.is_symbol_call] at hop
  | right _ => simp [Op.is_symbol_call] at hop
  | none _ => simp [Op.is_symbol_call] at hop
  | whitespace => simp [Op.is_symbol_call] at hop
  | precedence => simp [Op.is_symbol_call] at hop
  | production _ _ => simp [Op.is_symbol_call] at hop
  | end_production => simp [Op.is_symbol_call] at hop
  | end_expression => simp [Op.is_symbol_call] at hop
  | action _ => simp [Op.is_symbol_call] at hop

/-! ## C3: the augmented production -/

/-- C3, as stated, fails: after `s: 'x';` production 0 of a `Grammar` has the
right-hand side `[s]`, one symbol and not the two symbols `[S, .end]`, and the
same holds of a `ParserGrammar` after `begin_production`. -/
theorem augmented_production_lacks_end :
    ((Grammar.new.run one_rule_ops).productions_ ≠ [] ∧
      ¬ ∃ p0 S e, (Grammar.new.run one_rule_ops).productions_[0]? = some p0 ∧
        (Grammar.new.run one_rule_ops).end_symbol_ = some e ∧ p0.symbols = [S, e]) ∧
    ∃ pg, ParserGrammar.new.run one_rule_parser_ops = some pg ∧ pg.productions_ ≠ [] ∧
      ¬ ∃ p0 S e, pg.productions_[0]? = some p0 ∧ pg.end_symbol_ = some e ∧
        p0.symbols = [S, e] := by
  have e1 : (Grammar.new.run one_rule_ops).productions_[0]? = some (start_production 0 3) := by
    decide
  refine ⟨⟨by decide, ?_⟩, ?_⟩
  · rintro ⟨p0, S, e, h0, _, h2⟩
    rw [e1] at h0
    simp only [Option.some.injEq] at h0
    subst h0
    simp [start_production] at h2
  · have e2 : ∃ pg, ParserGrammar.new.run one_rule_parser_ops = some pg ∧
        pg.productions_[0]? = some (parser_start_production 0 3) := by
      refine ⟨_, rfl, ?_⟩
      decide
    obtain ⟨pg, hrun, hp⟩ := e2
    refine ⟨pg, hrun, ?_, ?_⟩
    · intro h
      rw [h] at hp
      simp at hp
    · rintro ⟨p0, S, e, h0, _, h2⟩
      rw [hp] at h0
      simp only [Option.some.injEq] at h0
      subst h0
      simp [parser_start_production] at h2

/-- C3, amended. In every reachable `Grammar` and every reachable
`ParserGrammar` with at least one production there are at least two;
production 0 has index 0, its left-hand side is the start symbol, named
`.start`, and its right-hand side is the single symbol `[S]`, where `S` is the
left-hand side of production 1. -/
theorem augmented_production_shape (g : Grammar) (hg : Reachable g) (hne : g.productions_ ≠ [])
    (pg : ParserGrammar) (hpg : ParserReachable pg) (hpne : pg.productions_ ≠ []) :
    (∃ p0 p1 rest, g.productions_ = p0 :: p1 :: rest ∧ p0.index = 0 ∧
        g.start_symbol_ = some p0.symbol ∧ g.lexemes[p0.symbol]? = some ".start" ∧
        p0.symbols = [p1.symbol]) ∧
      ∃ q0 q1 rest, pg.productions_ = q0 :: q1 :: rest ∧ q0.index = 0 ∧
        pg.start_symbol_ = some q0.symbol ∧ pg.lexemes[q0.symbol]? = some ".start" ∧
        q0.symbols = [q1.symbol] := by
  have h := reachable_inv hg
  have hp := parser_reachable_inv hpg
  constructor
  · rcases h.augmented with h0 | ⟨p1, rest, h0⟩
    · exact absurd h0 hne
    · refine ⟨_, p1, rest, h0, rfl, h.start_symbol, ?_, rfl⟩
      have h1 := congrArg (fun l => l[0]?) h.names
      have h3 := inv_three_symbols h
      simpa [List.getElem?_take, start_production] using h1
  · rcases hp.augmented with h0 | ⟨p1, rest, h0⟩
    · exact absurd h0 hpne
    · refine ⟨_, p1, rest, h0, rfl, hp.start_symbol, ?_, rfl⟩
      have h1 := congrArg (fun l => l[0]?) hp.names
      simpa [List.getElem?_take, parser_start_production] using h1

/-- Witness of C3 amended: the grammars with the one rule `s: 'x';`. -/
theorem augmented_production_shape_witness :
    (∃ p0 p1 rest, (Grammar.new.run one_rule_ops).productions_ = p0 :: p1 :: rest ∧
        p0.index = 0 ∧ (Grammar.new.run one_rule_ops).start_symbol_ = some p0.symbol ∧
        (Grammar.new.run one_rule_ops).lexemes[p0.symbol]? = some ".start" ∧
        p0.symbols = [p1.symbol]) ∧
      ∃ q0 q1 rest,
        ((ParserGrammar.new.run one_rule_parser_ops).getD ParserGrammar.new).productions_ =
          q0 :: q1 :: rest ∧ q0.index = 0 ∧
        ((ParserGrammar.new.run one_rule_parser_ops).getD ParserGrammar.new).start_symbol_ =
          some q0.symbol ∧
        ((ParserGrammar.new.run one_rule_parser_ops).getD ParserGrammar.new).lexemes[q0.symbol]? =
          some ".start" ∧
        q0.symbols = [q1.symbol] :=
  augmented_production_shape (Grammar.new.run one_rule_ops) (reachable_run Reachable.new _)
    (by decide) ((ParserGrammar.new.run one_rule_parser_ops).getD ParserGrammar.new)
    (parser_reachable_run ParserReachable.new one_rule_parser_ops rfl) (by decide)

/-! ## C4: the start symbol -/

/-- C4, as stated, fails: in `a: ; b: 'x';` built without an alternative for
`a` the first `production(id)` call names `a`, yet the right-hand side of
production 0 is the symbol named `b`. -/
theorem start_symbol_not_first_declared :
    (Grammar.new.run empty_head_ops).productions_ ≠ [] ∧
      first_declared empty_head_ops = some "a" ∧
      (∃ p0 S, (Grammar.new.run empty_head_ops).productions_[0]? = some p0 ∧
        p0.symbols = [S] ∧ (Grammar.new.run empty_head_ops).lexemes[S]? = some "b") ∧
      ¬ ∃ p0 S rest, (Grammar.new.run empty_head_ops).productions_[0]? = some p0 ∧
        p0.symbols = S :: rest ∧
        (Grammar.new.run empty_head_ops).lexemes[S]? = first_declared empty_head_ops := by
  have e1 : (Grammar.new.run empty_head_ops).productions_[0]? = some (start_production 0 4) := by
    decide
  have e2 : (Grammar.new.run empty_head_ops).lexemes[4]? = some "b" := by decide
  refine ⟨by decide, rfl, ⟨_, 4, e1, rfl, e2⟩, ?_⟩
  rintro ⟨p0, S, rest, h0, h1, h2⟩
  rw [e1] at h0
  simp only [Option.some.injEq] at h0
  subst h0
  simp only [start_production, List.cons.injEq] at h1
  obtain ⟨rfl, _⟩ := h1
  rw [e2] at h2
  exact absurd h2 (by decide)

/-- C4, amended. For every sequence of builder calls on a fresh grammar that
yields at least one production, the right-hand side of production 0 is the
single symbol `S` whose name is that of the nonterminal open at the first call
that adds a production: the one named by the latest `production(id)` call
before the first `end_expression`, `error`, `literal`, `regex` or `identifier`
call made in production scope. -/
theorem start_symbol_is_first_production_owner (ops : List Op)
    (hne : (Grammar.new.run ops).productions_ ≠ []) :
    ∃ identifier p0 S, first_production_owner none ops = some identifier ∧
      (Grammar.new.run ops).productions_[0]? = some p0 ∧ p0.symbols = [S] ∧
      (Grammar.new.run ops).lexemes[S]? = some identifier := by
  obtain ⟨identifier, S, h1, h2, h3⟩ :=
    run_first_production_owner ops Grammar.new none inv_new rfl rfl hne
  exact ⟨identifier, _, S, h1, h2, rfl, h3⟩

/-- Witness of C4 amended: the grammar `a: ; b: 'x';` built without an
alternative for `a`. -/
theorem start_symbol_is_first_production_owner_witness :
    (Grammar.new.run empty_head_ops).productions_ ≠ [] ∧
      ∃ identifier p0 S, first_production_owner none empty_head_ops = some identifier ∧
        (Grammar.new.run empty_head_ops).productions_[0]? = some p0 ∧ p0.symbols = [S] ∧
        (Grammar.new.run empty_head_ops).lexemes[S]? = some identifier :=
  ⟨by decide, start_symbol_is_first_production_owner empty_head_ops (by decide)⟩

/-! ## C5: building a right-hand side -/

theorem end_expression_active (g : Grammar) (s p : Nat) (hs : g.active_symbol_ = some s)
    (hp : g.active_production_ = some p) :
    g.end_expression = { g with active_production_ := none } := by
  unfold Grammar.end_expression
  rw [hs]
  simp only [open_production_active g s p hp, hs]

theorem building_step {base : List Production} {k : Nat} {names : List String} {g : Grammar}
    (hb : Building base k names g) (op : Op) (hop : op.is_symbol_call = true) :
    Building base k (names ++ [op.symbol_name]) (g.apply op) := by
  obtain ⟨h, hs, hflag, hact, p, hprod, hpk, hnames⟩ := hb
  obtain ⟨q, e1, e2, e3, e4, e5⟩ := symbol_call_appends h k hs hflag op hop
  rw [open_production_active g k base.length hact] at e1 e5
  have st := stable_apply h op
  refine ⟨inv_apply h op, e3, e4, e5, p.append_symbol q, ?_, hpk, ?_⟩
  · rw [e1, hprod]
    exact modifyAt_length_append _ base p []
  · have hmem : p ∈ g.productions_ := by rw [hprod]; simp
    have hold : p.symbols.map (fun s => (g.apply op).lexemes[s]?) =
        p.symbols.map (fun s => g.lexemes[s]?) := by
      apply List.map_congr_left
      intro t ht
      have hlt : t < g.lexemes.length := by
        rw [lexemes_length]
        exact (h.production_symbols p hmem).2 t ht
      obtain ⟨ext, he⟩ := st.lexemes
      rw [he, List.getElem?_append_left hlt]
    simp only [Production.append_symbol, List.map_append, List.map_cons, List.map_nil, hold,
      hnames, e2]

theorem building_start {g : Grammar} (h : GrammarInv g) (k : Nat)
    (hs : g.active_symbol_ = some k) (hp : g.active_production_ = none)
    (hflag : g.active_precedence_directive_ = false) (op : Op)
    (hop : op.is_symbol_call = true) :
    Building (if g.productions_ = [] then [start_production 0 k] else g.productions_) k
      [op.symbol_name] (g.apply op) := by
  obtain ⟨q, e1, e2, e3, e4, e5⟩ := symbol_call_appends h k hs hflag op hop
  by_cases h0 : g.productions_ = []
  · have e := add_production_empty g k 0 h0 h.start_symbol
    simp only [Grammar.open_production, hp, e] at e1 e5
    rw [if_pos h0]
    exact ⟨inv_apply h op, e3, e4, e5, (Production.new 1 k (-1) none).append_symbol q,
      by rw [e1]; rfl, rfl, by simp [Production.append_symbol, Production.new, e2]⟩
  · have e := add_production_nonempty g k h0
    simp only [Grammar.open_production, hp, e] at e1 e5
    rw [if_neg h0]
    refine ⟨inv_apply h op, e3, e4, e5,
      (Production.new (g.productions_.length : Int) k (-1) none).append_symbol q, ?_, rfl,
      by simp [Production.append_symbol, Production.new, e2]⟩
    rw [e1]
    exact modifyAt_length_append _ g.productions_ _ []

theorem building_run {base : List Production} {k : Nat} {names : List String} {g : Grammar}
    (hb : Building base k names g) (calls : List Op)
    (hcalls : ∀ op, op ∈ calls → op.is_symbol_call = true) :
    Building base k (names ++ calls.map Op.symbol_name) (g.run calls) := by
  induction calls generalizing g names with
  | nil => simpa using hb
  | cons op rest ih =>
    have h1 := building_step hb op (hcalls op (List.mem_cons_self _ _))
    have h2 := ih h1 (fun o ho => hcalls o (List.mem_cons_of_mem _ ho))
    simpa using h2

/-- C5. From every reachable grammar state, `production(id)` followed by one
or more `literal`, `regex`, `identifier` or `error` calls and then
`end_expression()` leaves the production list equal to the old one, preceded
by the augmented production 0 if the old one was empty, followed by exactly
one new production `p`: `p` is last, its left-hand side is the symbol named
`id`, and its right-hand side is, in call order, the symbols named by the
calls (`.error` for `error()`). -/
theorem production_right_hand_side (g : Grammar) (hg : Reachable g) (identifier : String)
    (line : Int) (calls : List Op) (hn : calls ≠ [])
    (hcalls : ∀ op, op ∈ calls → op.is_symbol_call = true) :
    ∃ p, ((g.production identifier line).run calls).end_expression.productions_ =
        (if g.productions_ = [] then [start_production 0 p.symbol] else g.productions_) ++ [p] ∧
      ((g.production identifier line).run calls).end_expression.lexemes[p.symbol]? =
        some identifier ∧
      p.symbols.map
          (fun s => ((g.production identifier line).run calls).end_expression.lexemes[s]?) =
        calls.map (fun op => some op.symbol_name) := by
  have h := reachable_inv hg
  have h1 := inv_production h identifier line
  obtain ⟨ext, he, _, t, ht, hl⟩ :=
    add_symbol_frame g identifier line LEXEME_NULL SYMBOL_NON_TERMINAL
  have hk : (g.production identifier line).lexemes[
      (g.add_symbol identifier line LEXEME_NULL SYMBOL_NON_TERMINAL).2]? = some identifier := by
    show ((g.add_symbol identifier line LEXEME_NULL SYMBOL_NON_TERMINAL).1.symbols_.map
      Symbol.lexeme)[_]? = _
    rw [he]
    show ((g.symbols_ ++ ext).map Symbol.lexeme)[_]? = _
    rw [List.getElem?_map, ht]
    simp [hl]
  have hprod : (g.production identifier line).productions_ = g.productions_ := by
    simp [Grammar.production, Grammar.non_terminal_symbol]
  cases calls with
  | nil => exact absurd rfl hn
  | cons op rest =>
    have hb0 := building_start h1 _ rfl rfl rfl op (hcalls op (List.mem_cons_self _ _))
    have hb := building_run hb0 rest (fun o ho => hcalls o (List.mem_cons_of_mem _ ho))
    rw [hprod] at hb
    have hrun : (g.production identifier line).run (op :: rest) =
        ((g.production identifier line).apply op).run rest := rfl
    rw [hrun]
    obtain ⟨hinv, hs, _, hact, p, e1, e2, e3⟩ := hb
    have hend := end_expression_active _ _ _ hs hact
    have st : Stable (g.production identifier line)
        (((g.production identifier line).apply op).run rest) :=
      stable_trans (stable_apply h1 op) (stable_run (inv_apply h1 op) rest)
    rw [hend]
    refine ⟨p, ?_, ?_, ?_⟩
    · rw [e2]
      exact e1
    · rw [e2]
      exact getElem?_lexemes_stable st _ _ hk
    · simpa using e3

/-- Witness of C5: the alternative `s: 'x' error y` on a fresh grammar. -/
theorem production_right_hand_side_witness :
    ∃ p, ((Grammar.new.production "s" 1).run
          [Op.literal "x" 1, Op.error, Op.identifier "y" 1]).end_expression.productions_ =
        (if Grammar.new.productions_ = [] then [start_production 0 p.symbol]
          else Grammar.new.productions_) ++ [p] ∧
      ((Grammar.new.production "s" 1).run
          [Op.literal "x" 1, Op.error, Op.identifier "y" 1]).end_expression.lexemes[p.symbol]? =
        some "s" ∧
      p.symbols.map
          (fun s => ((Grammar.new.production "s" 1).run
            [Op.literal "x" 1, Op.error, Op.identifier "y" 1]).end_expression.lexemes[s]?) =
        [Op.literal "x" 1, Op.error, Op.identifier "y" 1].map (fun op => some op.symbol_name) :=
  production_right_hand_side Grammar.new Reachable.new "s" 1
    [Op.literal "x" 1, Op.error, Op.identifier "y" 1] (by decide) (by decide)

/-! ## C6: the empty alternative -/

/-- A symbol call made in production scope leaves a production active: the
one that was active, or a new one at the end of the list. -/
theorem symbol_call_opens {g : Grammar} (h : GrammarInv g) (s : Nat)
    (hs : g.active_symbol_ = some s) (op : Op) (hop : op.is_symbol_call = true) :
    (g.apply op).productions_.length = (g.open_production s).1.productions_.length ∧
      (g.apply op).active_production_ = some (g.open_production s).2 ∧
      (g.apply op).active_symbol_ = some s := by
  obtain ⟨_, hw, hd⟩ := h.active_symbol s hs
  obtain ⟨h1, h2⟩ := inv_open_production h s hs
  have key : ∀ (lexeme : String) (line : Int) (lexeme_type : LexemeType)
      (symbol_type : SymbolType),
      (g.production_symbol s
          (fun k => k.add_symbol lexeme line lexeme_type symbol_type)).productions_.length =
          (g.open_production s).1.productions_.length ∧
        (g.production_symbol s
          (fun k => k.add_symbol lexeme line lexeme_type symbol_type)).active_production_ =
          some (g.open_production s).2 ∧
        (g.production_symbol s
          (fun k => k.add_symbol lexeme line lexeme_type symbol_type)).active_symbol_ =
          some s := by
    intro lexeme line lexeme_type symbol_type
    unfold Grammar.production_symbol
    simp only []
    split
    · exact ⟨by simp [length_modifyAt], by simp [h2], by simp [hs]⟩
    · exact ⟨by simp [length_modifyAt], by simp [h2], by simp [hs]⟩
  cases op with
  | error =>
    show g.error.productions_.length = _ ∧ g.error.active_production_ = _ ∧
      g.error.active_symbol_ = _
    simp only [Grammar.error, hs, hd, h1.error_symbol]
    exact ⟨by simp [length_modifyAt], h2, by simp [hs]⟩
  | literal literal line =>
    show (g.literal literal line).productions_.length = _ ∧
      (g.literal literal line).active_production_ = _ ∧ (g.literal literal line).active_symbol_ = _
    simp only [Grammar.literal, hs, hd, hw, Bool.false_eq_true, if_false]
    exact key literal line LEXEME_LITERAL SYMBOL_NULL
  | regex regex line =>
    show (g.regex regex line).productions_.length = _ ∧
      (g.regex regex line).active_production_ = _ ∧ (g.regex regex line).active_symbol_ = _
    simp only [Grammar.regex, hs, hd, hw, Bool.false_eq_true, if_false]
    exact key regex line LEXEME_REGULAR_EXPRESSION SYMBOL_NULL
  | identifier identifier line =>
    show (g.identifier identifier line).productions_.length = _ ∧
      (g.identifier identifier line).active_production_ = _ ∧
      (g.identifier identifier line).active_symbol_ = _
    simp only [Grammar.identifier, hs, hd]
    exact key identifier line LEXEME_NULL SYMBOL_NON_TERMINAL
  | left _ => simp [Op.is_symbol_call] at hop
  | right _ => simp [Op.is_symbol_call] at hop
  | none _ => simp [Op.is_symbol_call] at hop
  | whitespace => simp [Op.is_symbol_call] at hop
  | precedence => simp [Op.is_symbol_call] at hop
  | production _ _ => simp [Op.is_symbol_call] at hop
  | end_production => simp [Op.is_symbol_call] at hop
  | end_expression => simp [Op.is_symbol_call] at hop
  | action _ => simp [Op.is_symbol_call] at hop

/-- The production list after `add_production( s )` ran with no production
active. -/
theorem open_production_closed {g : Grammar} (h : GrammarInv g) (s : Nat)
    (hp : g.active_production_ = none) :
    (g.open_production s).1.productions_ =
        (if g.productions_ = [] then [start_production 0 s] else g.productions_) ++
          [Production.new
            ((if g.productions_ = [] then [start_production 0 s] else g.productions_).length : Int)
            s (-1) none] ∧
      (g.open_production s).2 =
        (if g.productions_ = [] then [start_production 0 s] else g.productions_).length := by
  by_cases h0 : g.productions_ = []
  · have e := add_production_empty g s 0 h0 h.start_symbol
    simp only [Grammar.open_production, hp, e, h0, if_true]
    exact ⟨rfl, rfl⟩
  · have e := add_production_nonempty g s h0
    simp only [Grammar.open_production, hp, e, h0, if_false]
    exact ⟨trivial, trivial⟩

/-- After a call that closed the alternative in production scope, the next
symbol call adds one production, and its left-hand side is the open
nonterminal. -/
theorem next_symbol_call_opens {g : Grammar} (h : GrammarInv g) (k : Nat)
    (hs : g.active_symbol_ = some k) (hp : g.active_production_ = none)
    (hne : g.productions_ ≠ []) (op : Op) (hop : op.is_symbol_call = true) :
    (g.apply op).productions_.length = g.productions_.length + 1 ∧
      ∃ p, (g.apply op).productions_[g.productions_.length]? = some p ∧ p.symbol = k := by
  obtain ⟨e1, e2, e3⟩ := symbol_call_opens h k hs op hop
  obtain ⟨f1, f2⟩ := open_production_closed h k hp
  rw [if_neg hne] at f1 f2
  rw [f1] at e1
  rw [f2] at e2
  obtain ⟨_, q, hq, hqs⟩ := (inv_apply h op).active_production _ e2
  rw [e3] at hqs
  exact ⟨by simpa using e1, q, hq, (Option.some.inj hqs).symm⟩

/-- C6. In production scope of a reachable grammar (`k` is the open
nonterminal): when no production is active, `end_expression()` adds at the end
of the list one production with left-hand side `k` and empty right-hand side
(after the augmented production 0 if the list was empty) and leaves the older
productions as they were; when a production is active it leaves the production
list as it is.  In both cases no production is active afterwards, `k` stays
open, and the next `literal`, `regex`, `identifier` or `error` call adds one
production, whose left-hand side is `k`. -/
theorem end_expression_epsilon (g : Grammar) (hg : Reachable g) (k : Nat)
    (hs : g.active_symbol_ = some k) :
    (g.active_production_ = none →
        ∃ p, g.end_expression.productions_ =
            (if g.productions_ = [] then [start_production 0 k] else g.productions_) ++ [p] ∧
          p.symbol = k ∧ p.symbols = []) ∧
      (∀ a, g.active_production_ = some a → g.end_expression.productions_ = g.productions_) ∧
      g.end_expression.active_production_ = none ∧
      g.end_expression.active_symbol_ = some k ∧
      ∀ op, op.is_symbol_call = true →
        (g.end_expression.apply op).productions_.length =
            g.end_expression.productions_.length + 1 ∧
          ∃ p, (g.end_expression.apply op).productions_[g.end_expression.productions_.length]? =
            some p ∧ p.symbol = k := by
  have h := reachable_inv hg
  have hact : g.end_expression.active_production_ = none := rfl
  have hsym : g.end_expression.active_symbol_ = some k := by
    simp [Grammar.end_expression, hs]
  have hprod : g.end_expression.productions_ = (g.open_production k).1.productions_ := by
    simp [Grammar.end_expression, hs]
  have hne : g.end_expression.productions_ ≠ [] := by
    rw [hprod]
    cases hp : g.active_production_ with
    | none =>
      rw [(open_production_closed h k hp).1]
      simp
    | some a =>
      rw [open_production_active g k a hp]
      obtain ⟨hlen, _⟩ := h.active_production a hp
      intro h0
      rw [h0] at hlen
      simp at hlen
  refine ⟨?_, ?_, hact, hsym, ?_⟩
  · intro hp
    rw [hprod, (open_production_closed h k hp).1]
    exact ⟨_, rfl, rfl, rfl⟩
  · intro a hp
    rw [hprod, open_production_active g k a hp]
  · intro op hop
    exact next_symbol_call_opens (inv_end_expression h) k hsym hact hne op hop

/-- Witness of C6: `s:` has just been opened on a fresh grammar. -/
theorem end_expression_epsilon_witness :
    (Grammar.new.production "s" 1).active_symbol_ = some 3 ∧
      ((Grammar.new.production "s" 1).active_production_ = none →
        ∃ p, (Grammar.new.production "s" 1).end_expression.productions_ =
            (if (Grammar.new.production "s" 1).productions_ = [] then [start_production 0 3]
              else (Grammar.new.production "s" 1).productions_) ++ [p] ∧
          p.symbol = 3 ∧ p.symbols = []) ∧
      (∀ a, (Grammar.new.production "s" 1).active_production_ = some a →
        (Grammar.new.production "s" 1).end_expression.productions_ =
          (Grammar.new.production "s" 1).productions_) ∧
      (Grammar.new.production "s" 1).end_expression.active_production_ = none ∧
      (Grammar.new.production "s" 1).end_expression.active_symbol_ = some 3 ∧
      ∀ op, op.is_symbol_call = true →
        ((Grammar.new.production "s" 1).end_expression.apply op).productions_.length =
            (Grammar.new.production "s" 1).end_expression.productions_.length + 1 ∧
          ∃ p, ((Grammar.new.production "s" 1).end_expression.apply op).productions_[
              (Grammar.new.production "s" 1).end_expression.productions_.length]? = some p ∧
            p.symbol = 3 :=
  ⟨by decide,
    end_expression_epsilon (Grammar.new.production "s" 1)
      (Reachable.apply Grammar.new (Op.production "s" 1) Reachable.new) 3 (by decide)⟩

/-! ## C7-C9: the classification passes -/

theorem classify_symbol_eq (a : Associativity) (precedence : Int) (symbols : List Symbol)
    (s : Nat) :
    Grammar.classify_symbol a precedence symbols s =
      modifyAt (Symbol.classify_listed a precedence) symbols s := rfl

theorem classify_listed_idem (a : Associativity) (precedence : Int) (x : Symbol) :
    Symbol.classify_listed a precedence (Symbol.classify_listed a precedence x) =
      Symbol.classify_listed a precedence x := rfl

/-- The inner loop of the first pass, read at one position of the table. -/
theorem getElem?_foldl_classify_symbol (a : Associativity) (precedence : Int) (l : List Nat)
    (symbols : List Symbol) (s : Nat) :
    (l.foldl (Grammar.classify_symbol a precedence) symbols)[s]? =
      if s ∈ l then symbols[s]?.map (Symbol.classify_listed a precedence) else symbols[s]? := by
  induction l generalizing symbols with
  | nil => simp
  | cons t rest ih =>
    rw [List.foldl_cons, ih, classify_symbol_eq, getElem?_modifyAt]
    by_cases hst : s = t
    · subst hst
      by_cases hr : s ∈ rest
      · simp only [hr, List.mem_cons, or_true, if_true, if_pos rfl, Option.map_map]
        congr 1
      · simp [hr]
    · by_cases hr : s ∈ rest
      · simp [hr, hst]
      · simp [hr, hst]

theorem length_foldl_classify_symbol (a : Associativity) (precedence : Int) (l : List Nat)
    (symbols : List Symbol) :
    (l.foldl (Grammar.classify_symbol a precedence) symbols).length = symbols.length := by
  induction l generalizing symbols with
  | nil => rfl
  | cons t rest ih => rw [List.foldl_cons, ih, classify_symbol_eq, length_modifyAt]

theorem length_classify_directives (directives : List Directive) (precedence : Int)
    (symbols : List Symbol) :
    (Grammar.classify_directives directives precedence symbols).length = symbols.length := by
  induction directives generalizing precedence symbols with
  | nil => rfl
  | cons d rest ih => rw [Grammar.classify_directives, ih, length_foldl_classify_symbol]

/-- The first pass leaves alone a symbol that no directive lists. -/
theorem classify_directives_not_listed (directives : List Directive) (precedence : Int)
    (symbols : List Symbol) (s : Nat)
    (h : ∀ (j : Nat) (d : Directive), directives[j]? = some d → s ∉ d.symbols) :
    (Grammar.classify_directives directives precedence symbols)[s]? = symbols[s]? := by
  induction directives generalizing precedence symbols with
  | nil => rfl
  | cons d rest ih =>
    rw [Grammar.classify_directives, ih _ _ (fun j e he => h (j + 1) e (by simpa using he)),
      getElem?_foldl_classify_symbol, if_neg (h 0 d (by simp))]

/-- The first pass gives a symbol the number and the associativity of the
last directive that lists it. -/
theorem classify_directives_last (directives : List Directive) (precedence : Int)
    (symbols : List Symbol) (s k : Nat) (d : Directive) (hd : directives[k]? = some d)
    (hs : s ∈ d.symbols) (hlast : ∀ (j : Nat) (e : Directive), k < j → directives[j]? = some e → s ∉ e.symbols)
    (sym : Symbol)
    (hsym : (Grammar.classify_directives directives precedence symbols)[s]? = some sym) :
    sym.precedence = precedence + k ∧ sym.associativity = d.associativity ∧
      sym.symbol_type = SYMBOL_TERMINAL := by
  induction directives generalizing precedence symbols k with
  | nil => simp at hd
  | cons d0 rest ih =>
    rw [Grammar.classify_directives] at hsym
    cases k with
    | zero =>
      simp only [List.getElem?_cons_zero, Option.some.injEq] at hd
      subst hd
      rw [classify_directives_not_listed rest _ _ s
        (fun j e he => hlast (j + 1) e (Nat.succ_pos j) (by simpa using he)),
        getElem?_foldl_classify_symbol, if_pos hs] at hsym
      cases hx : symbols[s]? with
      | none => simp [hx] at hsym
      | some x =>
        simp only [hx, Option.map_some', Option.some.injEq] at hsym
        subst hsym
        exact ⟨by simp [Symbol.classify_listed, Symbol.set_precedence], rfl, rfl⟩
    | succ k =>
      have := ih (precedence + 1) _ k (by simpa using hd)
        (fun j e hj he => hlast (j + 1) e (by omega) (by simpa using he)) hsym
      refine ⟨?_, this.2⟩
      rw [this.1]
      push_cast
      omega

/-- The first pass makes every listed symbol a terminal. -/
theorem classify_directives_terminal (directives : List Directive) (precedence : Int)
    (symbols : List Symbol) (s : Nat)
    (h : (∃ d, d ∈ directives ∧ s ∈ d.symbols) ∨
      ∀ x, symbols[s]? = some x → x.symbol_type = SYMBOL_TERMINAL)
    (sym : Symbol)
    (hsym : (Grammar.classify_directives directives precedence symbols)[s]? = some sym) :
    sym.symbol_type = SYMBOL_TERMINAL := by
  induction directives generalizing precedence symbols with
  | nil =>
    rcases h with ⟨d, hd, _⟩ | h
    · simp at hd
    · exact h sym hsym
  | cons d0 rest ih =>
    rw [Grammar.classify_directives] at hsym
    refine ih (precedence + 1) _ ?_ hsym
    by_cases h0 : s ∈ d0.symbols
    · right
      intro x hx
      rw [getElem?_foldl_classify_symbol, if_pos h0] at hx
      cases hy : symbols[s]? with
      | none => simp [hy] at hx
      | some y =>
        simp only [hy, Option.map_some', Option.some.injEq] at hx
        subst hx
        rfl
    · rcases h with ⟨d, hd, hs⟩ | h
      · simp only [List.mem_cons] at hd
        rcases hd with rfl | hd
        · exact absurd hs h0
        · exact Or.inl ⟨d, hd, hs⟩
      · right
        intro x hx
        rw [getElem?_foldl_classify_symbol, if_neg h0] at hx
        exact h x hx

theorem map_productions_classify_directives (directives : List Directive) (precedence : Int)
    (symbols : List Symbol) :
    (Grammar.classify_directives directives precedence symbols).map Symbol.productions =
      symbols.map Symbol.productions := by
  induction directives generalizing precedence symbols with
  | nil => rfl
  | cons d rest ih =>
    rw [Grammar.classify_directives, ih]
    generalize d.symbols = l
    induction l generalizing symbols with
    | nil => rfl
    | cons t ts ih2 =>
      rw [List.foldl_cons, ih2, classify_symbol_eq]
      exact map_modifyAt Symbol.productions (Symbol.classify_listed d.associativity precedence)
        (fun _ => rfl) symbols t

/-- The table after both passes, read at one position. -/
theorem getElem?_generate_classify (g : Grammar) (s : Nat) :
    g.generate_classify.symbols_[s]? =
      (Grammar.classify_directives g.directives_ 1 g.symbols_)[s]?.map
        Grammar.classify_non_terminal := by
  simp [Grammar.generate_classify]

theorem classify_non_terminal_fields (x : Symbol) :
    (Grammar.classify_non_terminal x).precedence = x.precedence ∧
      (Grammar.classify_non_terminal x).associativity = x.associativity ∧
      (Grammar.classify_non_terminal x).productions = x.productions := by
  unfold Grammar.classify_non_terminal
  split <;> exact ⟨rfl, rfl, rfl⟩

/-- C7, as stated, fails: `+` is listed in directive 1 (`%left`) and in
directive 2 (`%right`); after the classification passes its precedence is 2
and its associativity is Right, not those of directive 1. -/
theorem listed_twice_takes_last :
    ∃ d sym, (Grammar.new.run twice_listed_ops).directives_[0]? = some d ∧ 3 ∈ d.symbols ∧
      (Grammar.new.run twice_listed_ops).generate_classify.symbols_[3]? = some sym ∧
      ¬ (sym.precedence = 1 ∧ sym.associativity = d.associativity) :=
  ⟨{ associativity := ASSOCIATE_LEFT, symbols := [3] },
    { lexeme := "+", symbol_type := SYMBOL_TERMINAL, lexeme_type := LEXEME_LITERAL,
      associativity := ASSOCIATE_RIGHT, precedence := 2, line := 1, productions := [] },
    by decide, by decide, by decide, by decide⟩

/-- C7, amended. In a reachable grammar, a symbol listed in directive number
`k + 1` (directives numbered from 1 in the order they were opened) and in no
later directive has, after the classification passes, precedence `k + 1` and
the associativity of that directive. -/
theorem directive_precedence_last (g : Grammar) (hg : Reachable g) (k : Nat) (d : Directive)
    (s : Nat) (hd : g.directives_[k]? = some d) (hs : s ∈ d.symbols)
    (hlast : ∀ (j : Nat) (e : Directive), k < j → g.directives_[j]? = some e → s ∉ e.symbols) :
    ∃ sym, g.generate_classify.symbols_[s]? = some sym ∧ sym.precedence = (k : Int) + 1 ∧
      sym.associativity = d.associativity := by
  have h := reachable_inv hg
  have hlt : s < g.symbols_.length := h.directive_symbols d (List.getElem?_mem hd) s hs
  have hlt2 : s < (Grammar.classify_directives g.directives_ 1 g.symbols_).length := by
    rw [length_classify_directives]
    exact hlt
  obtain ⟨x, hx⟩ : ∃ x, (Grammar.classify_directives g.directives_ 1 g.symbols_)[s]? = some x :=
    ⟨_, List.getElem?_eq_getElem hlt2⟩
  have hc := classify_directives_last g.directives_ 1 g.symbols_ s k d hd hs hlast x hx
  obtain ⟨f1, f2, _⟩ := classify_non_terminal_fields x
  refine ⟨Grammar.classify_non_terminal x, ?_, ?_, ?_⟩
  · rw [getElem?_generate_classify, hx]
    rfl
  · rw [f1, hc.1]
    omega
  · rw [f2, hc.2.1]

/-- Witness of C7 amended: `+` listed in `%left` and then in `%right` takes
the second directive. -/
theorem directive_precedence_last_witness :
    (Grammar.new.run twice_listed_ops).directives_[1]? =
        some { associativity := ASSOCIATE_RIGHT, symbols := [3] } ∧
      ∃ sym, (Grammar.new.run twice_listed_ops).generate_classify.symbols_[3]? = some sym ∧
        sym.precedence = ((1 : Nat) : Int) + 1 ∧ sym.associativity = ASSOCIATE_RIGHT :=
  ⟨by decide,
    directive_precedence_last (Grammar.new.run twice_listed_ops) (reachable_run Reachable.new _) 1
      { associativity := ASSOCIATE_RIGHT, symbols := [3] } 3 (by decide) (by decide)
      (by
        intro j e hj he
        have hlen : (Grammar.new.run twice_listed_ops).directives_.length = 2 := by decide
        have := (List.getElem?_eq_some.1 he).1
        omega)⟩

/-- C8, as stated, fails: `e` is listed in a directive and has a rule; after
the classification passes its symbol type is NonTerminal. -/
theorem listed_symbol_with_rule_is_non_terminal :
    ∃ d sym, (Grammar.new.run listed_with_rule_ops).directives_[0]? = some d ∧ 3 ∈ d.symbols ∧
      (Grammar.new.run listed_with_rule_ops).generate_classify.symbols_[3]? = some sym ∧
      sym.symbol_type = SYMBOL_NON_TERMINAL ∧ sym.symbol_type ≠ SYMBOL_TERMINAL :=
  ⟨{ associativity := ASSOCIATE_LEFT, symbols := [3] },
    { lexeme := "e", symbol_type := SYMBOL_NON_TERMINAL, lexeme_type := LEXEME_NULL,
      associativity := ASSOCIATE_LEFT, precedence := 1, line := 1, productions := [1] },
    by decide, by decide, by decide, by decide, by decide⟩

/-- C8, amended. In a reachable grammar, after the classification passes a
symbol listed in some directive is a Terminal when it has no production, and a
NonTerminal when it has one. -/
theorem directive_symbols_terminal (g : Grammar) (hg : Reachable g) (d : Directive)
    (hd : d ∈ g.directives_) (s : Nat) (hs : s ∈ d.symbols) :
    ∃ sym, g.generate_classify.symbols_[s]? = some sym ∧
      (sym.productions = [] → sym.symbol_type = SYMBOL_TERMINAL) ∧
      (sym.productions ≠ [] → sym.symbol_type = SYMBOL_NON_TERMINAL) := by
  have h := reachable_inv hg
  have hlt : s < g.symbols_.length := h.directive_symbols d hd s hs
  have hlt2 : s < (Grammar.classify_directives g.directives_ 1 g.symbols_).length := by
    rw [length_classify_directives]
    exact hlt
  obtain ⟨x, hx⟩ : ∃ x, (Grammar.classify_directives g.directives_ 1 g.symbols_)[s]? = some x :=
    ⟨_, List.getElem?_eq_getElem hlt2⟩
  have hc := classify_directives_terminal g.directives_ 1 g.symbols_ s (Or.inl ⟨d, hd, hs⟩) x hx
  refine ⟨Grammar.classify_non_terminal x, ?_, ?_, ?_⟩
  · rw [getElem?_generate_classify, hx]
    rfl
  · intro h0
    rw [(classify_non_terminal_fields x).2.2] at h0
    simp only [Grammar.classify_non_terminal, h0, ne_eq, not_true_eq_false, if_false]
    exact hc
  · intro h0
    rw [(classify_non_terminal_fields x).2.2] at h0
    simp only [Grammar.classify_non_terminal, h0, ne_eq, not_false_eq_true, if_true]
    rfl

/-- Witness of C8 amended: `e`, listed in `%left`, with the rule `e: 'x';`. -/
theorem directive_symbols_terminal_witness :
    ({ associativity := ASSOCIATE_LEFT, symbols := [3] } : Directive) ∈
        (Grammar.new.run listed_with_rule_ops).directives_ ∧
      ∃ sym, (Grammar.new.run listed_with_rule_ops).generate_classify.symbols_[3]? = some sym ∧
        (sym.productions = [] → sym.symbol_type = SYMBOL_TERMINAL) ∧
        (sym.productions ≠ [] → sym.symbol_type = SYMBOL_NON_TERMINAL) :=
  ⟨by decide,
    directive_symbols_terminal (Grammar.new.run listed_with_rule_ops)
      (reachable_run Reachable.new _) { associativity := ASSOCIATE_LEFT, symbols := [3] }
      (by decide) 3 (by decide)⟩

/-- C9. After the classification passes every symbol of the table that has a
production has symbol type NonTerminal and lexeme type Null, and every symbol
whose symbol type is Terminal has no production. -/
theorem terminals_have_no_productions (g : Grammar) (sym : Symbol)
    (h : sym ∈ g.generate_classify.symbols_) :
    (sym.productions ≠ [] →
        sym.symbol_type = SYMBOL_NON_TERMINAL ∧ sym.lexeme_type = LEXEME_NULL) ∧
      (sym.symbol_type = SYMBOL_TERMINAL → sym.productions = []) := by
  simp only [Grammar.generate_classify, List.mem_map] at h
  obtain ⟨x, _, rfl⟩ := h
  by_cases h0 : x.productions = []
  · have e : Grammar.classify_non_terminal x = x := by
      simp [Grammar.classify_non_terminal, h0]
    rw [e]
    exact ⟨fun hne => absurd h0 hne, fun _ => h0⟩
  · have e : Grammar.classify_non_terminal x =
        (x.set_lexeme_type LEXEME_NULL).set_symbol_type SYMBOL_NON_TERMINAL := by
      simp [Grammar.classify_non_terminal, h0]
    rw [e]
    exact ⟨fun _ => ⟨rfl, rfl⟩, fun ht => by simp [Symbol.set_symbol_type] at ht⟩

/-- Witness of C9: the symbol `e` of the grammar `%left e; e: 'x';`. -/
theorem terminals_have_no_productions_witness :
    ({ lexeme := "e", symbol_type := SYMBOL_NON_TERMINAL, lexeme_type := LEXEME_NULL,
        associativity := ASSOCIATE_LEFT, precedence := 1, line := 1, productions := [1] } :
        Symbol) ∈ (Grammar.new.run listed_with_rule_ops).generate_classify.symbols_ ∧
      (([1] : List Nat) ≠ [] →
        SYMBOL_NON_TERMINAL = SYMBOL_NON_TERMINAL ∧ LEXEME_NULL = LEXEME_NULL) ∧
      (SYMBOL_NON_TERMINAL = SYMBOL_TERMINAL → ([1] : List Nat) = []) :=
  ⟨by decide,
    terminals_have_no_productions (Grammar.new.run listed_with_rule_ops)
      { lexeme := "e", symbol_type := SYMBOL_NON_TERMINAL, lexeme_type := LEXEME_NULL,
        associativity := ASSOCIATE_LEFT, precedence := 1, line := 1, productions := [1] }
      (by decide)⟩

/-! ## C10: attaching an action -/

/-- C10. In a reachable grammar with the production at position `p` active,
`action(id)` keeps the number of productions, sets the action of production
`p` to an action of the action list whose identifier is `id`, and leaves
every field of every other production, and every other field of production
`p`, as it was; afterwards no production is active, the open nonterminal is
still the left-hand side `k` of production `p`, and the next `literal`,
`regex`, `identifier` or `error` call adds one production with left-hand side
`k`.  With no production active `action(id)` returns the grammar unchanged. -/
theorem action_sets_active_production (g : Grammar) (hg : Reachable g) (identifier : String) :
    (∀ p, g.active_production_ = some p →
        ∃ a act k,
          (g.action identifier).actions_[a]? = some act ∧ act.identifier = identifier ∧
          (g.action identifier).productions_.length = g.productions_.length ∧
          (∀ i q, g.productions_[i]? = some q →
            (g.action identifier).productions_[i]? =
              some (if i = p then { q with action := some a } else q)) ∧
          (g.action identifier).active_production_ = none ∧
          (g.productions_[p]?).map Production.symbol = some k ∧
          (g.action identifier).active_symbol_ = some k ∧
          ∀ op, op.is_symbol_call = true →
            ((g.action identifier).apply op).productions_.length =
                (g.action identifier).productions_.length + 1 ∧
              ∃ q, ((g.action identifier).apply op).productions_[
                  (g.action identifier).productions_.length]? = some q ∧ q.symbol = k) ∧
      (g.active_production_ = none → g.action identifier = g) := by
  have h := reachable_inv hg
  constructor
  · intro p hp
    obtain ⟨hlen, q0, hq0, hk⟩ := h.active_production p hp
    obtain ⟨ext, he, act, hact, hid⟩ := add_action_frame g identifier
    have hprod : (g.action identifier).productions_ =
        modifyAt (fun x => x.set_action (some (g.add_action identifier).2)) g.productions_ p := by
      simp [Grammar.action, hp]
    have hacts : (g.action identifier).actions_ = g.actions_ ++ ext := by
      simp only [Grammar.action, hp]
      rw [he]
    have hactive : (g.action identifier).active_production_ = none := by
      simp [Grammar.action, hp]
    have hsym : (g.action identifier).active_symbol_ = some q0.symbol := by
      simp [Grammar.action, hp, hk]
    have hne : (g.action identifier).productions_ ≠ [] := by
      intro h0
      have := congrArg List.length h0
      rw [hprod, length_modifyAt] at this
      simp only [List.length_nil] at this
      omega
    refine ⟨(g.add_action identifier).2, act, q0.symbol, by rw [hacts]; exact hact, hid,
      by rw [hprod, length_modifyAt], ?_, hactive, by rw [hq0]; rfl, hsym, ?_⟩
    · intro i q hq
      rw [hprod, getElem?_modifyAt, hq]
      by_cases hi : i = p
      · simp [hi, Production.set_action]
      · simp [hi]
    · intro op hop
      exact next_symbol_call_opens (inv_action h identifier) q0.symbol hsym hactive hne op hop
  · intro hp
    simp [Grammar.action, hp]

/-- Witness of C10: `[a]` after `s: 'x'` on a fresh grammar. -/
theorem action_sets_active_production_witness :
    ((Grammar.new.run [Op.production "s" 1, Op.literal "x" 1]).active_production_ = some 1) ∧
      (Grammar.new.active_production_ = none) ∧
      (∃ a act k,
          ((Grammar.new.run [Op.production "s" 1, Op.literal "x" 1]).action "a").actions_[a]? =
            some act ∧ act.identifier = "a" ∧
          ((Grammar.new.run [Op.production "s" 1, Op.literal "x" 1]).action "a").productions_.length
            = (Grammar.new.run [Op.production "s" 1, Op.literal "x" 1]).productions_.length ∧
          (∀ i q, (Grammar.new.run [Op.production "s" 1, Op.literal "x" 1]).productions_[i]? =
              some q →
            ((Grammar.new.run [Op.production "s" 1, Op.literal "x" 1]).action "a").productions_[i]?
              = some (if i = 1 then { q with action := some a } else q)) ∧
          ((Grammar.new.run [Op.production "s" 1, Op.literal "x" 1]).action "a").active_production_
            = none ∧
          ((Grammar.new.run [Op.production "s" 1, Op.literal "x" 1]).productions_[1]?).map
            Production.symbol = some k ∧
          ((Grammar.new.run [Op.production "s" 1, Op.literal "x" 1]).action "a").active_symbol_ =
            some k ∧
          ∀ op, op.is_symbol_call = true →
            (((Grammar.new.run [Op.production "s" 1, Op.literal "x" 1]).action "a").apply
                op).productions_.length =
              ((Grammar.new.run [Op.production "s" 1, Op.literal "x" 1]).action
                "a").productions_.length + 1 ∧
            ∃ q, (((Grammar.new.run [Op.production "s" 1, Op.literal "x" 1]).action "a").apply
                op).productions_[((Grammar.new.run [Op.production "s" 1, Op.literal "x" 1]).action
                  "a").productions_.length]? = some q ∧ q.symbol = k) ∧
      Grammar.new.action "a" = Grammar.new :=
  ⟨by decide, by decide,
    (action_sets_active_production (Grammar.new.run [Op.production "s" 1, Op.literal "x" 1])
      (reachable_run Reachable.new _) "a").1 1 (by decide),
    (action_sets_active_production Grammar.new Reachable.new "a").2 (by decide)⟩

/-! ## What the symbol calls leave alone -/

/-- The fields that the production-scope branch of a symbol call does not
write. -/
theorem production_symbol_frame (g : Grammar) (s : Nat) (lexeme : String) (line : Int)
    (lexeme_type : LexemeType) (symbol_type : SymbolType) :
    (g.production_symbol s
        (fun k => k.add_symbol lexeme line lexeme_type symbol_type)).actions_ = g.actions_ ∧
      (g.production_symbol s
        (fun k => k.add_symbol lexeme line lexeme_type symbol_type)).whitespace_tokens_ =
        g.whitespace_tokens_ ∧
      (g.production_symbol s
        (fun k => k.add_symbol lexeme line lexeme_type symbol_type)).directives_ =
        g.directives_ ∧
      (g.production_symbol s
        (fun k => k.add_symbol lexeme line lexeme_type symbol_type)).active_whitespace_directive_ =
        g.active_whitespace_directive_ ∧
      (g.production_symbol s
        (fun k => k.add_symbol lexeme line lexeme_type symbol_type)).active_directive_ =
        g.active_directive_ ∧
      (g.production_symbol s
        (fun k => k.add_symbol lexeme line lexeme_type symbol_type)).active_symbol_ =
        g.active_symbol_ := by
  unfold Grammar.production_symbol
  simp only []
  split <;> simp

/-- The fields that the directive-scope branch of a symbol call does not
write. -/
theorem directive_symbol_frame (g : Grammar) (d : Nat) (lexeme : String) (line : Int)
    (lexeme_type : LexemeType) (symbol_type : SymbolType) :
    (g.directive_symbol d
        (fun k => k.add_symbol lexeme line lexeme_type symbol_type)).actions_ = g.actions_ ∧
      (g.directive_symbol d
        (fun k => k.add_symbol lexeme line lexeme_type symbol_type)).whitespace_tokens_ =
        g.whitespace_tokens_ ∧
      (g.directive_symbol d
        (fun k => k.add_symbol lexeme line lexeme_type symbol_type)).productions_ =
        g.productions_ ∧
      (g.directive_symbol d
        (fun k => k.add_symbol lexeme line lexeme_type symbol_type)).active_whitespace_directive_ =
        g.active_whitespace_directive_ ∧
      (g.directive_symbol d
        (fun k => k.add_symbol lexeme line lexeme_type symbol_type)).active_directive_ =
        g.active_directive_ ∧
      (g.directive_symbol d
        (fun k => k.add_symbol lexeme line lexeme_type symbol_type)).active_symbol_ =
        g.active_symbol_ ∧
      (g.directive_symbol d
        (fun k => k.add_symbol lexeme line lexeme_type symbol_type)).active_production_ =
        g.active_production_ := by
  unfold Grammar.directive_symbol
  simp

/-- A call that neither enters nor leaves a scope leaves the three scope
fields as they are. -/
theorem apply_scope_frame (g : Grammar) (op : Op) (hop : op.sets_scope = false) :
    (g.apply op).active_whitespace_directive_ = g.active_whitespace_directive_ ∧
      (g.apply op).active_directive_ = g.active_directive_ ∧
      (g.apply op).active_symbol_ = g.active_symbol_ := by
  cases op with
  | left _ => simp [Op.sets_scope] at hop
  | right _ => simp [Op.sets_scope] at hop
  | none _ => simp [Op.sets_scope] at hop
  | whitespace => simp [Op.sets_scope] at hop
  | production _ _ => simp [Op.sets_scope] at hop
  | end_production => simp [Op.sets_scope] at hop
  | precedence =>
    show g.precedence.active_whitespace_directive_ = _ ∧ g.precedence.active_directive_ = _ ∧
      g.precedence.active_symbol_ = _
    unfold Grammar.precedence
    split <;> exact ⟨rfl, rfl, rfl⟩
  | end_expression =>
    show g.end_expression.active_whitespace_directive_ = _ ∧
      g.end_expression.active_directive_ = _ ∧ g.end_expression.active_symbol_ = _
    unfold Grammar.end_expression
    split <;> simp
  | error =>
    show g.error.active_whitespace_directive_ = _ ∧ g.error.active_directive_ = _ ∧
      g.error.active_symbol_ = _
    unfold Grammar.error
    split
    · split <;> exact ⟨rfl, rfl, rfl⟩
    · split
      · simp only []
        split <;> simp
      · exact ⟨rfl, rfl, rfl⟩
  | action identifier =>
    show (g.action identifier).active_whitespace_directive_ = _ ∧
      (g.action identifier).active_directive_ = _ ∧ (g.action identifier).active_symbol_ = _
    unfold Grammar.action
    split
    · simp
    · exact ⟨rfl, rfl, rfl⟩
  | literal literal line =>
    show (g.literal literal line).active_whitespace_directive_ = _ ∧
      (g.literal literal line).active_directive_ = _ ∧ (g.literal literal line).active_symbol_ = _
    unfold Grammar.literal
    split
    · exact ⟨rfl, rfl, rfl⟩
    · split
      · have h := directive_symbol_frame g ‹Nat› literal line LEXEME_LITERAL SYMBOL_NULL
        exact ⟨h.2.2.2.1, h.2.2.2.2.1, h.2.2.2.2.2.1⟩
      · split
        · have h := production_symbol_frame g ‹Nat› literal line LEXEME_LITERAL SYMBOL_NULL
          exact ⟨h.2.2.2.1, h.2.2.2.2.1, h.2.2.2.2.2⟩
        · exact ⟨rfl, rfl, rfl⟩
  | regex regex line =>
    show (g.regex regex line).active_whitespace_directive_ = _ ∧
      (g.regex regex line).active_directive_ = _ ∧ (g.regex regex line).active_symbol_ = _
    unfold Grammar.regex
    split
    · exact ⟨rfl, rfl, rfl⟩
    · split
      · have h := directive_symbol_frame g ‹Nat› regex line LEXEME_REGULAR_EXPRESSION SYMBOL_NULL
        exact ⟨h.2.2.2.1, h.2.2.2.2.1, h.2.2.2.2.2.1⟩
      · split
        · have h :=
            production_symbol_frame g ‹Nat› regex line LEXEME_REGULAR_EXPRESSION SYMBOL_NULL
          exact ⟨h.2.2.2.1, h.2.2.2.2.1, h.2.2.2.2.2⟩
        · exact ⟨rfl, rfl, rfl⟩
  | identifier identifier line =>
    show (g.identifier identifier line).active_whitespace_directive_ = _ ∧
      (g.identifier identifier line).active_directive_ = _ ∧
      (g.identifier identifier line).active_symbol_ = _
    unfold Grammar.identifier
    split
    · have h := directive_symbol_frame g ‹Nat› identifier line LEXEME_NULL SYMBOL_NON_TERMINAL
      exact ⟨h.2.2.2.1, h.2.2.2.2.1, h.2.2.2.2.2.1⟩
    · split
      · have h := production_symbol_frame g ‹Nat› identifier line LEXEME_NULL SYMBOL_NON_TERMINAL
        exact ⟨h.2.2.2.1, h.2.2.2.2.1, h.2.2.2.2.2⟩
      · exact ⟨rfl, rfl, rfl⟩

/-- Only `action(id)` writes the action list, through `add_action`. -/
theorem apply_actions (g : Grammar) (op : Op) :
    (g.apply op).actions_ = g.actions_ ∨
      ∃ identifier, (g.apply op).actions_ = (g.add_action identifier).1.actions_ := by
  cases op with
  | left _ => exact Or.inl rfl
  | right _ => exact Or.inl rfl
  | none _ => exact Or.inl rfl
  | whitespace => exact Or.inl rfl
  | production identifier line =>
    exact Or.inl (add_symbol_actions_ g identifier line LEXEME_NULL SYMBOL_NON_TERMINAL)
  | end_production => exact Or.inl rfl
  | precedence =>
    left
    show g.precedence.actions_ = _
    unfold Grammar.precedence
    split <;> rfl
  | end_expression =>
    left
    show g.end_expression.actions_ = _
    unfold Grammar.end_expression
    split <;> simp
  | error =>
    left
    show g.error.actions_ = _
    unfold Grammar.error
    split
    · split <;> rfl
    · split
      · simp only []
        split <;> simp
      · rfl
  | action identifier =>
    cases hp : g.active_production_ with
    | some p =>
      right
      refine ⟨identifier, ?_⟩
      show (g.action identifier).actions_ = _
      simp [Grammar.action, hp]
    | none =>
      left
      show (g.action identifier).actions_ = _
      simp [Grammar.action, hp]
  | literal literal line =>
    left
    show (g.literal literal line).actions_ = _
    unfold Grammar.literal
    split
    · rfl
    · split
      · exact (directive_symbol_frame g ‹Nat› literal line LEXEME_LITERAL SYMBOL_NULL).1
      · split
        · exact (production_symbol_frame g ‹Nat› literal line LEXEME_LITERAL SYMBOL_NULL).1
        · rfl
  | regex regex line =>
    left
    show (g.regex regex line).actions_ = _
    unfold Grammar.regex
    split
    · rfl
    · split
      · exact (directive_symbol_frame g ‹Nat› regex line LEXEME_REGULAR_EXPRESSION SYMBOL_NULL).1
      · split
        · exact
            (production_symbol_frame g ‹Nat› regex line LEXEME_REGULAR_EXPRESSION SYMBOL_NULL).1
        · rfl
  | identifier identifier line =>
    left
    show (g.identifier identifier line).actions_ = _
    unfold Grammar.identifier
    split
    · exact (directive_symbol_frame g ‹Nat› identifier line LEXEME_NULL SYMBOL_NON_TERMINAL).1
    · split
      · exact (production_symbol_frame g ‹Nat› identifier line LEXEME_NULL SYMBOL_NON_TERMINAL).1
      · rfl

/-- Outside whitespace scope no call writes the whitespace token list. -/
theorem apply_whitespace_tokens (g : Grammar) (op : Op)
    (hw : g.active_whitespace_directive_ = false) :
    (g.apply op).whitespace_tokens_ = g.whitespace_tokens_ := by
  cases op with
  | left _ => rfl
  | right _ => rfl
  | none _ => rfl
  | whitespace => rfl
  | production identifier line =>
    exact add_symbol_whitespace_tokens_ g identifier line LEXEME_NULL SYMBOL_NON_TERMINAL
  | end_production => rfl
  | precedence =>
    show g.precedence.whitespace_tokens_ = _
    unfold Grammar.precedence
    split <;> rfl
  | end_expression =>
    show g.end_expression.whitespace_tokens_ = _
    unfold Grammar.end_expression
    split <;> simp
  | error =>
    show g.error.whitespace_tokens_ = _
    unfold Grammar.error
    split
    · split <;> rfl
    · split
      · simp only []
        split <;> simp
      · rfl
  | action identifier =>
    show (g.action identifier).whitespace_tokens_ = _
    unfold Grammar.action
    split
    · simp
    · rfl
  | literal literal line =>
    show (g.literal literal line).whitespace_tokens_ = _
    simp only [Grammar.literal, hw, Bool.false_eq_true, if_false]
    split
    · exact (directive_symbol_frame g ‹Nat› literal line LEXEME_LITERAL SYMBOL_NULL).2.1
    · split
      · exact (production_symbol_frame g ‹Nat› literal line LEXEME_LITERAL SYMBOL_NULL).2.1
      · rfl
  | regex regex line =>
    show (g.regex regex line).whitespace_tokens_ = _
    simp only [Grammar.regex, hw, Bool.false_eq_true, if_false]
    split
    · exact (directive_symbol_frame g ‹Nat› regex line LEXEME_REGULAR_EXPRESSION SYMBOL_NULL).2.1
    · split
      · exact
          (production_symbol_frame g ‹Nat› regex line LEXEME_REGULAR_EXPRESSION SYMBOL_NULL).2.1
      · rfl
  | identifier identifier line =>
    show (g.identifier identifier line).whitespace_tokens_ = _
    unfold Grammar.identifier
    split
    · exact (directive_symbol_frame g ‹Nat› identifier line LEXEME_NULL SYMBOL_NON_TERMINAL).2.1
    · split
      · exact
          (production_symbol_frame g ‹Nat› identifier line LEXEME_NULL SYMBOL_NON_TERMINAL).2.1
      · rfl

/-! ## Tables of named, numbered entries -/

theorem table_inv_nil {α : Type} (key : α → String) (index : α → Int) :
    TableInv key index ([] : List α) :=
  { nodup := by simp
    index := by intro i a h; simp at h }

theorem table_inv_push {α : Type} {key : α → String} {index : α → Int} {l : List α}
    (h : TableInv key index l) (a : α) (hkey : key a ∉ l.map key)
    (hindex : index a = (l.length : Int)) : TableInv key index (l ++ [a]) :=
  { nodup := by
      rw [List.map_append]
      exact List.Nodup.append h.nodup (List.nodup_singleton _) (by simpa using hkey)
    index := by
      intro i b hb
      by_cases hi : i < l.length
      · rw [List.getElem?_append_left hi] at hb
        exact h.index i b hb
      · have hlen := (List.getElem?_eq_some.1 hb).1
        simp only [List.length_append, List.length_cons, List.length_nil] at hlen
        have hi2 : i = l.length := by omega
        subst hi2
        simp only [List.getElem?_concat_length, Option.some.injEq] at hb
        subst hb
        exact hindex }

theorem table_inv_find {α : Type} {key : α → String} {index : α → Int} {l : List α}
    (h : TableInv key index l) (i : Nat) (a : α) (ha : l[i]? = some a) :
    find_first key (key a) l = some i :=
  find_first_of_nodup key l h.nodup i a ha

theorem add_action_table_inv (g : Grammar) (identifier : String)
    (h : TableInv Action.identifier Action.index g.actions_) :
    TableInv Action.identifier Action.index (g.add_action identifier).1.actions_ := by
  cases hf : find_action identifier g.actions_ with
  | some i =>
    simp only [Grammar.add_action, hf]
    exact h
  | none =>
    simp only [Grammar.add_action, hf]
    exact table_inv_push h _ (find_first_none _ _ _ hf) rfl

theorem reachable_actions_inv {g : Grammar} (h : Reachable g) :
    TableInv Action.identifier Action.index g.actions_ := by
  induction h with
  | new => exact table_inv_nil _ _
  | apply g op _ ih =>
    rcases apply_actions g op with h1 | ⟨identifier, h1⟩
    · rw [h1]
      exact ih
    · rw [h1]
      exact add_action_table_inv g identifier ih
  | generate g _ ih => exact ih

/-! ## C11: the action tables -/

theorem parser_add_action_inv (pg : ParserGrammar) (identifier : String)
    (h : ParserActionsInv pg.actions_) : ParserActionsInv (pg.add_action identifier).1.actions_ := by
  unfold ParserGrammar.add_action
  split
  · cases hf : find_parser_action identifier pg.actions_ with
    | some i => exact h
    | none =>
      intro i b hb
      by_cases hi : i < pg.actions_.length
      · simp only [List.getElem?_append_left hi] at hb
        exact h i b hb
      · have hlen := (List.getElem?_eq_some.1 hb).1
        simp only [List.length_append, List.length_cons, List.length_nil] at hlen
        have hi2 : i = pg.actions_.length := by omega
        subst hi2
        simp only [List.getElem?_concat_length, Option.some.injEq] at hb
        subst hb
        rfl
  · exact h

theorem parser_apply_actions (pg pg1 : ParserGrammar) (op : ParserOp)
    (h1 : pg.apply op = some pg1) :
    pg1.actions_ = pg.actions_ ∨
      ∃ identifier, pg1.actions_ = (pg.add_action identifier).1.actions_ := by
  cases op with
  | grammar_symbol gs =>
    simp only [ParserGrammar.apply, Option.some.injEq] at h1
    subst h1
    left
    simp only [ParserGrammar.grammar_symbol, ParserGrammar.symbol_of]
    split <;> rfl
  | symbol_of type identifier line =>
    simp only [ParserGrammar.apply, Option.some.injEq] at h1
    subst h1
    left
    unfold ParserGrammar.symbol_of
    split <;> rfl
  | terminal identifier line =>
    simp only [ParserGrammar.apply, Option.some.injEq] at h1
    subst h1
    left
    simp only [ParserGrammar.terminal, ParserGrammar.symbol_of]
    split <;> rfl
  | non_terminal identifier line =>
    simp only [ParserGrammar.apply, Option.some.injEq] at h1
    subst h1
    left
    simp only [ParserGrammar.non_terminal, ParserGrammar.symbol_of]
    split <;> rfl
  | action_of identifier =>
    simp only [ParserGrammar.apply, Option.some.injEq] at h1
    subst h1
    unfold ParserGrammar.action_of
    split
    · exact Or.inr ⟨identifier, rfl⟩
    · exact Or.inl rfl
  | add_symbol type identifier line =>
    simp only [ParserGrammar.apply, Option.some.injEq] at h1
    subst h1
    exact Or.inl rfl
  | add_terminal identifier line =>
    simp only [ParserGrammar.apply, Option.some.injEq] at h1
    subst h1
    exact Or.inl rfl
  | add_non_terminal identifier line =>
    simp only [ParserGrammar.apply, Option.some.injEq] at h1
    subst h1
    exact Or.inl rfl
  | add_action identifier =>
    simp only [ParserGrammar.apply, Option.some.injEq] at h1
    subst h1
    exact Or.inr ⟨identifier, rfl⟩
  | identifier identifier =>
    simp only [ParserGrammar.apply, Option.some.injEq] at h1
    subst h1
    exact Or.inl rfl
  | begin_production symbol line =>
    left
    simp only [ParserGrammar.apply, ParserGrammar.begin_production,
      ParserGrammar.begin_start_production, ParserGrammar.symbol, ParserGrammar.modify_back] at h1
    split at h1
    · split at h1
      · rename_i pg2 h2
        simp only [Option.some.injEq] at h1
        subst h1
        split at h2
        · split at h2
          · split at h2
            · simp at h2
            · simp only [Option.some.injEq] at h2
              subst h2
              rfl
          · simp at h2
        · simp only [Option.some.injEq] at h2
          subst h2
          rfl
      · simp at h1
    · simp at h1
  | end_production =>
    simp only [ParserGrammar.apply, Option.some.injEq] at h1
    subst h1
    exact Or.inl rfl
  | symbol symbol =>
    left
    simp only [ParserGrammar.apply, ParserGrammar.symbol] at h1
    split at h1
    · split at h1
      · simp at h1
      · simp only [Option.some.injEq] at h1
        subst h1
        rfl
    · simp at h1
  | action action =>
    left
    simp only [ParserGrammar.apply, ParserGrammar.action] at h1
    split at h1
    · simp at h1
    · simp only [Option.some.injEq] at h1
      subst h1
      rfl
  | precedence_symbol symbol =>
    left
    simp only [ParserGrammar.apply, ParserGrammar.precedence_symbol] at h1
    split at h1
    · simp at h1
    · simp only [Option.some.injEq] at h1
      subst h1
      rfl

theorem parser_reachable_actions_inv {pg : ParserGrammar} (h : ParserReachable pg) :
    ParserActionsInv pg.actions_ := by
  induction h with
  | new =>
    intro i a ha
    simp [ParserGrammar.new, ParserGrammar.add_terminal, ParserGrammar.add_non_terminal,
      ParserGrammar.add_symbol] at ha
  | apply pg pg1 op _ h1 ih =>
    rcases parser_apply_actions pg pg1 op h1 with h2 | ⟨identifier, h2⟩
    · rw [h2]
      exact ih
    · rw [h2]
      exact parser_add_action_inv pg identifier ih

/-- The action table of a `Grammar`: in every reachable `Grammar` the
identifiers of the action list are pairwise distinct, the action at position
`i` has index `i`, and registering its identifier again returns position `i`
and the grammar unchanged. -/
theorem grammar_action_table (g : Grammar) (hg : Reachable g) :
    (g.actions_.map Action.identifier).Nodup ∧
      ∀ (i : Nat) (a : Action), g.actions_[i]? = some a →
        a.index = (i : Int) ∧ g.add_action a.identifier = (g, i) := by
  have h := reachable_actions_inv hg
  refine ⟨h.nodup, ?_⟩
  intro i a ha
  have hf : find_action a.identifier g.actions_ = some i := table_inv_find h i a ha
  exact ⟨h.index i a ha, by simp [Grammar.add_action, hf]⟩

/-- C11, at the input on which `ParserGrammar::add_action` breaks it.  The
identifier `a`, NUL, `b` is a `std::string`; the new action stores
`identifier.c_str()`, which is `a`, and the search compares the stored `a` with
the whole identifier.  So registering the identifier a second time, by
`add_action` or by `action( identifier )`, does not return the existing action:
it adds a second action with index 1 and the same stored identifier `a`, and
the identifiers of the list are not pairwise distinct.  Registering NUL, `x`
stores an action with the empty identifier. -/
theorem parser_action_identifier_cut :
    ParserGrammar.new.add_action nul_identifier =
        ({ ParserGrammar.new with actions_ := [{ index := 0, identifier := "a" }] }, some 0) ∧
      (ParserGrammar.new.add_action nul_identifier).1.add_action nul_identifier =
        ({ ParserGrammar.new with
            actions_ := [{ index := 0, identifier := "a" }, { index := 1, identifier := "a" }] },
          some 1) ∧
      (ParserGrammar.new.action_of nul_identifier).1.action_of nul_identifier =
        ({ ParserGrammar.new with
            actions_ := [{ index := 0, identifier := "a" }, { index := 1, identifier := "a" }] },
          some 1) ∧
      ¬ (((ParserGrammar.new.add_action nul_identifier).1.add_action
          nul_identifier).1.actions_.map ParserAction.identifier).Nodup ∧
      (ParserGrammar.new.add_action "\x00x").1.actions_ = [{ index := 0, identifier := "" }] ∧
      nul_identifier.toList = ['a', Char.ofNat 0, 'b'] := by
  decide

/-! ## C13: the scopes -/

/-- Every reachable state has at most one scope active. -/
theorem reachable_scopes_le_one {g : Grammar} (h : Reachable g) : g.scopes_active ≤ 1 := by
  induction h with
  | new => decide
  | generate g _ ih => exact ih
  | apply g op _ ih =>
    cases hop : op.sets_scope with
    | false =>
      obtain ⟨h1, h2, h3⟩ := apply_scope_frame g op hop
      simp only [Grammar.scopes_active, h1, h2, h3] at ih ⊢
      exact ih
    | true =>
      cases op with
      | left _ => simp [Grammar.apply, Grammar.left, Grammar.scopes_active]
      | right _ => simp [Grammar.apply, Grammar.right, Grammar.scopes_active]
      | none _ => simp [Grammar.apply, Grammar.none, Grammar.scopes_active]
      | whitespace => simp [Grammar.apply, Grammar.whitespace, Grammar.scopes_active]
      | production _ _ => simp [Grammar.apply, Grammar.production, Grammar.scopes_active]
      | end_production => simp [Grammar.apply, Grammar.end_production, Grammar.scopes_active]
      | precedence => simp [Op.sets_scope] at hop
      | end_expression => simp [Op.sets_scope] at hop
      | error => simp [Op.sets_scope] at hop
      | action _ => simp [Op.sets_scope] at hop
      | literal _ _ => simp [Op.sets_scope] at hop
      | regex _ _ => simp [Op.sets_scope] at hop
      | identifier _ _ => simp [Op.sets_scope] at hop

/-- C13, as stated, fails: no scope is active in a freshly constructed
grammar, nor after `end_production()`. -/
theorem no_scope_active_at_construction :
    Grammar.new.scopes_active = 0 ∧ Grammar.new.scopes_active ≠ 1 ∧
      (Grammar.new.run one_rule_ops).scopes_active = 0 ∧
      (Grammar.new.run one_rule_ops).scopes_active ≠ 1 := by
  decide

/-- C13, amended. In every reachable grammar state at most one of the three
scopes (directive, whitespace, production) is active; after `left`, `right`,
`none`, `whitespace` or `production` exactly one is active, and after
`end_production()` none is. -/
theorem scopes_at_most_one (g : Grammar) (hg : Reachable g) (line : Int)
    (identifier : String) :
    g.scopes_active ≤ 1 ∧ (g.left line).scopes_active = 1 ∧ (g.right line).scopes_active = 1 ∧
      (g.none line).scopes_active = 1 ∧ g.whitespace.scopes_active = 1 ∧
      (g.production identifier line).scopes_active = 1 ∧ g.end_production.scopes_active = 0 :=
  ⟨reachable_scopes_le_one hg, by simp [Grammar.left, Grammar.scopes_active],
    by simp [Grammar.right, Grammar.scopes_active], by simp [Grammar.none, Grammar.scopes_active],
    by simp [Grammar.whitespace, Grammar.scopes_active],
    by simp [Grammar.production, Grammar.scopes_active],
    by simp [Grammar.end_production, Grammar.scopes_active]⟩

/-- Witness of C13 amended: the grammar with the one rule `s: 'x';`. -/
theorem scopes_at_most_one_witness :
    (Grammar.new.run one_rule_ops).scopes_active ≤ 1 ∧
      ((Grammar.new.run one_rule_ops).left 2).scopes_active = 1 ∧
      ((Grammar.new.run one_rule_ops).right 2).scopes_active = 1 ∧
      ((Grammar.new.run one_rule_ops).none 2).scopes_active = 1 ∧
      (Grammar.new.run one_rule_ops).whitespace.scopes_active = 1 ∧
      ((Grammar.new.run one_rule_ops).production "t" 2).scopes_active = 1 ∧
      (Grammar.new.run one_rule_ops).end_production.scopes_active = 0 :=
  scopes_at_most_one (Grammar.new.run one_rule_ops) (reachable_run Reachable.new _) 2 "t"

/-! ## C14: a symbol call with no scope active -/

/-- C14. In a state with no open directive, no whitespace block and no open
nonterminal the scope assertions of `literal`, `regex` and `identifier` are
false, and each of the three calls returns the grammar as it was: nothing is
interned and no list or scope field changes. -/
theorem symbol_call_without_scope (g : Grammar) (s : String) (line : Int)
    (hw : g.active_whitespace_directive_ = false) (hd : g.active_directive_ = none)
    (hs : g.active_symbol_ = none) :
    g.scope_assertion = false ∧ g.identifier_scope_assertion = false ∧ g.literal s line = g ∧
      g.regex s line = g ∧ g.identifier s line = g := by
  refine ⟨by simp [Grammar.scope_assertion, hw, hd, hs],
    by simp [Grammar.identifier_scope_assertion, hd, hs], ?_, ?_, ?_⟩
  · simp [Grammar.literal, hw, hd, hs]
  · simp [Grammar.regex, hw, hd, hs]
  · simp [Grammar.identifier, hd, hs]

/-- Witness of C14: a symbol call on a freshly constructed grammar. -/
theorem symbol_call_without_scope_witness :
    (Grammar.new.active_whitespace_directive_ = false ∧ Grammar.new.active_directive_ = none ∧
        Grammar.new.active_symbol_ = none) ∧
      Grammar.new.scope_assertion = false ∧ Grammar.new.identifier_scope_assertion = false ∧
      Grammar.new.literal "x" 1 = Grammar.new ∧ Grammar.new.regex "x" 1 = Grammar.new ∧
      Grammar.new.identifier "x" 1 = Grammar.new :=
  ⟨⟨rfl, rfl, rfl⟩, symbol_call_without_scope Grammar.new "x" 1 rfl rfl rfl⟩

/-! ## C20: whitespace tokens -/

/-- C20. In whitespace scope `literal(s)` returns the grammar with one token
of kind Literal, pattern `s` and no symbol added at the end of the whitespace
token list, and `regex(s)` with one of kind RegularExpression; every other
field (symbols, productions, directives, actions, scope state) is as before.
Outside whitespace scope no builder call changes the whitespace token list. -/
theorem whitespace_tokens (g : Grammar) (s : String) (line : Int) :
    (g.active_whitespace_directive_ = true →
        g.literal s line =
            { g with whitespace_tokens_ := g.whitespace_tokens_ ++
                [{ type := TOKEN_LITERAL, line := 0, symbol := none, lexeme := s }] } ∧
          g.regex s line =
            { g with whitespace_tokens_ := g.whitespace_tokens_ ++
                [{ type := TOKEN_REGULAR_EXPRESSION, line := 0, symbol := none, lexeme := s }] }) ∧
      (g.active_whitespace_directive_ = false →
        ∀ op, (g.apply op).whitespace_tokens_ = g.whitespace_tokens_) := by
  constructor
  · intro hw
    exact ⟨by simp [Grammar.literal, hw], by simp [Grammar.regex, hw]⟩
  · intro hw op
    exact apply_whitespace_tokens g op hw

/-- Witness of C20: a literal and a regex in the whitespace block of a fresh
grammar, and any call on the fresh grammar itself. -/
theorem whitespace_tokens_witness :
    Grammar.new.whitespace.active_whitespace_directive_ = true ∧
      Grammar.new.active_whitespace_directive_ = false ∧
      (Grammar.new.whitespace.literal " " 1 =
          { Grammar.new.whitespace with whitespace_tokens_ :=
              Grammar.new.whitespace.whitespace_tokens_ ++
                [{ type := TOKEN_LITERAL, line := 0, symbol := none, lexeme := " " }] } ∧
        Grammar.new.whitespace.regex " " 1 =
          { Grammar.new.whitespace with whitespace_tokens_ :=
              Grammar.new.whitespace.whitespace_tokens_ ++
                [{ type := TOKEN_REGULAR_EXPRESSION, line := 0, symbol := none,
                   lexeme := " " }] }) ∧
      ∀ op, (Grammar.new.apply op).whitespace_tokens_ = Grammar.new.whitespace_tokens_ :=
  ⟨rfl, rfl, (whitespace_tokens Grammar.new.whitespace " " 1).1 rfl,
    (whitespace_tokens Grammar.new " " 1).2 rfl⟩

/-! ## How a builder call changes productions and symbols -/

theorem add_production_declarations (g : Grammar) (k : Nat) :
    (g.add_production k).1.declarations = g.declarations := by
  have hmap : ∀ (l : List Symbol) (p i : Nat),
      (modifyAt (fun x => x.append_production p) l i).map Symbol.declared =
        l.map Symbol.declared :=
    fun l p i => map_modifyAt Symbol.declared (fun x => x.append_production p) (fun _ => rfl) l i
  simp only [Grammar.declarations, Grammar.add_production, Grammar.add_start_production]
  split
  · split
    · rw [hmap, hmap]
    · rw [hmap]
  · rw [hmap]

theorem open_production_skeleton (g : Grammar) (s : Nat) (hs : g.active_symbol_ = some s) :
    ∃ g0, (g0 = g ∨ ∃ k, g.active_production_ = none ∧ g.active_symbol_ = some k ∧
        g0 = (g.add_production k).1) ∧
      (g.open_production s).1.productions_ = g0.productions_ ∧
      (g.open_production s).1.symbols_ = g0.symbols_ := by
  cases hp : g.active_production_ with
  | some p => exact ⟨g, Or.inl rfl, by simp [Grammar.open_production, hp]⟩
  | none =>
    exact ⟨(g.add_production s).1, Or.inr ⟨s, rfl, hs, rfl⟩,
      by simp [Grammar.open_production, hp]⟩

theorem skeleton_step_self (g g1 : Grammar) (ext : List Symbol)
    (h1 : g1.heads = g.heads) (h2 : g1.indices = g.indices)
    (h3 : g1.symbols_ = g.symbols_ ++ ext) (h4 : ∀ x, x ∈ ext → x.productions = []) :
    SkeletonStep g g1 :=
  ⟨g, ext, Or.inl rfl, h1, h2, by rw [h3, List.length_append],
    h4, by simp [Grammar.refs, h3], by simp [Grammar.declarations, h3]⟩

theorem skeleton_step_open (g g1 : Grammar) (s : Nat) (hs : g.active_symbol_ = some s)
    (ext : List Symbol) (h1 : g1.heads = (g.open_production s).1.heads)
    (h2 : g1.indices = (g.open_production s).1.indices)
    (h3 : g1.symbols_ = (g.open_production s).1.symbols_ ++ ext)
    (h4 : ∀ x, x ∈ ext → x.productions = []) : SkeletonStep g g1 := by
  obtain ⟨g0, hg0, e1, e2⟩ := open_production_skeleton g s hs
  refine ⟨g0, ext, hg0, ?_, ?_, ?_, h4, ?_, ?_⟩
  · rw [h1, Grammar.heads, e1]
    rfl
  · rw [h2, Grammar.indices, e1]
    rfl
  · rw [h3, List.length_append, e2]
  · simp [Grammar.refs, h3, e2]
  · have hd : (g.open_production s).1.declarations = g.declarations := by
      have := congrArg (List.map Symbol.declared) e2
      rcases hg0 with rfl | ⟨k, _, _, rfl⟩
      · exact this
      · exact this.trans (add_production_declarations g k)
    simp only [Grammar.declarations, h3, List.map_append]
    exact congrArg (· ++ ext.map Symbol.declared) hd

theorem add_symbol_ext (g : Grammar) (lexeme : String) (line : Int) (lexeme_type : LexemeType)
    (symbol_type : SymbolType) :
    ∃ ext, (g.add_symbol lexeme line lexeme_type symbol_type).1.symbols_ = g.symbols_ ++ ext ∧
      ∀ x, x ∈ ext → x.productions = [] := by
  obtain ⟨ext, he, hc, _⟩ := add_symbol_frame g lexeme line lexeme_type symbol_type
  refine ⟨ext, by rw [he], ?_⟩
  rcases hc with rfl | ⟨t, rfl, _, ht, _⟩
  · intro x hx
    simp at hx
  · intro x hx
    simp only [List.mem_singleton] at hx
    rw [hx]
    exact ht

theorem heads_modifyAt (f : Production → Production) (l : List Production) (p : Nat)
    (hf : ∀ x, (f x).symbol = x.symbol) :
    (modifyAt f l p).map Production.symbol = l.map Production.symbol :=
  map_modifyAt Production.symbol f hf l p

theorem indices_modifyAt (f : Production → Production) (l : List Production) (p : Nat)
    (hf : ∀ x, (f x).index = x.index) :
    (modifyAt f l p).map Production.index = l.map Production.index :=
  map_modifyAt Production.index f hf l p

theorem skeleton_production_symbol (g : Grammar) (s : Nat) (hs : g.active_symbol_ = some s)
    (lexeme : String) (line : Int) (lexeme_type : LexemeType) (symbol_type : SymbolType) :
    SkeletonStep g
      (g.production_symbol s (fun k => k.add_symbol lexeme line lexeme_type symbol_type)) := by
  obtain ⟨ext, he, hx⟩ :=
    add_symbol_ext (g.open_production s).1 lexeme line lexeme_type symbol_type
  refine skeleton_step_open g _ s hs ext ?_ ?_ ?_ hx
  · unfold Grammar.production_symbol
    simp only []
    split
    · simp only [Grammar.heads]
      rw [heads_modifyAt]
      · simp
      · intro x; rfl
    · simp only [Grammar.heads]
      rw [heads_modifyAt]
      · simp
      · intro x; rfl
  · unfold Grammar.production_symbol
    simp only []
    split
    · simp only [Grammar.indices]
      rw [indices_modifyAt]
      · simp
      · intro x; rfl
    · simp only [Grammar.indices]
      rw [indices_modifyAt]
      · simp
      · intro x; rfl
  · unfold Grammar.production_symbol
    simp only []
    split
    · exact he
    · exact he

theorem skeleton_directive_symbol (g : Grammar) (d : Nat)
    (lexeme : String) (line : Int) (lexeme_type : LexemeType) (symbol_type : SymbolType) :
    SkeletonStep g
      (g.directive_symbol d (fun k => k.add_symbol lexeme line lexeme_type symbol_type)) := by
  obtain ⟨ext, he, hx⟩ := add_symbol_ext g lexeme line lexeme_type symbol_type
  exact skeleton_step_self g _ ext (by simp [Grammar.heads, Grammar.directive_symbol])
    (by simp [Grammar.indices, Grammar.directive_symbol]) he hx

theorem skeleton_apply (g : Grammar) (op : Op) : SkeletonStep g (g.apply op) := by
  have hself : SkeletonStep g g := skeleton_step_self g g [] rfl rfl (by simp) (by simp)
  cases op with
  | left _ => exact skeleton_step_self g _ [] rfl rfl (by simp [Grammar.apply, Grammar.left,
      Grammar.directive]) (by simp)
  | right _ => exact skeleton_step_self g _ [] rfl rfl (by simp [Grammar.apply, Grammar.right,
      Grammar.directive]) (by simp)
  | none _ => exact skeleton_step_self g _ [] rfl rfl (by simp [Grammar.apply, Grammar.none,
      Grammar.directive]) (by simp)
  | whitespace => exact skeleton_step_self g _ [] rfl rfl (by simp [Grammar.apply,
      Grammar.whitespace]) (by simp)
  | end_production => exact skeleton_step_self g _ [] rfl rfl (by simp [Grammar.apply,
      Grammar.end_production]) (by simp)
  | production identifier line =>
    obtain ⟨ext, he, hx⟩ := add_symbol_ext g identifier line LEXEME_NULL SYMBOL_NON_TERMINAL
    exact skeleton_step_self g _ ext
      (by simp [Grammar.apply, Grammar.production, Grammar.heads, Grammar.non_terminal_symbol])
      (by simp [Grammar.apply, Grammar.production, Grammar.indices, Grammar.non_terminal_symbol])
      he hx
  | precedence =>
    show SkeletonStep g g.precedence
    unfold Grammar.precedence
    split
    · exact skeleton_step_self g _ [] rfl rfl (by simp) (by simp)
    · exact hself
  | action identifier =>
    show SkeletonStep g (g.action identifier)
    unfold Grammar.action
    split
    · refine skeleton_step_self g _ [] ?_ ?_ (by simp) (by simp)
      · simp only [Grammar.heads]
        rw [heads_modifyAt]
        · simp
        · intro x; rfl
      · simp only [Grammar.indices]
        rw [indices_modifyAt]
        · simp
        · intro x; rfl
    · exact hself
  | end_expression =>
    show SkeletonStep g g.end_expression
    unfold Grammar.end_expression
    cases hs : g.active_symbol_ with
    | none => exact skeleton_step_self g _ [] rfl rfl (by simp) (by simp)
    | some s => exact skeleton_step_open g _ s hs [] rfl rfl (by simp) (by simp)
  | error =>
    show SkeletonStep g g.error
    unfold Grammar.error
    cases hd : g.active_directive_ with
    | some d =>
      simp only []
      split
      · exact skeleton_step_self g _ [] rfl rfl (by simp) (by simp)
      · exact hself
    | none =>
      cases hs : g.active_symbol_ with
      | none => exact hself
      | some s =>
        simp only []
        split
        · refine skeleton_step_open g _ s hs [] ?_ ?_ (by simp) (by simp)
          · simp only [Grammar.heads]
            rw [heads_modifyAt]
            intro x; rfl
          · simp only [Grammar.indices]
            rw [indices_modifyAt]
            intro x; rfl
        · exact skeleton_step_open g _ s hs [] rfl rfl (by simp) (by simp)
  | literal literal line =>
    show SkeletonStep g (g.literal literal line)
    unfold Grammar.literal
    split
    · exact skeleton_step_self g _ [] rfl rfl (by simp) (by simp)
    · cases hd : g.active_directive_ with
      | some d => exact skeleton_directive_symbol g d literal line LEXEME_LITERAL SYMBOL_NULL
      | none =>
        cases hs : g.active_symbol_ with
        | none => exact hself
        | some s => exact skeleton_production_symbol g s hs literal line LEXEME_LITERAL SYMBOL_NULL
  | regex regex line =>
    show SkeletonStep g (g.regex regex line)
    unfold Grammar.regex
    split
    · exact skeleton_step_self g _ [] rfl rfl (by simp) (by simp)
    · cases hd : g.active_directive_ with
      | some d =>
        exact skeleton_directive_symbol g d regex line LEXEME_REGULAR_EXPRESSION SYMBOL_NULL
      | none =>
        cases hs : g.active_symbol_ with
        | none => exact hself
        | some s =>
          exact skeleton_production_symbol g s hs regex line LEXEME_REGULAR_EXPRESSION
            SYMBOL_NULL
  | identifier identifier line =>
    show SkeletonStep g (g.identifier identifier line)
    unfold Grammar.identifier
    cases hd : g.active_directive_ with
    | some d =>
      exact skeleton_directive_symbol g d identifier line LEXEME_NULL SYMBOL_NON_TERMINAL
    | none =>
      cases hs : g.active_symbol_ with
      | none => exact hself
      | some s =>
        exact skeleton_production_symbol g s hs identifier line LEXEME_NULL SYMBOL_NON_TERMINAL

/-! ## Production lists of symbols -/

theorem map_modifyAt_comm {α β : Type} (k : α → β) (f : α → α) (f1 : β → β)
    (h : ∀ x, k (f x) = f1 (k x)) (l : List α) (i : Nat) :
    (modifyAt f l i).map k = modifyAt f1 (l.map k) i := by
  induction l generalizing i with
  | nil => rfl
  | cons x xs ih =>
    cases i with
    | zero => simp [modifyAt, h]
    | succ i => simp [modifyAt, ih]

theorem owners_append_singleton (heads : List Nat) (k s : Nat) :
    owners (heads ++ [k]) s = owners heads s ++ (if k = s then [heads.length] else []) := by
  unfold owners
  rw [List.length_append, List.length_singleton, List.range_succ, List.filter_append]
  congr 1
  · apply List.filter_congr
    intro i hi
    rw [List.getElem?_append_left (List.mem_range.1 hi)]
  · by_cases hk : k = s
    · simp [hk]
    · simp [hk]

theorem owners_eq_nil (heads : List Nat) (s : Nat) (h : ∀ (i : Nat), heads[i]? ≠ some s) :
    owners heads s = [] := by
  unfold owners
  rw [List.filter_eq_nil_iff]
  intro i _
  simpa using h i

theorem refs_ok_push {heads : List Nat} {refs : List (List Nat)} (h : RefsOk heads refs)
    (k : Nat) :
    RefsOk (heads ++ [k]) (modifyAt (fun r => r ++ [heads.length]) refs k) := by
  intro s r hr
  rw [getElem?_modifyAt] at hr
  rw [owners_append_singleton]
  by_cases hs : s = k
  · subst hs
    rw [if_pos rfl] at hr
    cases h0 : refs[s]? with
    | none => simp [h0] at hr
    | some r0 =>
      simp only [h0, Option.map_some', Option.some.injEq] at hr
      rw [← hr, h s r0 h0, if_pos rfl]
  · rw [if_neg hs] at hr
    rw [h s r hr, if_neg (fun e => hs e.symm), List.append_nil]

theorem refs_ok_extend {heads : List Nat} {refs : List (List Nat)} (h : RefsOk heads refs)
    (hb : ∀ (i x : Nat), heads[i]? = some x → x < refs.length) (ext : List (List Nat))
    (hext : ∀ r, r ∈ ext → r = []) : RefsOk heads (refs ++ ext) := by
  intro s r hr
  by_cases hs : s < refs.length
  · rw [List.getElem?_append_left hs] at hr
    exact h s r hr
  · rw [List.getElem?_append_right (Nat.le_of_not_lt hs)] at hr
    rw [hext r (List.getElem?_mem hr)]
    refine (owners_eq_nil heads s ?_).symm
    intro i hi
    exact hs (hb i s hi)

theorem index_ok_push {indices : List Int} (h : IndexOk indices) :
    IndexOk (indices ++ [(indices.length : Int)]) := by
  intro i x hx
  by_cases hi : i < indices.length
  · rw [List.getElem?_append_left hi] at hx
    exact h i x hx
  · have hlen := (List.getElem?_eq_some.1 hx).1
    simp only [List.length_append, List.length_cons, List.length_nil] at hlen
    have hi2 : i = indices.length := by omega
    subst hi2
    simp only [List.getElem?_concat_length, Option.some.injEq] at hx
    exact hx.symm

theorem refs_append_production (symbols : List Symbol) (p k : Nat) :
    (modifyAt (fun x => x.append_production p) symbols k).map Symbol.productions =
      modifyAt (fun r => r ++ [p]) (symbols.map Symbol.productions) k :=
  map_modifyAt_comm Symbol.productions (fun x => x.append_production p) (fun r => r ++ [p])
    (fun _ => rfl) symbols k

theorem heads_lt_of_inv {g : Grammar} (h : GrammarInv g) (i x : Nat)
    (hx : g.heads[i]? = some x) : x < g.refs.length := by
  simp only [Grammar.heads, List.getElem?_map] at hx
  cases hp : g.productions_[i]? with
  | none => simp [hp] at hx
  | some p =>
    simp only [hp, Option.map_some', Option.some.injEq] at hx
    subst hx
    simpa [Grammar.refs] using (h.production_symbols p (List.getElem?_mem hp)).1

/-- What `add_production` does to the cross-references of a grammar that
satisfies the invariants. -/
theorem xref_add_production {g : Grammar} (h : GrammarInv g) (hx : XrefInv g) (k : Nat)
    (hk : k < g.symbols_.length) :
    IndexOk (g.add_production k).1.indices ∧
      RefsOk (g.add_production k).1.heads (g.add_production k).1.refs ∧
      ∀ (i x : Nat), (g.add_production k).1.heads[i]? = some x →
        x < (g.add_production k).1.refs.length := by
  have h3 := inv_three_symbols h
  by_cases h0 : g.productions_ = []
  · rw [add_production_empty g k 0 h0 h.start_symbol]
    have hh : g.heads = [] := by simp [Grammar.heads, h0]
    have hr := hx.refs
    rw [hh] at hr
    have hr2 := refs_ok_push (refs_ok_push hr 0) k
    refine ⟨?_, ?_, ?_⟩
    · intro i x hi
      simp only [Grammar.indices, List.map_cons, List.map_nil, start_production,
        Production.new] at hi
      match i, hi with
      | 0, hi => simpa using hi.symm
      | 1, hi => simpa using hi.symm
      | i + 2, hi => simp at hi
    · simp only [Grammar.heads, Grammar.refs, List.map_cons, List.map_nil, start_production,
        Production.new]
      rw [refs_append_production, refs_append_production]
      exact hr2
    · intro i x hi
      simp only [Grammar.heads, Grammar.refs, List.map_cons, List.map_nil, start_production,
        Production.new, List.length_map, length_modifyAt] at hi ⊢
      match i, hi with
      | 0, hi =>
        simp only [List.getElem?_cons_zero, Option.some.injEq] at hi
        omega
      | 1, hi =>
        simp only [List.getElem?_cons_succ, List.getElem?_cons_zero, Option.some.injEq] at hi
        omega
      | i + 2, hi => simp at hi
  · rw [add_production_nonempty g k h0]
    refine ⟨?_, ?_, ?_⟩
    · have := index_ok_push hx.indices
      simpa [Grammar.indices, Production.new] using this
    · have := refs_ok_push hx.refs k
      simp only [Grammar.heads, Grammar.refs, List.map_append, List.map_cons, List.map_nil,
        Production.new]
      rw [refs_append_production]
      simpa [Grammar.heads, Grammar.refs] using this
    · intro i x hi
      simp only [Grammar.heads, Grammar.refs, List.map_append, List.map_cons, List.map_nil,
        Production.new, List.length_map, length_modifyAt] at hi ⊢
      by_cases hlt : i < (g.productions_.map Production.symbol).length
      · rw [List.getElem?_append_left hlt] at hi
        simpa [Grammar.refs] using heads_lt_of_inv h i x hi
      · have hlen := (List.getElem?_eq_some.1 hi).1
        simp only [List.length_append, List.length_cons, List.length_nil] at hlen
        have hi2 : i = (g.productions_.map Production.symbol).length := by omega
        subst hi2
        simp only [List.getElem?_concat_length, Option.some.injEq] at hi
        omega

/-- One builder call keeps the cross-reference invariant. -/
theorem xref_step {g g1 : Grammar} (h : GrammarInv g) (hx : XrefInv g)
    (hs : SkeletonStep g g1) : XrefInv g1 := by
  obtain ⟨g0, ext, hg0, e1, e2, _, e4, e5, _⟩ := hs
  have key : IndexOk g0.indices ∧ RefsOk g0.heads g0.refs ∧
      ∀ (i x : Nat), g0.heads[i]? = some x → x < g0.refs.length := by
    rcases hg0 with rfl | ⟨k, _, hk, rfl⟩
    · exact ⟨hx.indices, hx.refs, heads_lt_of_inv h⟩
    · exact xref_add_production h hx k (h.active_symbol k hk).1
  refine ⟨by rw [e2]; exact key.1, ?_⟩
  rw [e1, e5]
  refine refs_ok_extend key.2.1 key.2.2 _ ?_
  intro r hr
  simp only [List.mem_map] at hr
  obtain ⟨x, hx1, rfl⟩ := hr
  exact e4 x hx1

theorem refs_generate_classify (g : Grammar) : g.generate_classify.refs = g.refs := by
  show ((Grammar.classify_directives g.directives_ 1 g.symbols_).map
    Grammar.classify_non_terminal).map Symbol.productions = _
  rw [List.map_map]
  have : Symbol.productions ∘ Grammar.classify_non_terminal = Symbol.productions :=
    funext (fun x => (classify_non_terminal_fields x).2.2)
  rw [this, map_productions_classify_directives]
  rfl

theorem xref_new : XrefInv Grammar.new :=
  { indices := by
      intro i x hi
      have e : Grammar.new.indices = [] := by decide
      rw [e] at hi
      simp at hi
    refs := by
      intro s r hr
      have e : Grammar.new.refs = [[], [], []] := by decide
      have e2 : Grammar.new.heads = [] := by decide
      rw [e] at hr
      rw [e2]
      match s, hr with
      | 0, hr => simpa [owners] using hr.symm
      | 1, hr => simpa [owners] using hr.symm
      | 2, hr => simpa [owners] using hr.symm
      | s + 3, hr => simp at hr }

/-- Every observable grammar state satisfies the cross-reference invariant. -/
theorem reachable_xref {g : Grammar} (h : Reachable g) : XrefInv g := by
  induction h with
  | new => exact xref_new
  | apply g op hg ih => exact xref_step (reachable_inv hg) ih (skeleton_apply g op)
  | generate g _ ih =>
    exact
      { indices := ih.indices
        refs := by
          show RefsOk g.heads g.generate_classify.refs
          rw [refs_generate_classify]
          exact ih.refs }

/-! ## The production list of a `ParserGrammar` -/

/-- How one call changes the production list of a `ParserGrammar`: not at all,
by a write through `productions_.back()` that keeps index and left-hand side,
by one production pushed at the back, or, on an empty list, by the augmented
production followed by the new one. -/
theorem parser_apply_productions (pg pg1 : ParserGrammar) (op : ParserOp)
    (h1 : pg.apply op = some pg1) :
    pg1.productions_ = pg.productions_ ∨
      (∃ f : ParserProduction → ParserProduction,
        (∀ x, (f x).index = x.index ∧ (f x).symbol = x.symbol) ∧
        pg1.productions_ = modifyAt f pg.productions_ (pg.productions_.length - 1)) ∨
      (∃ symbol line, pg.productions_ ≠ [] ∧
        pg1.productions_ = pg.productions_ ++
          [ParserProduction.new (pg.productions_.length : Int) symbol line none]) ∨
      ∃ start symbol line, pg.productions_ = [] ∧
        pg1.productions_ =
          [(ParserProduction.new 0 start 0 none).append_symbol symbol,
            ParserProduction.new 1 symbol line none] := by
  cases op with
  | grammar_symbol gs =>
    simp only [ParserGrammar.apply, Option.some.injEq] at h1
    subst h1
    left
    simp only [ParserGrammar.grammar_symbol, ParserGrammar.symbol_of]
    split <;> rfl
  | symbol_of type identifier line =>
    simp only [ParserGrammar.apply, Option.some.injEq] at h1
    subst h1
    left
    unfold ParserGrammar.symbol_of
    split <;> rfl
  | terminal identifier line =>
    simp only [ParserGrammar.apply, Option.some.injEq] at h1
    subst h1
    left
    simp only [ParserGrammar.terminal, ParserGrammar.symbol_of]
    split <;> rfl
  | non_terminal identifier line =>
    simp only [ParserGrammar.apply, Option.some.injEq] at h1
    subst h1
    left
    simp only [ParserGrammar.non_terminal, ParserGrammar.symbol_of]
    split <;> rfl
  | action_of identifier =>
    simp only [ParserGrammar.apply, Option.some.injEq] at h1
    subst h1
    left
    simp only [ParserGrammar.action_of, ParserGrammar.add_action]
    split
    · split
      · split <;> rfl
      · rfl
    · rfl
  | add_symbol type identifier line =>
    simp only [ParserGrammar.apply, Option.some.injEq] at h1
    subst h1
    exact Or.inl rfl
  | add_terminal identifier line =>
    simp only [ParserGrammar.apply, Option.some.injEq] at h1
    subst h1
    exact Or.inl rfl
  | add_non_terminal identifier line =>
    simp only [ParserGrammar.apply, Option.some.injEq] at h1
    subst h1
    exact Or.inl rfl
  | add_action identifier =>
    simp only [ParserGrammar.apply, Option.some.injEq] at h1
    subst h1
    left
    unfold ParserGrammar.add_action
    split
    · split <;> rfl
    · rfl
  | identifier identifier =>
    simp only [ParserGrammar.apply, Option.some.injEq] at h1
    subst h1
    exact Or.inl rfl
  | begin_production symbol line =>
    right
    right
    simp only [ParserGrammar.apply] at h1
    split at h1
    · by_cases h0 : pg.productions_ = []
      · right
        cases hstart : pg.start_symbol_ with
        | none =>
          simp [ParserGrammar.begin_production, ParserGrammar.begin_start_production, h0,
            hstart] at h1
        | some start =>
          simp only [ParserGrammar.begin_production, ParserGrammar.begin_start_production, h0,
            hstart, ParserGrammar.symbol, ParserGrammar.modify_back, if_true, List.nil_append,
            List.length_nil, List.length_cons, List.cons_ne_nil, if_false, Nat.sub_self,
            modifyAt, Option.some.injEq] at h1
          subst h1
          exact ⟨start, symbol, line, h0, rfl⟩
      · left
        simp only [ParserGrammar.begin_production, ParserGrammar.begin_start_production, h0,
          if_false, Option.some.injEq] at h1
        subst h1
        exact ⟨symbol, line, h0, rfl⟩
    · simp at h1
  | end_production =>
    simp only [ParserGrammar.apply, Option.some.injEq] at h1
    subst h1
    exact Or.inl rfl
  | symbol symbol =>
    right
    left
    simp only [ParserGrammar.apply, ParserGrammar.symbol] at h1
    split at h1
    · split at h1
      · simp at h1
      · simp only [Option.some.injEq] at h1
        subst h1
        exact ⟨fun p => p.append_symbol symbol, fun _ => ⟨rfl, rfl⟩, rfl⟩
    · simp at h1
  | action action =>
    right
    left
    simp only [ParserGrammar.apply, ParserGrammar.action] at h1
    split at h1
    · simp at h1
    · simp only [Option.some.injEq] at h1
      subst h1
      exact ⟨fun p => p.set_action action, fun _ => ⟨rfl, rfl⟩, rfl⟩
  | precedence_symbol symbol =>
    right
    left
    simp only [ParserGrammar.apply, ParserGrammar.precedence_symbol] at h1
    split at h1
    · simp at h1
    · simp only [Option.some.injEq] at h1
      subst h1
      exact ⟨fun p => p.set_precedence_symbol symbol, fun _ => ⟨rfl, rfl⟩, rfl⟩

theorem parser_reachable_indices {pg : ParserGrammar} (h : ParserReachable pg) :
    IndexOk (pg.productions_.map ParserProduction.index) := by
  induction h with
  | new =>
    intro i x hi
    have e : ParserGrammar.new.productions_ = [] := rfl
    rw [e] at hi
    simp at hi
  | apply pg pg1 op _ h1 ih =>
    rcases parser_apply_productions pg pg1 op h1 with h2 | ⟨f, hf, h2⟩ | ⟨symbol, line, _, h2⟩ |
      ⟨start, symbol, line, _, h2⟩
    · rw [h2]
      exact ih
    · rw [h2, map_modifyAt ParserProduction.index f (fun x => (hf x).1)]
      exact ih
    · rw [h2]
      have := index_ok_push ih
      simpa [ParserProduction.new] using this
    · rw [h2]
      intro i x hi
      simp only [List.map_cons, List.map_nil, ParserProduction.new,
        ParserProduction.append_symbol] at hi
      match i, hi with
      | 0, hi => simpa using hi.symm
      | 1, hi => simpa using hi.symm
      | i + 2, hi => simp at hi

/-! ## C18 and C19: indices and cross-references -/

/-- C18. In every reachable `Grammar` and every reachable `ParserGrammar` the
production at position `i` of the production list has index `i`, and the
left-hand side of the production at position 0 is the start symbol, named
`.start`. -/
theorem production_indices (g : Grammar) (hg : Reachable g) (pg : ParserGrammar)
    (hpg : ParserReachable pg) :
    (∀ (i : Nat) (p : Production), g.productions_[i]? = some p → p.index = (i : Int)) ∧
      (∀ p : Production, g.productions_[0]? = some p →
        g.start_symbol_ = some p.symbol ∧ g.lexemes[p.symbol]? = some ".start") ∧
      (∀ (i : Nat) (p : ParserProduction), pg.productions_[i]? = some p →
        p.index = (i : Int)) ∧
      ∀ p : ParserProduction, pg.productions_[0]? = some p →
        pg.start_symbol_ = some p.symbol ∧ pg.lexemes[p.symbol]? = some ".start" := by
  have h := reachable_inv hg
  have hx := reachable_xref hg
  have hp := parser_reachable_inv hpg
  have hpi := parser_reachable_indices hpg
  refine ⟨?_, ?_, ?_, ?_⟩
  · intro i p hi
    exact hx.indices i p.index (by simp [Grammar.indices, hi])
  · intro p hp0
    rcases h.augmented with h0 | ⟨p1, rest, h0⟩
    · rw [h0] at hp0
      simp at hp0
    · rw [h0] at hp0
      simp only [List.getElem?_cons_zero, Option.some.injEq] at hp0
      subst hp0
      refine ⟨h.start_symbol, ?_⟩
      have h1 := congrArg (fun l => l[0]?) h.names
      have h3 := inv_three_symbols h
      simpa [List.getElem?_take, start_production] using h1
  · intro i p hi
    exact hpi i p.index (by simp [hi])
  · intro p hp0
    rcases hp.augmented with h0 | ⟨p1, rest, h0⟩
    · rw [h0] at hp0
      simp at hp0
    · rw [h0] at hp0
      simp only [List.getElem?_cons_zero, Option.some.injEq] at hp0
      subst hp0
      refine ⟨hp.start_symbol, ?_⟩
      have h1 := congrArg (fun l => l[0]?) hp.names
      simpa [List.getElem?_take, parser_start_production] using h1

/-- Witness of C18: the grammars with the one rule `s: 'x';`. -/
theorem production_indices_witness :
    (∀ (i : Nat) (p : Production), (Grammar.new.run one_rule_ops).productions_[i]? = some p →
        p.index = (i : Int)) ∧
      (∀ p : Production, (Grammar.new.run one_rule_ops).productions_[0]? = some p →
        (Grammar.new.run one_rule_ops).start_symbol_ = some p.symbol ∧
          (Grammar.new.run one_rule_ops).lexemes[p.symbol]? = some ".start") ∧
      (∀ (i : Nat) (p : ParserProduction),
        ((ParserGrammar.new.run one_rule_parser_ops).getD ParserGrammar.new).productions_[i]? =
          some p → p.index = (i : Int)) ∧
      ∀ p : ParserProduction,
        ((ParserGrammar.new.run one_rule_parser_ops).getD ParserGrammar.new).productions_[0]? =
          some p →
        ((ParserGrammar.new.run one_rule_parser_ops).getD ParserGrammar.new).start_symbol_ =
            some p.symbol ∧
          ((ParserGrammar.new.run one_rule_parser_ops).getD ParserGrammar.new).lexemes[p.symbol]?
            = some ".start" :=
  production_indices (Grammar.new.run one_rule_ops) (reachable_run Reachable.new _)
    ((ParserGrammar.new.run one_rule_parser_ops).getD ParserGrammar.new)
    (parser_reachable_run ParserReachable.new one_rule_parser_ops rfl)

theorem mem_owners_lt (heads : List Nat) (s i : Nat) (h : i ∈ owners heads s) :
    i < heads.length := by
  unfold owners at h
  exact List.mem_range.1 (List.mem_filter.1 h).1

/-- Reading the productions at the positions `owners` lists gives the
productions whose left-hand side is `s`, in list order. -/
theorem owners_deref (l : List Production) (s : Nat) :
    (owners (l.map Production.symbol) s).map (fun i => l[i]?) =
      (l.filter (fun p => decide (p.symbol = s))).map some := by
  induction l using List.reverseRecOn with
  | nil => rfl
  | append_singleton l a ih =>
    rw [List.map_append, List.map_singleton, owners_append_singleton, List.map_append,
      List.filter_append, List.map_append]
    congr 1
    · rw [← ih]
      apply List.map_congr_left
      intro i hi
      have := mem_owners_lt _ _ _ hi
      rw [List.getElem?_append_left (by simpa using this)]
    · by_cases ha : a.symbol = s
      · simp [ha]
      · simp [ha]

/-- C19. In every reachable grammar state the production list of the symbol
at position `s` is `owners g.heads s`: the positions, in increasing order, of
the productions whose left-hand side is `s`; read through the production list
it is the sub-list of the productions whose left-hand side is `s`. -/
theorem symbol_productions (g : Grammar) (hg : Reachable g) (s : Nat) (sym : Symbol)
    (hs : g.symbols_[s]? = some sym) :
    sym.productions = owners g.heads s ∧
      sym.productions.map (fun i => g.productions_[i]?) =
        (g.productions_.filter (fun p => decide (p.symbol = s))).map some := by
  have hx := reachable_xref hg
  have h1 : sym.productions = owners g.heads s :=
    hx.refs s sym.productions (by simp [Grammar.refs, hs])
  exact ⟨h1, by rw [h1]; exact owners_deref g.productions_ s⟩

/-- Witness of C19: the nonterminal `s` of a grammar with the two rules
`s: 'x' | 'y';`. -/
theorem symbol_productions_witness :
    (Grammar.new.run [Op.production "s" 1, Op.literal "x" 1, Op.end_expression,
        Op.literal "y" 1, Op.end_expression, Op.end_production]).symbols_[3]? =
      some { lexeme := "s", symbol_type := SYMBOL_NON_TERMINAL, lexeme_type := LEXEME_NULL,
             associativity := ASSOCIATE_NULL, precedence := 0, line := 1,
             productions := [1, 2] } ∧
      ([1, 2] : List Nat) =
        owners (Grammar.new.run [Op.production "s" 1, Op.literal "x" 1, Op.end_expression,
          Op.literal "y" 1, Op.end_expression, Op.end_production]).heads 3 ∧
      ([1, 2] : List Nat).map
          (fun i => (Grammar.new.run [Op.production "s" 1, Op.literal "x" 1, Op.end_expression,
            Op.literal "y" 1, Op.end_expression, Op.end_production]).productions_[i]?) =
        ((Grammar.new.run [Op.production "s" 1, Op.literal "x" 1, Op.end_expression,
          Op.literal "y" 1, Op.end_expression, Op.end_production]).productions_.filter
            (fun p => decide (p.symbol = 3))).map some :=
  ⟨by decide,
    symbol_productions
      (Grammar.new.run [Op.production "s" 1, Op.literal "x" 1, Op.end_expression,
        Op.literal "y" 1, Op.end_expression, Op.end_production])
      (reachable_run Reachable.new _) 3
      { lexeme := "s", symbol_type := SYMBOL_NON_TERMINAL, lexeme_type := LEXEME_NULL,
        associativity := ASSOCIATE_NULL, precedence := 0, line := 1, productions := [1, 2] }
      (by decide)⟩

/-! ## C12: the precedence mark -/

theorem open_production_precedence (g : Grammar) (k : Nat) (hs : g.active_symbol_ = some k) :
    (g.precedence.open_production k).1.productions_ = (g.open_production k).1.productions_ ∧
      (g.precedence.open_production k).2 = (g.open_production k).2 := by
  simp only [Grammar.precedence, hs, Grammar.open_production, Grammar.add_production,
    Grammar.add_start_production]
  split
  · exact ⟨rfl, rfl⟩
  · split
    · split <;> exact ⟨rfl, rfl⟩
    · exact ⟨rfl, rfl⟩

/-- A `literal`, `regex` or `identifier` call made in production scope with a
precedence mark pending sets the precedence symbol of the active production,
opened if need be, and clears the mark. -/
theorem symbol_call_sets_precedence {g : Grammar} (h : GrammarInv g) (s : Nat)
    (hs : g.active_symbol_ = some s) (hflag : g.active_precedence_directive_ = true) (op : Op)
    (hop : op.takes_precedence = true) :
    ∃ q, (g.apply op).productions_ =
        modifyAt (fun x => x.set_precedence_symbol q) (g.open_production s).1.productions_
          (g.open_production s).2 ∧
      (g.apply op).lexemes[q]? = some op.symbol_name ∧
      (g.apply op).active_symbol_ = some s ∧
      (g.apply op).active_precedence_directive_ = false ∧
      (g.apply op).active_production_ = some (g.open_production s).2 := by
  obtain ⟨_, hw, hd⟩ := h.active_symbol s hs
  obtain ⟨h1, h2⟩ := inv_open_production h s hs
  have key : ∀ (lexeme : String) (line : Int) (lexeme_type : LexemeType)
      (symbol_type : SymbolType),
      ∃ q, (g.production_symbol s
          (fun k => k.add_symbol lexeme line lexeme_type symbol_type)).productions_ =
          modifyAt (fun x => x.set_precedence_symbol q) (g.open_production s).1.productions_
            (g.open_production s).2 ∧
        (g.production_symbol s
          (fun k => k.add_symbol lexeme line lexeme_type symbol_type)).lexemes[q]? =
          some lexeme ∧
        (g.production_symbol s
          (fun k => k.add_symbol lexeme line lexeme_type symbol_type)).active_symbol_ =
          some s ∧
        (g.production_symbol s
          (fun k => k.add_symbol lexeme line lexeme_type symbol_type)).active_precedence_directive_
          = false ∧
        (g.production_symbol s
          (fun k => k.add_symbol lexeme line lexeme_type symbol_type)).active_production_ =
          some (g.open_production s).2 := by
    intro lexeme line lexeme_type symbol_type
    obtain ⟨ext, he, _, t, ht, hl⟩ :=
      add_symbol_frame (g.open_production s).1 lexeme line lexeme_type symbol_type
    have hf : (g.open_production s).1.active_precedence_directive_ = true := by simp [hflag]
    refine ⟨((g.open_production s).1.add_symbol lexeme line lexeme_type symbol_type).2, ?_⟩
    simp only [Grammar.production_symbol, hf, if_true]
    refine ⟨by simp, ?_, by simp [hs], trivial, by simp [h2]⟩
    show (((g.open_production s).1.add_symbol lexeme line lexeme_type symbol_type).1.symbols_.map
      Symbol.lexeme)[_]? = _
    rw [he]
    show (((g.open_production s).1.symbols_ ++ ext).map Symbol.lexeme)[_]? = _
    rw [List.getElem?_map, ht]
    simp [hl]
  cases op with
  | literal literal line =>
    show ∃ q, (g.literal literal line).productions_ = _ ∧ (g.literal literal line).lexemes[q]? = _ ∧
      (g.literal literal line).active_symbol_ = _ ∧
      (g.literal literal line).active_precedence_directive_ = _ ∧
      (g.literal literal line).active_production_ = _
    simp only [Grammar.literal, hs, hd, hw, Bool.false_eq_true, if_false]
    exact key literal line LEXEME_LITERAL SYMBOL_NULL
  | regex regex line =>
    show ∃ q, (g.regex regex line).productions_ = _ ∧ (g.regex regex line).lexemes[q]? = _ ∧
      (g.regex regex line).active_symbol_ = _ ∧
      (g.regex regex line).active_precedence_directive_ = _ ∧
      (g.regex regex line).active_production_ = _
    simp only [Grammar.regex, hs, hd, hw, Bool.false_eq_true, if_false]
    exact key regex line LEXEME_REGULAR_EXPRESSION SYMBOL_NULL
  | identifier identifier line =>
    show ∃ q, (g.identifier identifier line).productions_ = _ ∧
      (g.identifier identifier line).lexemes[q]? = _ ∧
      (g.identifier identifier line).active_symbol_ = _ ∧
      (g.identifier identifier line).active_precedence_directive_ = _ ∧
      (g.identifier identifier line).active_production_ = _
    simp only [Grammar.identifier, hs, hd]
    exact key identifier line LEXEME_NULL SYMBOL_NON_TERMINAL
  | error => simp [Op.takes_precedence] at hop
  | left _ => simp [Op.takes_precedence] at hop
  | right _ => simp [Op.takes_precedence] at hop
  | none _ => simp [Op.takes_precedence] at hop
  | whitespace => simp [Op.takes_precedence] at hop
  | precedence => simp [Op.takes_precedence] at hop
  | production _ _ => simp [Op.takes_precedence] at hop
  | end_production => simp [Op.takes_precedence] at hop
  | end_expression => simp [Op.takes_precedence] at hop
  | action _ => simp [Op.takes_precedence] at hop

/-- C12. In production scope of a reachable grammar (`k` is the open
nonterminal), `precedence()` followed by a `literal`, `regex` or `identifier`
call naming `s` leaves as active production `p` the one that was active, or
one newly opened for `k` at the end of the list when none was; the production
list is that list with only the precedence symbol of production `p` changed,
to a symbol named `s` (no right-hand side changes); the mark is cleared, and
the next symbol call appends the symbol it names to the right-hand side of
production `p`.  With no nonterminal open `precedence()` returns the grammar
unchanged. -/
theorem precedence_marks_next_symbol (g : Grammar) (hg : Reachable g) (op : Op)
    (hop : op.takes_precedence = true) :
    (∀ k, g.active_symbol_ = some k →
        ∃ q p,
          (g.precedence.apply op).lexemes[q]? = some op.symbol_name ∧
          (g.precedence.apply op).active_production_ = some p ∧
          p = (g.open_production k).2 ∧
          (∀ a, g.active_production_ = some a →
            p = a ∧ (g.open_production k).1.productions_ = g.productions_) ∧
          (g.active_production_ = none →
            (g.open_production k).1.productions_ =
              (if g.productions_ = [] then [start_production 0 k] else g.productions_) ++
                [Production.new (p : Int) k (-1) none]) ∧
          (g.precedence.apply op).productions_.length =
            (g.open_production k).1.productions_.length ∧
          (∀ (i : Nat) (x : Production), (g.open_production k).1.productions_[i]? = some x →
            (g.precedence.apply op).productions_[i]? =
              some (if i = p then { x with precedence_symbol := some q } else x)) ∧
          (g.precedence.apply op).active_precedence_directive_ = false ∧
          ∀ op2, op2.is_symbol_call = true →
            ∃ q2, ((g.precedence.apply op).apply op2).productions_ =
                modifyAt (fun x => x.append_symbol q2) (g.precedence.apply op).productions_ p ∧
              ((g.precedence.apply op).apply op2).lexemes[q2]? = some op2.symbol_name) ∧
      (g.active_symbol_ = none → g.precedence = g) := by
  have h := reachable_inv hg
  constructor
  · intro k hs
    have hgp : GrammarInv g.precedence := inv_precedence h
    have hsp : g.precedence.active_symbol_ = some k := by simp [Grammar.precedence, hs]
    have hfp : g.precedence.active_precedence_directive_ = true := by
      simp [Grammar.precedence, hs]
    obtain ⟨q, e1, e2, e3, e4, e5⟩ := symbol_call_sets_precedence hgp k hsp hfp op hop
    obtain ⟨o1, o2⟩ := open_production_precedence g k hs
    rw [o1, o2] at e1
    rw [o2] at e5
    have hinv1 : GrammarInv (g.precedence.apply op) := inv_apply hgp op
    refine ⟨q, (g.open_production k).2, e2, e5, rfl, ?_, ?_, ?_, ?_, e4, ?_⟩
    · intro a ha
      rw [open_production_active g k a ha]
      exact ⟨rfl, rfl⟩
    · intro ha
      obtain ⟨f1, f2⟩ := open_production_closed h k ha
      rw [f1, f2]
    · rw [e1, length_modifyAt]
    · intro i x hx
      rw [e1, getElem?_modifyAt, hx]
      by_cases hi : i = (g.open_production k).2
      · simp [hi, Production.set_precedence_symbol]
      · simp [hi]
    · intro op2 hop2
      obtain ⟨q2, a1, a2, _, _, _⟩ := symbol_call_appends hinv1 k e3 e4 op2 hop2
      rw [open_production_active _ k _ e5] at a1
      exact ⟨q2, a1, a2⟩
  · intro hs
    simp [Grammar.precedence, hs]

/-- Witness of C12: `%precedence 'x'` right after `s:` on a fresh grammar, and
`precedence()` on the fresh grammar itself. -/
theorem precedence_marks_next_symbol_witness :
    (Grammar.new.production "s" 1).active_symbol_ = some 3 ∧
      Grammar.new.active_symbol_ = none ∧
      (∃ q p,
          ((Grammar.new.production "s" 1).precedence.apply (Op.literal "x" 1)).lexemes[q]? =
            some (Op.literal "x" 1).symbol_name ∧
          ((Grammar.new.production "s" 1).precedence.apply (Op.literal "x" 1)).active_production_
            = some p ∧
          p = ((Grammar.new.production "s" 1).open_production 3).2 ∧
          (∀ a, (Grammar.new.production "s" 1).active_production_ = some a →
            p = a ∧ ((Grammar.new.production "s" 1).open_production 3).1.productions_ =
              (Grammar.new.production "s" 1).productions_) ∧
          ((Grammar.new.production "s" 1).active_production_ = none →
            ((Grammar.new.production "s" 1).open_production 3).1.productions_ =
              (if (Grammar.new.production "s" 1).productions_ = [] then [start_production 0 3]
                else (Grammar.new.production "s" 1).productions_) ++
                [Production.new (p : Int) 3 (-1) none]) ∧
          ((Grammar.new.production "s" 1).precedence.apply (Op.literal "x" 1)).productions_.length
            = ((Grammar.new.production "s" 1).open_production 3).1.productions_.length ∧
          (∀ (i : Nat) (x : Production),
            ((Grammar.new.production "s" 1).open_production 3).1.productions_[i]? = some x →
            ((Grammar.new.production "s" 1).precedence.apply (Op.literal "x" 1)).productions_[i]?
              = some (if i = p then { x with precedence_symbol := some q } else x)) ∧
          ((Grammar.new.production "s" 1).precedence.apply
            (Op.literal "x" 1)).active_precedence_directive_ = false ∧
          ∀ op2, op2.is_symbol_call = true →
            ∃ q2, (((Grammar.new.production "s" 1).precedence.apply (Op.literal "x" 1)).apply
                  op2).productions_ =
                modifyAt (fun x => x.append_symbol q2)
                  ((Grammar.new.production "s" 1).precedence.apply (Op.literal "x" 1)).productions_
                  p ∧
              (((Grammar.new.production "s" 1).precedence.apply (Op.literal "x" 1)).apply
                op2).lexemes[q2]? = some op2.symbol_name) ∧
      Grammar.new.precedence = Grammar.new :=
  ⟨by decide, by decide,
    (precedence_marks_next_symbol (Grammar.new.production "s" 1)
      (Reachable.apply Grammar.new (Op.production "s" 1) Reachable.new) (Op.literal "x" 1)
      rfl).1 3 (by decide),
    (precedence_marks_next_symbol Grammar.new Reachable.new (Op.literal "x" 1) rfl).2
      (by decide)⟩

/-! ## C15: declaring a symbol again -/

/-- C15, as stated, fails on both counts.  The nonterminal `x`, declared with
lexeme type Null, is declared again as a literal: `add_symbol` returns it
unchanged, where the mandated rule gives it lexeme type Literal.  The literal
`x` is declared again as a regular expression: `add_symbol` returns it
unchanged, where the mandated rule is a `SyntaxError`. -/
theorem redeclaration_is_silent :
    (∃ s, (Grammar.new.production "x" 1).symbols_[3]? = some s ∧ s.lexeme_type = LEXEME_NULL ∧
        (Grammar.new.production "x" 1).literal_symbol "x" 2 =
          (Grammar.new.production "x" 1, 3) ∧
        mandated_redeclaration s LEXEME_LITERAL SYMBOL_NULL =
          some { s with lexeme_type := LEXEME_LITERAL } ∧
        mandated_redeclaration s LEXEME_LITERAL SYMBOL_NULL ≠ some s) ∧
      ∃ s, (Grammar.new.run listed_literal_ops).symbols_[3]? = some s ∧
        s.lexeme_type = LEXEME_LITERAL ∧
        (Grammar.new.run listed_literal_ops).regex_symbol "x" 2 =
          (Grammar.new.run listed_literal_ops, 3) ∧
        mandated_redeclaration s LEXEME_REGULAR_EXPRESSION SYMBOL_NULL = none :=
  ⟨⟨{ lexeme := "x", symbol_type := SYMBOL_NON_TERMINAL, lexeme_type := LEXEME_NULL,
      associativity := ASSOCIATE_NULL, precedence := 0, line := 1, productions := [] },
      by decide, by decide, by decide, by decide, by decide⟩,
    ⟨{ lexeme := "x", symbol_type := SYMBOL_NULL, lexeme_type := LEXEME_LITERAL,
       associativity := ASSOCIATE_NULL, precedence := 0, line := 1, productions := [] },
      by decide, by decide, by decide, by decide⟩⟩

theorem find_symbol_append_fresh (lexeme : String) (symbols : List Symbol) (s : Symbol)
    (h : find_symbol lexeme symbols = none) (hs : s.lexeme = lexeme) :
    find_symbol lexeme (symbols ++ [s]) = some symbols.length := by
  refine find_first_of_first Symbol.lexeme lexeme _ symbols.length s (by simp) hs ?_
  intro j hj b hb
  rw [List.getElem?_append_left hj] at hb
  intro hk
  exact find_first_none _ _ _ h (List.mem_map.2 ⟨b, List.getElem?_mem hb, hk⟩)

/-- C15, amended. Declaring a lexeme a second time, with whatever line, lexeme
type and symbol type, gives back the result of the first declaration: the same
symbol and the same grammar, so that no classification, Null or not, is ever
changed and nothing is raised; and a lexeme that was not in the table gets
exactly the classification of its first declaration. -/
theorem redeclaration_returns_first (g : Grammar) (lexeme : String) (line1 line2 : Int)
    (lexeme_type1 lexeme_type2 : LexemeType) (symbol_type1 symbol_type2 : SymbolType) :
    (g.add_symbol lexeme line1 lexeme_type1 symbol_type1).1.add_symbol lexeme line2 lexeme_type2
        symbol_type2 = g.add_symbol lexeme line1 lexeme_type1 symbol_type1 ∧
      (find_symbol lexeme g.symbols_ = none →
        (g.add_symbol lexeme line1 lexeme_type1 symbol_type1).1.symbols_[
            (g.add_symbol lexeme line1 lexeme_type1 symbol_type1).2]? =
          some { lexeme := lexeme, symbol_type := symbol_type1, lexeme_type := lexeme_type1,
                 associativity := ASSOCIATE_NULL, precedence := 0, line := line1,
                 productions := [] }) := by
  cases hf : find_symbol lexeme g.symbols_ with
  | some i =>
    rw [add_symbol_found g lexeme line1 lexeme_type1 symbol_type1 i hf]
    exact ⟨add_symbol_found g lexeme line2 lexeme_type2 symbol_type2 i hf,
      fun h => by simp at h⟩
  | none =>
    rw [add_symbol_fresh g lexeme line1 lexeme_type1 symbol_type1 hf]
    refine ⟨?_, fun _ => by simp⟩
    exact add_symbol_found _ lexeme line2 lexeme_type2 symbol_type2 _
      (find_symbol_append_fresh lexeme g.symbols_ _ hf rfl)

/-- Witness of C15 amended: `x` declared on a fresh grammar as a nonterminal
and then as a literal. -/
theorem redeclaration_returns_first_witness :
    find_symbol "x" Grammar.new.symbols_ = none ∧
      (Grammar.new.add_symbol "x" 1 LEXEME_NULL SYMBOL_NON_TERMINAL).1.add_symbol "x" 2
          LEXEME_LITERAL SYMBOL_NULL =
        Grammar.new.add_symbol "x" 1 LEXEME_NULL SYMBOL_NON_TERMINAL ∧
      (find_symbol "x" Grammar.new.symbols_ = none →
        (Grammar.new.add_symbol "x" 1 LEXEME_NULL SYMBOL_NON_TERMINAL).1.symbols_[
            (Grammar.new.add_symbol "x" 1 LEXEME_NULL SYMBOL_NON_TERMINAL).2]? =
          some { lexeme := "x", symbol_type := SYMBOL_NON_TERMINAL, lexeme_type := LEXEME_NULL,
                 associativity := ASSOCIATE_NULL, precedence := 0, line := 1,
                 productions := [] }) :=
  ⟨by decide,
    redeclaration_returns_first Grammar.new "x" 1 2 LEXEME_NULL LEXEME_LITERAL SYMBOL_NON_TERMINAL
      SYMBOL_NULL⟩

/-! ## C17: the distinguished symbols -/

theorem run_declarations (g : Grammar) (ops : List Op) :
    ∃ ext, (g.run ops).declarations = g.declarations ++ ext := by
  induction ops generalizing g with
  | nil => exact ⟨[], by simp [Grammar.run]⟩
  | cons op rest ih =>
    obtain ⟨_, ext1, _, _, _, _, _, _, e1⟩ := skeleton_apply g op
    obtain ⟨ext2, e2⟩ := ih (g.apply op)
    refine ⟨ext1.map Symbol.declared ++ ext2, ?_⟩
    show ((g.apply op).run rest).declarations = _
    rw [e2, e1, List.append_assoc]

/-- C17. In every grammar state reached from the constructor by builder calls
the start, end and error symbol pointers are positions 0, 1 and 2 of the
symbol table, the symbols there are named `.start`, `.end` and `.error`, and
the `.end` symbol has symbol type End; the same holds of a freshly constructed
`ParserGrammar`. -/
theorem distinguished_symbols (ops : List Op) :
    ((Grammar.new.run ops).start_symbol_ = some 0 ∧ (Grammar.new.run ops).end_symbol_ = some 1 ∧
        (Grammar.new.run ops).error_symbol_ = some 2 ∧
        ∃ s0 s1 s2 rest, (Grammar.new.run ops).symbols_ = s0 :: s1 :: s2 :: rest ∧
          s0.lexeme = ".start" ∧ s1.lexeme = ".end" ∧ s1.symbol_type = SYMBOL_END ∧
          s2.lexeme = ".error") ∧
      ParserGrammar.new.start_symbol_ = some 0 ∧ ParserGrammar.new.end_symbol_ = some 1 ∧
      ParserGrammar.new.error_symbol_ = some 2 ∧
      ∃ s0 s1 s2, ParserGrammar.new.symbols_ = [s0, s1, s2] ∧ s0.lexeme = ".start" ∧
        s1.lexeme = ".end" ∧ s1.type = SYMBOL_END ∧ s2.lexeme = ".error" := by
  have h := inv_run inv_new ops
  obtain ⟨ext, he⟩ := run_declarations Grammar.new ops
  have hd : Grammar.new.declarations =
      [(".start", SYMBOL_NON_TERMINAL, LEXEME_NULL, 0), (".end", SYMBOL_END, LEXEME_NULL, 0),
        (".error", SYMBOL_NULL, LEXEME_NULL, 0)] := by decide
  rw [hd] at he
  refine ⟨⟨h.start_symbol, h.end_symbol, h.error_symbol, ?_⟩, rfl, rfl, rfl,
    ⟨_, _, _, rfl, rfl, rfl, rfl, rfl⟩⟩
  simp only [Grammar.declarations] at he
  match hsym : (Grammar.new.run ops).symbols_, he with
  | [], he => simp at he
  | [_], he => simp at he
  | [_, _], he => simp at he
  | s0 :: s1 :: s2 :: rest, he =>
    simp only [List.map_cons, List.cons_append, List.nil_append, List.cons.injEq,
      Symbol.declared, Prod.mk.injEq] at he
    exact ⟨s0, s1, s2, rest, rfl, he.1.1, he.2.1.1, he.2.1.2.1, he.2.2.1.1⟩

/-! ## C16: the productions of `.start` -/

/-- C16, as stated, fails: after `.start: 'x';` the production list of the
`.start` symbol holds two productions, the augmented production 0 and
production 1. -/
theorem start_symbol_two_productions :
    (Grammar.new.run start_head_ops).productions_ ≠ [] ∧
      ∃ sym, (Grammar.new.run start_head_ops).generate_classify.symbols_[0]? = some sym ∧
        sym.lexeme = ".start" ∧ sym.productions = [0, 1] ∧ sym.productions.length ≠ 1 :=
  ⟨by decide,
    { lexeme := ".start", symbol_type := SYMBOL_NON_TERMINAL, lexeme_type := LEXEME_NULL,
      associativity := ASSOCIATE_NULL, precedence := 0, line := 0, productions := [0, 1] },
    by decide, by decide, by decide, by decide⟩

theorem owners_head_only (rest : List Nat) (h : ∀ x, x ∈ rest → x ≠ 0) :
    owners (0 :: rest) 0 = [0] := by
  induction rest using List.reverseRecOn with
  | nil => decide
  | append_singleton l a ih =>
    have ha : a ≠ 0 := h a (by simp)
    have := owners_append_singleton (0 :: l) a 0
    rw [List.cons_append] at this
    rw [this, ih (fun x hx => h x (by simp [hx])), if_neg ha, List.append_nil]

theorem no_start_head_apply {g : Grammar} (h : GrammarInv g) (hn : NoStartHead g) (op : Op)
    (hop : op.names_start = false) : NoStartHead (g.apply op) := by
  obtain ⟨hn1, hn2⟩ := hn
  constructor
  · cases hsc : op.sets_scope with
    | false =>
      rw [(apply_scope_frame g op hsc).2.2]
      exact hn1
    | true =>
      cases op with
      | left _ => simp [Grammar.apply, Grammar.left]
      | right _ => simp [Grammar.apply, Grammar.right]
      | none _ => simp [Grammar.apply, Grammar.none]
      | whitespace => simp [Grammar.apply, Grammar.whitespace]
      | end_production => simp [Grammar.apply, Grammar.end_production]
      | production identifier line =>
        intro h0
        have h1 := inv_production h identifier line
        obtain ⟨ext, he, _, t, ht, hl⟩ :=
          add_symbol_frame g identifier line LEXEME_NULL SYMBOL_NON_TERMINAL
        have h2 : (g.add_symbol identifier line LEXEME_NULL SYMBOL_NON_TERMINAL).2 = 0 := by
          have h4 : (g.production identifier line).active_symbol_ = some 0 := h0
          exact Option.some.inj h4
        rw [h2] at ht
        have h3 := inv_three_symbols h
        rw [List.getElem?_append_left (by omega)] at ht
        have hname := congrArg (fun l => l[0]?) h.names
        simp only [Grammar.lexemes, List.getElem?_take, List.getElem?_map, ht] at hname
        simp only [Nat.lt_irrefl, Option.map_some', List.getElem?_cons_zero] at hname
        simp [Op.names_start] at hop
        simp at hname
        exact hop (hl.symm.trans hname)
      | precedence => simp [Op.sets_scope] at hsc
      | end_expression => simp [Op.sets_scope] at hsc
      | error => simp [Op.sets_scope] at hsc
      | action _ => simp [Op.sets_scope] at hsc
      | literal _ _ => simp [Op.sets_scope] at hsc
      | regex _ _ => simp [Op.sets_scope] at hsc
      | identifier _ _ => simp [Op.sets_scope] at hsc
  · obtain ⟨g0, _, hg0, e1, _⟩ := skeleton_apply g op
    rw [e1]
    rcases hg0 with rfl | ⟨k, _, hk, rfl⟩
    · exact hn2
    · have hk0 : k ≠ 0 := by
        intro e
        rw [e] at hk
        exact hn1 hk
      by_cases h0 : g.productions_ = []
      · rw [add_production_empty g k 0 h0 h.start_symbol]
        intro x hx
        simp only [Grammar.heads, List.map_cons, List.map_nil, List.tail_cons,
          List.mem_singleton, Production.new] at hx
        rw [hx]
        exact hk0
      · rw [add_production_nonempty g k h0]
        intro x hx
        have hne : g.productions_.map Production.symbol ≠ [] := by simpa using h0
        simp only [Grammar.heads, List.map_append, List.map_cons, List.map_nil,
          List.tail_append_of_ne_nil hne, List.mem_append, List.mem_singleton,
          Production.new] at hx
        rcases hx with hx | hx
        · exact hn2 x hx
        · rw [hx]
          exact hk0

theorem no_start_head_run {g : Grammar} (h : GrammarInv g) (hn : NoStartHead g) (ops : List Op)
    (hops : ∀ op, op ∈ ops → op.names_start = false) : NoStartHead (g.run ops) := by
  induction ops generalizing g with
  | nil => exact hn
  | cons op rest ih =>
    exact ih (inv_apply h op) (no_start_head_apply h hn op (hops op (List.mem_cons_self _ _)))
      (fun o ho => hops o (List.mem_cons_of_mem _ ho))

/-- C16, amended. For every sequence of builder calls on a fresh grammar that
has no `production(".start")` call and yields at least one production, after
the classification passes of `generate` the production list of the `.start`
symbol is `[0]`: exactly one element, production 0. -/
theorem start_symbol_one_production (ops : List Op)
    (hops : ∀ op, op ∈ ops → op.names_start = false)
    (hne : (Grammar.new.run ops).productions_ ≠ []) :
    ∃ sym, (Grammar.new.run ops).generate_classify.symbols_[0]? = some sym ∧
      sym.lexeme = ".start" ∧ sym.productions = [0] := by
  have hr : Reachable (Grammar.new.run ops).generate_classify :=
    Reachable.generate _ (reachable_run Reachable.new ops)
  have h := reachable_inv hr
  have hx := reachable_xref hr
  have h0 := inv_run inv_new ops
  have hn := no_start_head_run inv_new ⟨by decide, by decide⟩ ops hops
  have h3 := inv_three_symbols h
  obtain ⟨sym, hsym⟩ : ∃ sym, (Grammar.new.run ops).generate_classify.symbols_[0]? = some sym :=
    ⟨_, List.getElem?_eq_getElem (by omega)⟩
  refine ⟨sym, hsym, ?_, ?_⟩
  · have h1 := congrArg (fun l => l[0]?) h.names
    simp only [Grammar.lexemes, List.getElem?_take, List.getElem?_map, hsym] at h1
    simpa using h1
  · have h1 := hx.refs 0 sym.productions (by simp [Grammar.refs, hsym])
    rw [h1]
    have hheads : (Grammar.new.run ops).generate_classify.heads = (Grammar.new.run ops).heads :=
      rfl
    rw [hheads]
    rcases h0.augmented with e | ⟨p1, rest, e⟩
    · exact absurd e hne
    · have hh : (Grammar.new.run ops).heads = 0 :: (p1 :: rest).map Production.symbol := by
        simp [Grammar.heads, e, start_production]
      rw [hh]
      apply owners_head_only
      intro x hx
      apply hn.2 x
      rw [hh]
      exact hx

/-- Witness of C16 amended: the grammar with the one rule `s: 'x';`. -/
theorem start_symbol_one_production_witness :
    (∀ op, op ∈ one_rule_ops → op.names_start = false) ∧
      (Grammar.new.run one_rule_ops).productions_ ≠ [] ∧
      ∃ sym, (Grammar.new.run one_rule_ops).generate_classify.symbols_[0]? = some sym ∧
        sym.lexeme = ".start" ∧ sym.productions = [0] :=
  ⟨by decide, by decide, start_symbol_one_production one_rule_ops (by decide) (by decide)⟩

/-! ## Scope mutual exclusion -/

/-- The scope fields right after construction: no scope is set. -/
theorem new_scope_fields :
    Grammar.new.active_directive_ = none ∧ Grammar.new.active_whitespace_directive_ = false ∧
      Grammar.new.active_symbol_ = none := by
  decide

/-- C23: in every reachable grammar state at most one of the open directive,
the whitespace flag and the open nonterminal is set; none of them is set right
after construction and right after `end_production()`; and each of `left`,
`right`, `none`, `whitespace` and `production` sets its own scope and clears the
other two. -/
theorem scope_mutual_exclusion (g : Grammar) (hg : Reachable g) :
    ((g.active_directive_ = none ∨ g.active_whitespace_directive_ = false) ∧
      (g.active_directive_ = none ∨ g.active_symbol_ = none) ∧
      (g.active_whitespace_directive_ = false ∨ g.active_symbol_ = none)) ∧
    (Grammar.new.active_directive_ = none ∧ Grammar.new.active_whitespace_directive_ = false ∧
      Grammar.new.active_symbol_ = none) ∧
    (g.end_production.active_directive_ = none ∧
      g.end_production.active_whitespace_directive_ = false ∧
      g.end_production.active_symbol_ = none) ∧
    (∀ line, (g.left line).active_directive_ = some g.directives_.length ∧
      (g.left line).active_whitespace_directive_ = false ∧
      (g.left line).active_symbol_ = none) ∧
    (∀ line, (g.right line).active_directive_ = some g.directives_.length ∧
      (g.right line).active_whitespace_directive_ = false ∧
      (g.right line).active_symbol_ = none) ∧
    (∀ line, (g.none line).active_directive_ = some g.directives_.length ∧
      (g.none line).active_whitespace_directive_ = false ∧
      (g.none line).active_symbol_ = none) ∧
    (g.whitespace.active_directive_ = none ∧
      g.whitespace.active_whitespace_directive_ = true ∧
      g.whitespace.active_symbol_ = none) ∧
    (∀ name line, (g.production name line).active_directive_ = none ∧
      (g.production name line).active_whitespace_directive_ = false ∧
      (g.production name line).active_symbol_ = some (g.non_terminal_symbol name line).2) := by
  refine ⟨?_, new_scope_fields, ⟨rfl, rfl, rfl⟩, fun _ => ⟨rfl, rfl, rfl⟩,
    fun _ => ⟨rfl, rfl, rfl⟩, fun _ => ⟨rfl, rfl, rfl⟩, ⟨rfl, rfl, rfl⟩,
    fun _ _ => ⟨rfl, rfl, rfl⟩⟩
  have h := reachable_scopes_le_one hg
  unfold Grammar.scopes_active at h
  cases hd : g.active_directive_ <;> cases hw : g.active_whitespace_directive_ <;>
    cases hs : g.active_symbol_ <;> simp [hd, hw, hs] at h ⊢

/-- C23 at a concrete grammar: after `whitespace()` and `left(1)` only the
directive scope is set. -/
theorem scope_mutual_exclusion_witness :
    (((Grammar.new.run [Op.whitespace, Op.left 1]).active_directive_ = none ∨
        (Grammar.new.run [Op.whitespace, Op.left 1]).active_whitespace_directive_ = false) ∧
      ((Grammar.new.run [Op.whitespace, Op.left 1]).active_directive_ = none ∨
        (Grammar.new.run [Op.whitespace, Op.left 1]).active_symbol_ = none) ∧
      ((Grammar.new.run [Op.whitespace, Op.left 1]).active_whitespace_directive_ = false ∨
        (Grammar.new.run [Op.whitespace, Op.left 1]).active_symbol_ = none)) ∧
    (Grammar.new.run [Op.whitespace, Op.left 1]).active_directive_ = some 0 :=
  ⟨(scope_mutual_exclusion (Grammar.new.run [Op.whitespace, Op.left 1])
      (reachable_run Reachable.new _)).1, by decide⟩

/-! ## The active production -/

/-- While a production is active, a builder call does not change the number of
productions. -/
theorem active_production_length (g : Grammar) (p : Nat) (hp : g.active_production_ = some p)
    (op : Op) : (g.apply op).productions_.length = g.productions_.length := by
  obtain ⟨g0, ext, h0, hheads, _⟩ := skeleton_apply g op
  have e0 : g0 = g := by
    rcases h0 with h0 | ⟨k, hn, _⟩
    · exact h0
    · rw [hp] at hn
      cases hn
  subst e0
  have := congrArg List.length hheads
  simpa [Grammar.heads] using this

/-- A builder call leaves every production unchanged that is not the last one
after the call. -/
theorem apply_keeps_earlier {g : Grammar} (h : GrammarInv g) (op : Op) (i : Nat)
    (hi : i < g.productions_.length) (hlast : i + 1 < (g.apply op).productions_.length) :
    (g.apply op).productions_[i]? = g.productions_[i]? := by
  have hst := stable_apply h op
  apply hst.productions
  cases hp : g.active_production_ with
  | none => simpa [Grammar.frozen, hp] using hi
  | some p =>
    have e := active_production_length g p hp op
    obtain ⟨hp1, _⟩ := h.active_production p hp
    simp only [Grammar.frozen, hp]
    omega

/-- C24: in every reachable grammar state in which a production is active, a
nonterminal is open (production scope), the active production is the last
element of the production list and its left-hand side is the open nonterminal;
and a builder call leaves every production unchanged that is not the last one
after the call, so a symbol call in production scope, which appends the symbol
it names, appends it to the last production. -/
theorem active_production_is_last (g : Grammar) (hg : Reachable g) :
    (∀ p, g.active_production_ = some p →
      ∃ k q, g.active_symbol_ = some k ∧ g.active_whitespace_directive_ = false ∧
        g.active_directive_ = none ∧ p + 1 = g.productions_.length ∧
        g.productions_[p]? = some q ∧ q.symbol = k) ∧
    (∀ (op : Op) (i : Nat) (x : Production), g.productions_[i]? = some x →
      i + 1 < (g.apply op).productions_.length → (g.apply op).productions_[i]? = some x) ∧
    (∀ (op : Op) (k : Nat), op.is_symbol_call = true → g.active_symbol_ = some k →
      g.active_precedence_directive_ = false →
      ∃ q x, (g.apply op).productions_.getLast? = some x ∧ x.symbol = k ∧
        x.symbols.getLast? = some q ∧ (g.apply op).lexemes[q]? = some op.symbol_name) := by
  have h := reachable_inv hg
  refine ⟨?_, ?_, ?_⟩
  · intro p hp
    obtain ⟨hp1, q, hq, hs⟩ := h.active_production p hp
    obtain ⟨_, hw, hd⟩ := h.active_symbol q.symbol hs
    exact ⟨q.symbol, q, hs, hw, hd, hp1, hq, rfl⟩
  · intro op i x hx hlast
    have hi : i < g.productions_.length := by
      rcases Nat.lt_or_ge i g.productions_.length with hlt | hge
      · exact hlt
      · rw [List.getElem?_eq_none hge] at hx
        cases hx
    rw [apply_keeps_earlier h op i hi hlast, hx]
  · intro op k hop hs hflag
    obtain ⟨q, e1, e2, _, _, _⟩ := symbol_call_appends h k hs hflag op hop
    obtain ⟨h1, h2⟩ := inv_open_production h k hs
    obtain ⟨hp1, y, hy, hys⟩ := h1.active_production _ h2
    have hk : (g.open_production k).1.active_symbol_ = some k := by
      cases hp : g.active_production_ with
      | some p => rw [open_production_active g k p hp]; exact hs
      | none => simp [Grammar.open_production, hp, hs]
    have hyk : y.symbol = k := by
      rw [hk] at hys
      exact (Option.some.inj hys).symm
    refine ⟨q, y.append_symbol q, ?_, hyk, ?_, e2⟩
    · rw [e1, List.getLast?_eq_getElem?, length_modifyAt, ← hp1, Nat.add_sub_cancel,
        getElem?_modifyAt_self, hy]
      rfl
    · simp [Production.append_symbol]

/-- C24 at a concrete grammar: after `production("s", 1)` and `literal("a", 1)`
production 1 is active, it is the last of two productions, and its left-hand
side is the open nonterminal. -/
theorem active_production_is_last_witness :
    ∃ k q, (Grammar.new.run [Op.production "s" 1, Op.literal "a" 1]).active_symbol_ = some k ∧
      (Grammar.new.run [Op.production "s" 1, Op.literal "a" 1]).active_whitespace_directive_ =
        false ∧
      (Grammar.new.run [Op.production "s" 1, Op.literal "a" 1]).active_directive_ = none ∧
      1 + 1 = (Grammar.new.run [Op.production "s" 1, Op.literal "a" 1]).productions_.length ∧
      (Grammar.new.run [Op.production "s" 1, Op.literal "a" 1]).productions_[1]? = some q ∧
      q.symbol = k :=
  (active_production_is_last (Grammar.new.run [Op.production "s" 1, Op.literal "a" 1])
    (reachable_run Reachable.new _)).1 1 (by decide)

/-! ## The pending precedence mark -/

/-- Opening a production does not write the precedence mark. -/
theorem open_production_mark (g : Grammar) (s : Nat) :
    (g.open_production s).1.active_precedence_directive_ = g.active_precedence_directive_ := by
  simp

/-- The calls `end_expression()`, `action(id)` and `error()` do not write the
precedence mark. -/
theorem closing_calls_keep_mark (g : Grammar) :
    g.end_expression.active_precedence_directive_ = g.active_precedence_directive_ ∧
    (∀ name, (g.action name).active_precedence_directive_ = g.active_precedence_directive_) ∧
    g.error.active_precedence_directive_ = g.active_precedence_directive_ := by
  refine ⟨?_, ?_, ?_⟩
  · unfold Grammar.end_expression
    cases g.active_symbol_ <;> simp
  · intro name
    unfold Grammar.action
    cases g.active_production_ <;> simp
  · unfold Grammar.error
    cases g.active_directive_ with
    | some d => cases g.error_symbol_ <;> rfl
    | none =>
      cases g.active_symbol_ with
      | none => rfl
      | some s =>
        simp only
        cases h : (g.open_production s).1.error_symbol_ <;> simp

/-- The production-scope branch of a symbol call leaves no precedence mark. -/
theorem production_symbol_mark (g : Grammar) (s : Nat) (lexeme : String) (line : Int)
    (lexeme_type : LexemeType) (symbol_type : SymbolType) :
    (g.production_symbol s
      (fun k => k.add_symbol lexeme line lexeme_type symbol_type)).active_precedence_directive_ =
      false := by
  unfold Grammar.production_symbol
  simp only []
  split
  · rfl
  · rename_i hf
    simpa using hf

/-- The directive-scope branch of a symbol call does not write the precedence
mark. -/
theorem directive_symbol_mark (g : Grammar) (d : Nat) (lexeme : String) (line : Int)
    (lexeme_type : LexemeType) (symbol_type : SymbolType) :
    (g.directive_symbol d
      (fun k => k.add_symbol lexeme line lexeme_type symbol_type)).active_precedence_directive_ =
      g.active_precedence_directive_ := by
  unfold Grammar.directive_symbol
  simp

/-- What a `literal`, `regex` or `identifier` call does to the precedence mark:
in production scope it leaves none, and outside production scope it does not
write it. -/
theorem symbol_call_mark (g : Grammar) (op : Op) (hop : op.takes_precedence = true) :
    (g.active_whitespace_directive_ = false → g.active_directive_ = none →
      g.active_symbol_.isSome = true → (g.apply op).active_precedence_directive_ = false) ∧
    (g.active_symbol_ = none →
      (g.apply op).active_precedence_directive_ = g.active_precedence_directive_) := by
  cases op with
  | literal lexeme line =>
    refine ⟨fun hw hd hs => ?_, fun hs => ?_⟩
    · obtain ⟨k, hk⟩ := Option.isSome_iff_exists.mp hs
      simp only [Grammar.apply, Grammar.literal, hw, hd, hk]
      exact production_symbol_mark g k lexeme line _ _
    · simp only [Grammar.apply, Grammar.literal, hs]
      split
      · rfl
      · cases hd : g.active_directive_ with
        | none => rfl
        | some d => exact directive_symbol_mark g d lexeme line _ _
  | regex lexeme line =>
    refine ⟨fun hw hd hs => ?_, fun hs => ?_⟩
    · obtain ⟨k, hk⟩ := Option.isSome_iff_exists.mp hs
      simp only [Grammar.apply, Grammar.regex, hw, hd, hk]
      exact production_symbol_mark g k lexeme line _ _
    · simp only [Grammar.apply, Grammar.regex, hs]
      split
      · rfl
      · cases hd : g.active_directive_ with
        | none => rfl
        | some d => exact directive_symbol_mark g d lexeme line _ _
  | identifier lexeme line =>
    refine ⟨fun _ hd hs => ?_, fun hs => ?_⟩
    · obtain ⟨k, hk⟩ := Option.isSome_iff_exists.mp hs
      simp only [Grammar.apply, Grammar.identifier, hd, hk]
      exact production_symbol_mark g k lexeme line _ _
    · simp only [Grammar.apply, Grammar.identifier, hs]
      cases hd : g.active_directive_ with
      | none => rfl
      | some d => exact directive_symbol_mark g d lexeme line _ _
  | left _ => simp [Op.takes_precedence] at hop
  | right _ => simp [Op.takes_precedence] at hop
  | none _ => simp [Op.takes_precedence] at hop
  | whitespace => simp [Op.takes_precedence] at hop
  | precedence => simp [Op.takes_precedence] at hop
  | production _ _ => simp [Op.takes_precedence] at hop
  | end_production => simp [Op.takes_precedence] at hop
  | end_expression => simp [Op.takes_precedence] at hop
  | error => simp [Op.takes_precedence] at hop
  | action _ => simp [Op.takes_precedence] at hop

/-- A call that enters or leaves a scope clears the precedence mark. -/
theorem scope_call_clears_mark (g : Grammar) (op : Op) (hop : op.sets_scope = true) :
    (g.apply op).active_precedence_directive_ = false := by
  cases op <;> first | rfl | simp [Op.sets_scope] at hop

/-- A pending precedence mark is cleared only by a call that enters or leaves a
scope, or by a `literal`, `regex` or `identifier` call made while a nonterminal
is open. -/
theorem mark_cleared_only (g : Grammar) (op : Op)
    (hset : g.active_precedence_directive_ = true)
    (hclear : (g.apply op).active_precedence_directive_ = false) :
    op.sets_scope = true ∨ (op.takes_precedence = true ∧ g.active_symbol_.isSome = true) := by
  have hk := closing_calls_keep_mark g
  have hsym : ∀ o : Op, o.takes_precedence = true →
      (g.apply o).active_precedence_directive_ = false →
      o.sets_scope = true ∨ (o.takes_precedence = true ∧ g.active_symbol_.isSome = true) := by
    intro o ho hc
    right
    refine ⟨ho, ?_⟩
    cases hs : g.active_symbol_ with
    | some k => rfl
    | none =>
      rw [(symbol_call_mark g o ho).2 hs, hset] at hc
      cases hc
  cases op with
  | left _ => exact Or.inl rfl
  | right _ => exact Or.inl rfl
  | none _ => exact Or.inl rfl
  | whitespace => exact Or.inl rfl
  | production _ _ => exact Or.inl rfl
  | end_production => exact Or.inl rfl
  | precedence =>
    exfalso
    simp only [Grammar.apply, Grammar.precedence] at hclear
    cases hs : g.active_symbol_ <;> simp [hs, hset] at hclear
  | end_expression =>
    exfalso
    have e : (g.apply Op.end_expression).active_precedence_directive_ = true := by
      rw [← hset]
      exact hk.1
    rw [e] at hclear
    cases hclear
  | error =>
    exfalso
    have e : (g.apply Op.error).active_precedence_directive_ = true := by
      rw [← hset]
      exact hk.2.2
    rw [e] at hclear
    cases hclear
  | action name =>
    exfalso
    have e : (g.apply (Op.action name)).active_precedence_directive_ = true := by
      rw [← hset]
      exact hk.2.1 name
    rw [e] at hclear
    cases hclear
  | literal lexeme line => exact hsym _ rfl hclear
  | regex lexeme line => exact hsym _ rfl hclear
  | identifier lexeme line => exact hsym _ rfl hclear

/-- After `precedence()` in production scope and a call that closes the
alternative (`end_expression()` or `action(id)`), the mark is still set, the
nonterminal is still open and no production is active. -/
theorem mark_after_close {g : Grammar} (h : GrammarInv g) (k : Nat)
    (hs : g.active_symbol_ = some k) (closer : Op)
    (hc : closer = Op.end_expression ∨ ∃ name, closer = Op.action name) :
    GrammarInv (g.run [Op.precedence, closer]) ∧
      (g.run [Op.precedence, closer]).active_symbol_ = some k ∧
      (g.run [Op.precedence, closer]).active_precedence_directive_ = true ∧
      (g.run [Op.precedence, closer]).active_production_ = none := by
  have e1 : g.precedence.active_precedence_directive_ = true := by
    simp [Grammar.precedence, hs]
  have e2 : g.precedence.active_symbol_ = some k := by
    simp [Grammar.precedence, hs]
  have hi : GrammarInv g.precedence := inv_apply h Op.precedence
  have hk := closing_calls_keep_mark g.precedence
  have hrun : g.run [Op.precedence, closer] = g.precedence.apply closer := rfl
  rw [hrun]
  refine ⟨inv_apply hi closer, ?_, ?_, ?_⟩
  · rcases hc with rfl | ⟨name, rfl⟩
    · rw [(apply_scope_frame g.precedence Op.end_expression rfl).2.2, e2]
    · rw [(apply_scope_frame g.precedence (Op.action name) rfl).2.2, e2]
  · rcases hc with rfl | ⟨name, rfl⟩
    · exact hk.1.trans e1
    · exact (hk.2.1 name).trans e1
  · rcases hc with rfl | ⟨name, rfl⟩
    · rfl
    · simp only [Grammar.apply, Grammar.action]
      cases hp : g.precedence.active_production_ with
      | none => simp [hp]
      | some p => rfl

/-- C25: a precedence mark set by `precedence()` is kept by `end_expression()`,
`action(id)` and `error()`; it is cleared by every call that enters or leaves a
scope and by a `literal`, `regex` or `identifier` call in production scope, and
by no other call.  So after `precedence()` followed by `end_expression()` or
`action(id)`, the next `literal`, `regex` or `identifier` call opens a new
production whose precedence symbol is the symbol it names and whose right-hand
side is empty. -/
theorem precedence_mark_survives (g : Grammar) (hg : Reachable g) :
    (∀ k, g.active_symbol_ = some k → g.precedence.active_precedence_directive_ = true) ∧
    (g.end_expression.active_precedence_directive_ = g.active_precedence_directive_ ∧
      (∀ name, (g.action name).active_precedence_directive_ = g.active_precedence_directive_) ∧
      g.error.active_precedence_directive_ = g.active_precedence_directive_) ∧
    (∀ op : Op, op.sets_scope = true → (g.apply op).active_precedence_directive_ = false) ∧
    (∀ op : Op, op.takes_precedence = true → g.active_symbol_.isSome = true →
      (g.apply op).active_precedence_directive_ = false) ∧
    (∀ op : Op, g.active_precedence_directive_ = true →
      (g.apply op).active_precedence_directive_ = false →
      op.sets_scope = true ∨ (op.takes_precedence = true ∧ g.active_symbol_.isSome = true)) ∧
    (∀ (k : Nat) (closer op : Op), g.active_symbol_ = some k →
      (closer = Op.end_expression ∨ ∃ name, closer = Op.action name) →
      op.takes_precedence = true →
      ∃ q base,
        base = (if (g.run [Op.precedence, closer]).productions_ = [] then [start_production 0 k]
          else (g.run [Op.precedence, closer]).productions_) ∧
        (g.run [Op.precedence, closer, op]).productions_ =
          base ++ [{ index := (base.length : Int), symbol := k, line := -1, action := none,
                     symbols := [], precedence_symbol := some q }] ∧
        (g.run [Op.precedence, closer, op]).lexemes[q]? = some op.symbol_name ∧
        (g.run [Op.precedence, closer, op]).active_precedence_directive_ = false) := by
  have h := reachable_inv hg
  refine ⟨?_, closing_calls_keep_mark g, scope_call_clears_mark g, ?_, mark_cleared_only g, ?_⟩
  · intro k hk
    simp [Grammar.precedence, hk]
  · intro op hop hs
    obtain ⟨k, hk⟩ := Option.isSome_iff_exists.mp hs
    obtain ⟨_, hw, hd⟩ := h.active_symbol k hk
    exact (symbol_call_mark g op hop).1 hw hd hs
  · intro k closer op hk hc hop
    obtain ⟨hi, hs2, hf2, hp2⟩ := mark_after_close h k hk closer hc
    obtain ⟨q, e1, e2, _, e4, _⟩ := symbol_call_sets_precedence hi k hs2 hf2 op hop
    obtain ⟨f1, f2⟩ := open_production_closed hi k hp2
    have hrun : g.run [Op.precedence, closer, op] = (g.run [Op.precedence, closer]).apply op :=
      rfl
    refine ⟨q, _, rfl, ?_, ?_, ?_⟩
    · rw [hrun, e1, f1, f2, modifyAt_length_append]
      rfl
    · rw [hrun]
      exact e2
    · rw [hrun]
      exact e4

/-- C25 at a concrete grammar: in `s: 'a' %precedence | 'b' ...` the literal
`b` that follows `end_expression()` becomes the precedence symbol of the new
production 2, whose right-hand side stays empty. -/
theorem precedence_mark_survives_witness :
    ∃ q base,
      base = (if ((Grammar.new.run [Op.production "s" 1, Op.literal "a" 1]).run
          [Op.precedence, Op.end_expression]).productions_ = [] then [start_production 0 3]
        else ((Grammar.new.run [Op.production "s" 1, Op.literal "a" 1]).run
          [Op.precedence, Op.end_expression]).productions_) ∧
      ((Grammar.new.run [Op.production "s" 1, Op.literal "a" 1]).run
          [Op.precedence, Op.end_expression, Op.literal "b" 1]).productions_ =
        base ++ [{ index := (base.length : Int), symbol := 3, line := -1, action := none,
                   symbols := [], precedence_symbol := some q }] ∧
      ((Grammar.new.run [Op.production "s" 1, Op.literal "a" 1]).run
          [Op.precedence, Op.end_expression, Op.literal "b" 1]).lexemes[q]? =
        some (Op.literal "b" 1).symbol_name ∧
      ((Grammar.new.run [Op.production "s" 1, Op.literal "a" 1]).run
          [Op.precedence, Op.end_expression, Op.literal "b" 1]).active_precedence_directive_ =
        false :=
  (precedence_mark_survives (Grammar.new.run [Op.production "s" 1, Op.literal "a" 1])
    (reachable_run Reachable.new _)).2.2.2.2.2 3 Op.end_expression (Op.literal "b" 1)
    (by decide) (Or.inl rfl) rfl

/-! ## `ParserGrammar` writes to the last production -/

/-- A run of `symbol` calls appends its arguments, in call order, to the
right-hand side of the last production and changes nothing else. -/
theorem parser_run_symbols (xs : List Nat) (pg : ParserGrammar) (base : List ParserProduction)
    (p : ParserProduction) (hp : pg.productions_ = base ++ [p])
    (hxs : ∀ x, x ∈ xs → x < pg.symbols_.length) :
    ∃ pg1, pg.run (xs.map ParserOp.symbol) = some pg1 ∧
      pg1.productions_ = base ++ [{ p with symbols := p.symbols ++ xs }] ∧
      pg1.symbols_ = pg.symbols_ := by
  induction xs generalizing pg p with
  | nil => exact ⟨pg, rfl, by simpa using hp, rfl⟩
  | cons x rest ih =>
    have hx : x < pg.symbols_.length := hxs x (List.mem_cons_self _ _)
    have hne : pg.productions_ ≠ [] := by
      rw [hp]
      simp
    have e : pg.apply (ParserOp.symbol x) =
        some (pg.modify_back (fun q => q.append_symbol x)) := by
      simp [ParserGrammar.apply, ParserGrammar.symbol, hx, hne]
    have hp1 : (pg.modify_back (fun q => q.append_symbol x)).productions_ =
        base ++ [p.append_symbol x] := by
      simp only [ParserGrammar.modify_back, hp]
      have hl : (base ++ [p]).length - 1 = base.length := by simp
      rw [hl, modifyAt_length_append]
    obtain ⟨pg1, r1, r2, r3⟩ := ih (pg.modify_back (fun q => q.append_symbol x))
      (p.append_symbol x) hp1 (fun y hy => hxs y (List.mem_cons_of_mem _ hy))
    refine ⟨pg1, ?_, ?_, ?_⟩
    · simp only [List.map_cons, ParserGrammar.run, e]
      exact r1
    · rw [r2]
      simp [ParserProduction.append_symbol]
    · rw [r3]
      rfl

/-- A call that writes through `productions_.back()` keeps the number of
productions and every production but the last. -/
theorem parser_writes_back (pg pg1 : ParserGrammar) (op : ParserOp)
    (hop : op.writes_back = true) (h : pg.apply op = some pg1) :
    pg1.symbols_ = pg.symbols_ ∧ pg1.productions_.length = pg.productions_.length ∧
      ∀ (i : Nat), i + 1 < pg.productions_.length → pg1.productions_[i]? = pg.productions_[i]? := by
  have key : ∀ f : ParserProduction → ParserProduction,
      (pg.modify_back f).symbols_ = pg.symbols_ ∧
      (pg.modify_back f).productions_.length = pg.productions_.length ∧
      ∀ (i : Nat), i + 1 < pg.productions_.length →
        (pg.modify_back f).productions_[i]? = pg.productions_[i]? := by
    intro f
    refine ⟨rfl, length_modifyAt _ _ _, fun i hi => ?_⟩
    exact getElem?_modifyAt_ne _ _ (by omega)
  cases op with
  | symbol x =>
    simp only [ParserGrammar.apply, ParserGrammar.symbol] at h
    split at h
    · split at h
      · cases h
      · cases h
        exact key _
    · cases h
  | action a =>
    simp only [ParserGrammar.apply, ParserGrammar.action] at h
    split at h
    · cases h
    · cases h
      exact key _
  | precedence_symbol x =>
    simp only [ParserGrammar.apply, ParserGrammar.precedence_symbol] at h
    split at h
    · cases h
    · cases h
      exact key _
  | grammar_symbol _ => simp [ParserOp.writes_back] at hop
  | symbol_of _ _ _ => simp [ParserOp.writes_back] at hop
  | terminal _ _ => simp [ParserOp.writes_back] at hop
  | non_terminal _ _ => simp [ParserOp.writes_back] at hop
  | action_of _ => simp [ParserOp.writes_back] at hop
  | add_symbol _ _ _ => simp [ParserOp.writes_back] at hop
  | add_terminal _ _ => simp [ParserOp.writes_back] at hop
  | add_non_terminal _ _ => simp [ParserOp.writes_back] at hop
  | add_action _ => simp [ParserOp.writes_back] at hop
  | identifier _ => simp [ParserOp.writes_back] at hop
  | begin_production _ _ => simp [ParserOp.writes_back] at hop
  | end_production => simp [ParserOp.writes_back] at hop

/-- C22: on a `ParserGrammar` that already has productions,
`begin_production(A, line)` followed by `symbol(x1)` .. `symbol(xn)` adds
exactly one production, at the back, with index equal to the previous
production count, left-hand side `A` and right-hand side `[x1..xn]` in call
order, and appends its position to the production list of `A`; and `symbol`,
`action` and `precedence_symbol` keep the number of productions and every
production but the last. -/
theorem begin_production_appends (pg : ParserGrammar) (A : Nat) (line : Int) (xs : List Nat)
    (hne : pg.productions_ ≠ []) (hA : A < pg.symbols_.length)
    (hxs : ∀ x, x ∈ xs → x < pg.symbols_.length) :
    (∃ pg1 sA, pg.run (ParserOp.begin_production A line :: xs.map ParserOp.symbol) = some pg1 ∧
      pg1.productions_ = pg.productions_ ++
        [{ index := (pg.productions_.length : Int), symbol := A, line := line, action := none,
           symbols := xs, precedence_symbol := none }] ∧
      pg.symbols_[A]? = some sA ∧
      pg1.symbols_[A]? =
        some { sA with productions := sA.productions ++ [pg.productions_.length] } ∧
      (∀ (j : Nat), j ≠ A → pg1.symbols_[j]? = pg.symbols_[j]?)) ∧
    (∀ (op : ParserOp) (pg1 : ParserGrammar), op.writes_back = true → pg.apply op = some pg1 →
      pg1.symbols_ = pg.symbols_ ∧ pg1.productions_.length = pg.productions_.length ∧
      ∀ (i : Nat), i + 1 < pg.productions_.length →
        pg1.productions_[i]? = pg.productions_[i]?) := by
  refine ⟨?_, fun op pg1 hop h => parser_writes_back pg pg1 op hop h⟩
  obtain ⟨pg0, e, hp0, hs0⟩ : ∃ pg0, pg.apply (ParserOp.begin_production A line) = some pg0 ∧
      pg0.productions_ = pg.productions_ ++
        [ParserProduction.new (pg.productions_.length : Int) A line none] ∧
      pg0.symbols_ =
        modifyAt (fun s => s.append_production pg.productions_.length) pg.symbols_ A :=
    ⟨{ pg with
        symbols_ := modifyAt (fun s => s.append_production pg.productions_.length) pg.symbols_ A
        productions_ := pg.productions_ ++
          [ParserProduction.new (pg.productions_.length : Int) A line none] },
      by simp [ParserGrammar.apply, ParserGrammar.begin_production,
        ParserGrammar.begin_start_production, hA, hne], rfl, rfl⟩
  obtain ⟨pg1, r1, r2, r3⟩ := parser_run_symbols xs pg0 pg.productions_
    (ParserProduction.new (pg.productions_.length : Int) A line none) hp0
    (by
      intro x hx
      rw [hs0, length_modifyAt]
      exact hxs x hx)
  rw [hs0] at r3
  obtain ⟨sA, hsA⟩ : ∃ sA, pg.symbols_[A]? = some sA :=
    ⟨pg.symbols_[A], List.getElem?_eq_getElem hA⟩
  refine ⟨pg1, sA, ?_, ?_, hsA, ?_, ?_⟩
  · simp only [ParserGrammar.run, e]
    exact r1
  · rw [r2]
    simp [ParserProduction.new]
  · rw [r3, getElem?_modifyAt_self, hsA]
    rfl
  · intro j hj
    rw [r3]
    exact getElem?_modifyAt_ne _ _ hj

/-- C22 at a concrete grammar: on a grammar with two productions,
`begin_production(s, 2)`, `symbol(x)`, `symbol(y)` adds production 2, `s -> x y`. -/
theorem begin_production_appends_witness :
    ∃ pg1 sA,
      two_rules_parser_grammar.run
        (ParserOp.begin_production 3 2 :: [4, 5].map ParserOp.symbol) = some pg1 ∧
      pg1.productions_ = two_rules_parser_grammar.productions_ ++
        [{ index := (two_rules_parser_grammar.productions_.length : Int), symbol := 3, line := 2,
           action := none, symbols := [4, 5], precedence_symbol := none }] ∧
      two_rules_parser_grammar.symbols_[3]? = some sA ∧
      pg1.symbols_[3]? =
        some { sA with
          productions := sA.productions ++ [two_rules_parser_grammar.productions_.length] } ∧
      (∀ (j : Nat), j ≠ 3 → pg1.symbols_[j]? = two_rules_parser_grammar.symbols_[j]?) :=
  (begin_production_appends two_rules_parser_grammar 3 2 [4, 5] (by decide) (by decide)
    (by decide)).1

/-! ## Scanner longest match -/

theorem accepts_from_nil (m : LexerStateMachine) (s : Nat) :
    m.accepts_from s [] = m.symbol_at s := rfl

theorem accepts_from_cons_some (m : LexerStateMachine) {s c t : Nat} (h : m.step s c = some t)
    (w : List Nat) : m.accepts_from s (c :: w) = m.accepts_from t w := by
  simp [LexerStateMachine.accepts_from, LexerStateMachine.reach, h]

theorem accepts_from_cons_none (m : LexerStateMachine) {s c : Nat} (h : m.step s c = none)
    (w : List Nat) : m.accepts_from s (c :: w) = none := by
  simp [LexerStateMachine.accepts_from, LexerStateMachine.reach, h]

/-- Where the DFA halts on the first character of the input, only the empty
prefix can be accepted. -/
theorem scan_stop (m : LexerStateMachine) (s position : Nat) (last : Option (Nat × Nat))
    (c : Nat) (rest : List Nat)
    (hk : ∀ k, m.accepts_from s ((c :: rest).take (k + 1)) = none) :
    (∃ n symbol, n ≤ (c :: rest).length ∧
      m.mark s position last = some (position + n, symbol) ∧
      m.accepts_from s ((c :: rest).take n) = some symbol ∧
      ∀ k, n < k → k ≤ (c :: rest).length → m.accepts_from s ((c :: rest).take k) = none) ∨
    (m.mark s position last = last ∧ ∀ k, m.accepts_from s ((c :: rest).take k) = none) := by
  cases hs : m.symbol_at s with
  | some symbol =>
    left
    refine ⟨0, symbol, Nat.zero_le _, by simp [LexerStateMachine.mark, hs], ?_, ?_⟩
    · simpa [accepts_from_nil] using hs
    · intro k hk0 _
      obtain ⟨j, rfl⟩ := Nat.exists_eq_succ_of_ne_zero (Nat.pos_iff_ne_zero.mp hk0)
      exact hk j
  | none =>
    right
    refine ⟨by simp [LexerStateMachine.mark, hs], ?_⟩
    intro k
    cases k with
    | zero => simpa [accepts_from_nil] using hs
    | succ j => exact hk j

/-- What the DFA loop returns: either the end of the longest accepted prefix of
the input with the symbol of that prefix, or, when no prefix is accepted, the
pair it was started with. -/
theorem scan_spec (m : LexerStateMachine) (input : List Nat) (s position : Nat)
    (last : Option (Nat × Nat)) :
    (∃ n symbol, n ≤ input.length ∧ m.scan s input position last = some (position + n, symbol) ∧
      m.accepts_from s (input.take n) = some symbol ∧
      ∀ k, n < k → k ≤ input.length → m.accepts_from s (input.take k) = none) ∨
    (m.scan s input position last = last ∧ ∀ k, m.accepts_from s (input.take k) = none) := by
  induction input generalizing s position last with
  | nil =>
    cases hs : m.symbol_at s with
    | some symbol =>
      left
      refine ⟨0, symbol, Nat.le_refl _, by simp [LexerStateMachine.scan, LexerStateMachine.mark, hs],
        by simpa [accepts_from_nil] using hs, ?_⟩
      intro k hk0 hk1
      simp at hk1
      omega
    | none =>
      right
      refine ⟨by simp [LexerStateMachine.scan, LexerStateMachine.mark, hs], ?_⟩
      intro k
      simpa [accepts_from_nil] using hs
  | cons c rest ih =>
    cases ht : m.step s c with
    | none =>
      have e : m.scan s (c :: rest) position last = m.mark s position last := by
        simp [LexerStateMachine.scan, ht]
      rw [e]
      apply scan_stop m s position last c rest
      intro k
      rw [List.take_succ_cons]
      exact accepts_from_cons_none m ht _
    | some t =>
      have e : m.scan s (c :: rest) position last =
          m.scan t rest (position + 1) (m.mark s position last) := by
        simp [LexerStateMachine.scan, ht]
      rw [e]
      rcases ih t (position + 1) (m.mark s position last) with
        ⟨n, symbol, hn, h1, h2, h3⟩ | ⟨h1, h2⟩
      · left
        refine ⟨n + 1, symbol, by simpa using hn, ?_, ?_, ?_⟩
        · rw [h1]
          congr 2
          omega
        · rw [List.take_succ_cons, accepts_from_cons_some m ht]
          exact h2
        · intro k hk0 hk1
          obtain ⟨j, rfl⟩ := Nat.exists_eq_succ_of_ne_zero (by omega : k ≠ 0)
          rw [List.take_succ_cons, accepts_from_cons_some m ht]
          exact h3 j (by omega) (by simpa using hk1)
      · rw [h1]
        apply scan_stop m s position last c rest
        intro k
        rw [List.take_succ_cons, accepts_from_cons_some m ht]
        exact h2 k

/-- The DFA loop, started in the start state with nothing remembered, returns
the end and the symbol of the longest match at the front of the input, or
nothing when the DFA accepts no prefix of the input. -/
theorem scan_longest (m : LexerStateMachine) (input : List Nat) (position : Nat) :
    (∃ word symbol, LongestMatch m input word symbol ∧
      m.scan m.start_state input position none = some (position + word.length, symbol)) ∨
    (m.scan m.start_state input position none = none ∧
      ∀ v : List Nat, v <+: input → m.accepts v = none) := by
  rcases scan_spec m input m.start_state position none with ⟨n, symbol, hn, h1, h2, h3⟩ | ⟨h1, h2⟩
  · left
    have hl : (input.take n).length = n := by simp [hn]
    refine ⟨input.take n, symbol, ⟨List.take_prefix _ _, h2, ?_⟩, by rw [hl]; exact h1⟩
    intro v hv hacc
    rw [hl]
    by_contra hlt
    have e := h3 v.length (by omega) hv.length_le
    rw [← List.prefix_iff_eq_take.mp hv] at e
    rw [LexerStateMachine.accepts, e] at hacc
    cases hacc
  · right
    refine ⟨h1, ?_⟩
    intro v hv
    have e := h2 v.length
    rw [← List.prefix_iff_eq_take.mp hv] at e
    exact e

/-- If the token DFA accepts a prefix of the remaining input, `run` moves to
the end of the longest match, stores it as the lexeme and returns its symbol. -/
theorem run_longest (l : Lexer) (w : List Nat) (hw : w <+: l.remaining)
    (hacc : (l.state_machine_.accepts w).isSome = true) :
    ∃ word symbol, LongestMatch l.state_machine_ l.remaining word symbol ∧
      l.run = ({ l with position_ := l.position_ + word.length, lexeme_ := word }, some symbol) := by
  rcases scan_longest l.state_machine_ l.remaining l.position_ with
    ⟨word, symbol, hm, h1⟩ | ⟨_, h2⟩
  · refine ⟨word, symbol, hm, ?_⟩
    have e : l.remaining.take (l.position_ + word.length - l.position_) = word := by
      rw [Nat.add_sub_cancel_left]
      exact (List.prefix_iff_eq_take.mp hm.1).symm
    simp only [Lexer.run, h1, e]
  · rw [h2 w hw] at hacc
    cases hacc

/-- Skipping whitespace writes the position only. -/
theorem skip_eq (l : Lexer) : l.skip = { l with position_ := l.skip.position_ } := by
  obtain ⟨m, ws, e, input, position, lexeme, symbol, full⟩ := l
  cases ws <;> rfl

/-- The whitespace loop stays where the whitespace DFA has no match that
advances the position. -/
theorem skip_loop_fixed (m : LexerStateMachine) (input : List Nat) (turns position : Nat)
    (h : ∀ v : List Nat, v <+: input.drop position → v ≠ [] → m.accepts v = none) :
    skip_loop m input turns position = position := by
  cases turns with
  | zero => rfl
  | succ turns =>
    rcases scan_longest m (input.drop position) position with ⟨word, symbol, hm, h1⟩ | ⟨h1, _⟩
    · have hw : word = [] := by
        by_contra hne
        have e := h word hm.1 hne
        rw [hm.2.1] at e
        cases e
      subst hw
      simp [skip_loop, h1]
    · simp [skip_loop, h1]

/-- The whitespace loop has turns enough: where it stops, the whitespace DFA
has no match that advances the position. -/
theorem skip_loop_stops (m : LexerStateMachine) (input : List Nat) (turns position : Nat)
    (ht : input.length - position ≤ turns) (v : List Nat)
    (hv : v <+: input.drop (skip_loop m input turns position)) (hne : v ≠ []) :
    m.accepts v = none := by
  induction turns generalizing position with
  | zero =>
    exfalso
    have e : input.drop position = [] := List.drop_eq_nil_of_le (by omega)
    simp only [skip_loop] at hv
    rw [e] at hv
    exact hne (List.prefix_nil.mp hv)
  | succ turns ih =>
    rcases scan_longest m (input.drop position) position with ⟨word, symbol, hm, h1⟩ | ⟨h1, h2⟩
    · by_cases hadv : position < position + word.length
      · have e : skip_loop m input (turns + 1) position =
            skip_loop m input turns (position + word.length) := by
          simp [skip_loop, h1, hadv]
        rw [e] at hv
        exact ih (position + word.length) (by omega) hv
      · have e : skip_loop m input (turns + 1) position = position := by
          simp only [skip_loop, h1, if_neg hadv]
        rw [e] at hv
        cases hacc : m.accepts v with
        | none => rfl
        | some x =>
          exfalso
          have hlen := hm.2.2 v hv (by simp [hacc])
          have : v.length = 0 := by omega
          exact hne (List.length_eq_zero.mp this)
    · have e : skip_loop m input (turns + 1) position = position := by
        simp [skip_loop, h1]
      rw [e] at hv
      exact h2 v hv

/-- The whitespace loop never moves backwards. -/
theorem skip_loop_le (m : LexerStateMachine) (input : List Nat) (turns position : Nat) :
    position ≤ skip_loop m input turns position := by
  induction turns generalizing position with
  | zero => exact Nat.le_refl _
  | succ turns ih =>
    cases h : m.scan m.start_state (input.drop position) position none with
    | none => simp [skip_loop, h]
    | some r =>
      obtain ⟨accept, symbol⟩ := r
      by_cases hadv : position < accept
      · simp only [skip_loop, h, if_pos hadv]
        exact Nat.le_trans (Nat.le_of_lt hadv) (ih accept)
      · simp [skip_loop, h, hadv]

/-- Skipping whitespace never moves backwards. -/
theorem skip_position_le (l : Lexer) : l.position_ ≤ l.skip.position_ := by
  cases hws : l.whitespace_state_machine_ with
  | none => simp [Lexer.skip, hws]
  | some ws =>
    simp only [Lexer.skip, hws]
    exact skip_loop_le ws l.input_ _ l.position_

/-- The retry loop of `advance()` has turns enough: with more turns than
characters remain, the result does not depend on the number of turns. -/
theorem advance_loop_turns (a b : Nat) (l : Lexer) (ha : l.input_.length - l.position_ < a)
    (hb : l.input_.length - l.position_ < b) : advance_loop a l = advance_loop b l := by
  induction a generalizing b l with
  | zero => omega
  | succ a ih =>
    obtain ⟨b, rfl⟩ := Nat.exists_eq_succ_of_ne_zero (by omega : b ≠ 0)
    have hi : l.skip.input_ = l.input_ := by rw [skip_eq l]
    have hle := skip_position_le l
    by_cases hend : l.skip.input_.length ≤ l.skip.position_
    · simp only [advance_loop, hend, if_true]
    · cases hr : l.skip.run with
      | mk l2 o =>
        cases o with
        | some symbol => simp only [advance_loop, hend, if_false, hr]
        | none =>
          simp only [advance_loop, hend, if_false, hr]
          rw [hi] at hend
          apply ih
          · show l.skip.input_.length - (l.skip.position_ + 1) < a
            rw [hi]
            omega
          · show l.skip.input_.length - (l.skip.position_ + 1) < b
            rw [hi]
            omega

/-- One turn of `advance()` away from the end of the input, where the token DFA
accepts a prefix of what follows the whitespace: the longest match is emitted. -/
theorem advance_longest (l : Lexer) (w : List Nat) (hpos : l.skip.position_ < l.input_.length)
    (hw : w <+: l.skip.remaining) (hacc : (l.state_machine_.accepts w).isSome = true) :
    ∃ lexeme symbol, LongestMatch l.state_machine_ l.skip.remaining lexeme symbol ∧
      l.advance = { l with
        position_ := l.skip.position_ + lexeme.length
        lexeme_ := lexeme
        symbol_ := some symbol } := by
  have hi : l.skip.input_ = l.input_ := by rw [skip_eq l]
  have hm : l.skip.state_machine_ = l.state_machine_ := by rw [skip_eq l]
  obtain ⟨word, symbol, hlm, hrun⟩ := run_longest l.skip w hw (by rw [hm]; exact hacc)
  rw [hm] at hlm
  refine ⟨word, symbol, hlm, ?_⟩
  have hnot : ¬ (l.skip.input_.length ≤ l.skip.position_) := by
    rw [hi]
    omega
  simp only [Lexer.advance, advance_loop, hnot, if_false, hrun]
  obtain ⟨m, ws, e, input, position, lexeme, sym, full⟩ := l
  cases ws <;> rfl

/-- C21: scanner longest match.  When `advance()` has skipped whitespace and is
not at the end of the input, and the token DFA accepts some prefix of the input
that follows, it emits the symbol and the lexeme of the longest prefix that the
token DFA accepts and leaves the position at the end of that prefix.  Nothing
is skipped where the whitespace DFA has no match, and whitespace is skipped up
to a position where it has none.  With the tokens `if` and `[a-z]+`, scanning
`ifxy` yields the token `[a-z]+` with lexeme `ifxy`, and then the end of the
input. -/
theorem scanner_longest_match (l : Lexer) (w : List Nat)
    (hpos : l.skip.position_ < l.input_.length) (hw : w <+: l.skip.remaining)
    (hacc : (l.state_machine_.accepts w).isSome = true) :
    (∃ lexeme symbol, LongestMatch l.state_machine_ l.skip.remaining lexeme symbol ∧
      l.advance = { l with
        position_ := l.skip.position_ + lexeme.length
        lexeme_ := lexeme
        symbol_ := some symbol }) ∧
    ((∀ ws, l.whitespace_state_machine_ = some ws →
        ∀ v : List Nat, v <+: l.remaining → v ≠ [] → ws.accepts v = none) → l.skip = l) ∧
    (∀ ws, l.whitespace_state_machine_ = some ws →
      ∀ v : List Nat, v <+: l.skip.remaining → v ≠ [] → ws.accepts v = none) ∧
    ((if_or_letters_lexer "ifxy").advance =
        { if_or_letters_lexer "ifxy" with
          position_ := 4
          lexeme_ := "ifxy".toList.map Char.toNat
          symbol_ := some 1 } ∧
      (if_or_letters_lexer "ifxy").advance.advance.symbol_ = some 2 ∧
      (if_or_letters_lexer "ifxy").advance.advance.full_ = true) := by
  refine ⟨advance_longest l w hpos hw hacc, ?_, ?_, by decide⟩
  · intro h
    cases hws : l.whitespace_state_machine_ with
    | none => simp [Lexer.skip, hws]
    | some ws =>
      have e := skip_loop_fixed ws l.input_ (l.input_.length - l.position_) l.position_
        (h ws hws)
      have ep : l.skip.position_ = l.position_ := by simp only [Lexer.skip, hws, e]
      rw [skip_eq l, ep]
  · intro ws hws v hv hne
    have e : l.skip.remaining = l.input_.drop
        (skip_loop ws l.input_ (l.input_.length - l.position_) l.position_) := by
      simp only [Lexer.skip, hws, Lexer.remaining]
    rw [e] at hv
    exact skip_loop_stops ws l.input_ _ l.position_ (Nat.le_refl _) v hv hne

/-- C21 at a concrete scanner: on `  if xy` the blanks are skipped and the
longest match `if` is emitted. -/
theorem scanner_longest_match_witness :
    ∃ lexeme symbol,
      LongestMatch (if_or_letters_lexer "  if xy").state_machine_
        (if_or_letters_lexer "  if xy").skip.remaining lexeme symbol ∧
      (if_or_letters_lexer "  if xy").advance =
        { if_or_letters_lexer "  if xy" with
          position_ := (if_or_letters_lexer "  if xy").skip.position_ + lexeme.length
          lexeme_ := lexeme
          symbol_ := some symbol } :=
  (scanner_longest_match (if_or_letters_lexer "  if xy") ("if".toList.map Char.toNat)
    (by decide) (by decide) (by decide)).1

end Lalr
